import Mathlib

/-!
Verification development for the debug-agent causal knowledge graph core:
the `CausalGraph` model with its DAG invariant (src/src/graph/models.py) and
the augmentation engine (src/ckg-augment/ckg_augment/augmenter.py).

The Python source is shallowly embedded: Python dicts become association
lists preserving insertion order (Python 3.7+ dict semantics), floats become
rationals, exceptions become `Except`-style results, and the networkx
`DiGraph` edge store becomes an ordered list of `(source, target)` pairs with
edge attributes and upsert semantics (re-adding an edge replaces its
attributes, keeping its position).  External library calls that the
repository treats as black boxes (`difflib.SequenceMatcher.ratio`,
`hashlib.sha1` hex digests) are abstracted as explicit function parameters of
the augmenter configuration, mirroring how the source delegates to them.
-/

namespace DebugAgent

/-- Entity kinds, from `EntityType` in src/src/graph/models.py. -/
inductive EntityType where
  | SYMPTOM
  | COMPONENT
  | METRIC
  | HYPOTHESIS
  | ROOT_CAUSE
  | ACTION
  | OBSERVATION
  | CONCLUSION
deriving DecidableEq, Repr, BEq

/-- The string value of an entity type, as in the Python enum. -/
def EntityType.value : EntityType → String
  | .SYMPTOM => "Symptom"
  | .COMPONENT => "Component"
  | .METRIC => "Metric"
  | .HYPOTHESIS => "Hypothesis"
  | .ROOT_CAUSE => "RootCause"
  | .ACTION => "Action"
  | .OBSERVATION => "Observation"
  | .CONCLUSION => "Conclusion"

/-- Relation kinds, from `RelationType` in src/src/graph/models.py. -/
inductive RelationType where
  | CAUSES
  | PREVENTS
  | ENABLES
  | INDICATES
  | CONFIRMS
  | RULES_OUT
  | LEADS_TO
  | DEPENDS_ON
  | CORRELATES_WITH
  | ASSOCIATED_WITH
deriving DecidableEq, Repr, BEq

/-- The string value of a relation type, as in the Python enum. -/
def RelationType.value : RelationType → String
  | .CAUSES => "CAUSES"
  | .PREVENTS => "PREVENTS"
  | .ENABLES => "ENABLES"
  | .INDICATES => "INDICATES"
  | .CONFIRMS => "CONFIRMS"
  | .RULES_OUT => "RULES_OUT"
  | .LEADS_TO => "LEADS_TO"
  | .DEPENDS_ON => "DEPENDS_ON"
  | .CORRELATES_WITH => "CORRELATES_WITH"
  | .ASSOCIATED_WITH => "ASSOCIATED_WITH"

instance : LawfulBEq EntityType where
  eq_of_beq := by
    intro a b h
    cases a <;> cases b <;> first | rfl | exact Bool.noConfusion h
  rfl := by
    intro a
    cases a <;> rfl

instance : LawfulBEq RelationType where
  eq_of_beq := by
    intro a b h
    cases a <;> cases b <;> first | rfl | exact Bool.noConfusion h
  rfl := by
    intro a
    cases a <;> rfl

/-- `CAUSAL_RELATION_TYPES` from src/src/graph/models.py. -/
def CAUSAL_RELATION_TYPES : List RelationType :=
  [RelationType.CAUSES, RelationType.PREVENTS, RelationType.ENABLES]

/-- `Relation.is_causal` test on the relation type. -/
def RelationType.isCausalType (t : RelationType) : Bool :=
  CAUSAL_RELATION_TYPES.contains t

/-- Temporal orders, from `TemporalOrder` in src/src/graph/models.py. -/
inductive TemporalOrder where
  | IMMEDIATE
  | SECONDS
  | MINUTES
  | HOURS
  | DAYS
  | UNKNOWN
deriving DecidableEq, Repr, BEq

/-- `CausalEffect` from src/src/graph/models.py.  Floats become rationals. -/
structure CausalEffect where
  strength : Rat
  is_direct : Bool
  temporal_order : TemporalOrder
  mechanism : String
deriving DecidableEq, Repr, BEq

/-- One provenance record: a Python dict of string keys and string values
(`_build_provenance` produces `{report_id, source_text}`, the feedback phase
produces richer dicts). -/
def Prov : Type := List (String × String)

instance : DecidableEq Prov := by
  unfold Prov
  infer_instance

instance : BEq Prov := by
  unfold Prov
  infer_instance

/-- One extracted metric value `{value, num, unit}` as built by
`_canonicalize_metric_label`. -/
structure MetricValue where
  value : String
  num : String
  unit : String
deriving DecidableEq, Repr, BEq

/-- The open attribute dict of entities and relations, restricted to the keys
the core actually reads or writes: the `provenance` list (missing is
identified with `[]`, matching the `get("provenance", [])` reads), the
flat `report_id`/`source_text` pair splatted by `_build_provenance` when a
new entity or relation is created, and the metric extension keys
`raw_label`/`metric_values`. -/
structure Attrs where
  provenance : List Prov
  report_id : Option String
  source_text : Option String
  raw_label : Option String
  metric_values : Option (List MetricValue)
deriving DecidableEq, BEq

/-- The empty attribute dict. -/
def Attrs.empty : Attrs :=
  { provenance := [], report_id := none, source_text := none,
    raw_label := none, metric_values := none }

/-- `Entity` from src/src/graph/models.py. -/
structure Entity where
  id : String
  entity_type : EntityType
  label : String
  description : String
  attributes : Attrs
  confidence : Rat
  source_text : String
deriving DecidableEq, BEq

/-- `Relation` from src/src/graph/models.py. -/
structure Relation where
  source_id : String
  target_id : String
  relation_type : RelationType
  confidence : Rat
  evidence : String
  causal_effect : Option CausalEffect
  attributes : Attrs
deriving DecidableEq, BEq

/-- `Relation.is_causal`: true iff the relation type is CAUSES, PREVENTS or
ENABLES. -/
def Relation.is_causal (r : Relation) : Bool :=
  r.relation_type.isCausalType

/-- Edge attributes stored in the networkx edge index by `add_relation`. -/
structure EdgeAttrs where
  relation_type : RelationType
  is_causal : Bool
  confidence : Rat
  evidence : String
  causal_strength : Option Rat
  temporal_order : Option TemporalOrder
deriving DecidableEq, BEq

/-- Association-list lookup modelling Python `dict.get`. -/
def dictGet {κ α : Type} [BEq κ] (m : List (κ × α)) (k : κ) : Option α :=
  (m.find? (fun p => p.1 == k)).map (fun p => p.2)

/-- Association-list membership modelling Python `in dict`. -/
def dictContains {κ α : Type} [BEq κ] (m : List (κ × α)) (k : κ) : Bool :=
  m.any (fun p => p.1 == k)

/-- Association-list write modelling Python `dict[k] = v`: replace in place if
the key exists (Python dicts keep the original position), else append. -/
def dictUpsert {κ α : Type} [BEq κ] (m : List (κ × α)) (k : κ) (v : α) :
    List (κ × α) :=
  if m.any (fun p => p.1 == k) then
    m.map (fun p => if p.1 == k then (k, v) else p)
  else
    m ++ [(k, v)]

/-- The successor edges of `a` in a plain pair list. -/
def succPairs (E : List (String × String)) (a : String) :
    List (String × String) :=
  E.filter (fun e => e.1 == a)

/-- Bounded directed-path search over a pair list: `true` iff some path from
`a` to `b` of at most `fuel` edges exists.  With `fuel = E.length` this
decides `networkx.has_path` (a shortest path never repeats an edge). -/
def hasPathFuel (E : List (String × String)) : Nat → String → String → Bool
  | 0, a, b => a == b
  | Nat.succ n, a, b =>
      a == b || (succPairs E a).any (fun e => hasPathFuel E n e.2 b)

/-- `networkx.has_path` over the edge pair list. -/
def hasPath (E : List (String × String)) (a b : String) : Bool :=
  hasPathFuel E E.length a b

/-- Directed-cycle test over the edge pair list: some edge closes a cycle.
This decides `not networkx.is_directed_acyclic_graph`. -/
def hasCycleB (E : List (String × String)) : Bool :=
  E.any (fun e => hasPath E e.2 e.1)

/-- `CausalGraph` from src/src/graph/models.py: the entity dict, the ordered
relation list, the networkx edge index, and the strict-DAG flag.  The
networkx node set is not tracked separately: every node relevant to the
claims is introduced through `add_entity`, and path/acyclicity queries only
inspect edges. -/
structure CausalGraph where
  entities : List (String × Entity)
  relations : List Relation
  edges : List ((String × String) × EdgeAttrs)
  strict_dag : Bool
deriving DecidableEq, BEq

/-- A fresh graph, `CausalGraph(strict_dag=True)` by default. -/
def CausalGraph.empty (strict : Bool) : CausalGraph :=
  { entities := [], relations := [], edges := [], strict_dag := strict }

/-- The plain edge pair list of the graph. -/
def CausalGraph.pairs (g : CausalGraph) : List (String × String) :=
  g.edges.map (fun e => e.1)

/-- `CausalGraph.is_valid_dag`: `networkx.is_directed_acyclic_graph`. -/
def CausalGraph.is_valid_dag (g : CausalGraph) : Bool :=
  ! hasCycleB g.pairs

/-- `CausalGraph.get_entity`. -/
def CausalGraph.get_entity (g : CausalGraph) (entity_id : String) :
    Option Entity :=
  dictGet g.entities entity_id

/-- `CausalGraph.get_entities()` with no type filter: the dict values in
insertion order. -/
def CausalGraph.get_entities (g : CausalGraph) : List Entity :=
  g.entities.map (fun p => p.2)

/-- `CausalGraph.get_relations()` with no type filter. -/
def CausalGraph.get_relations (g : CausalGraph) : List Relation :=
  g.relations

/-- `CausalGraph.add_entity`: dict upsert plus node registration. -/
def CausalGraph.add_entity (g : CausalGraph) (e : Entity) : CausalGraph :=
  { g with entities := dictUpsert g.entities e.id e }

/-- The edge attributes `add_relation` stores for a relation. -/
def mkEdgeAttrs (r : Relation) : EdgeAttrs :=
  { relation_type := r.relation_type
    is_causal := r.is_causal
    confidence := r.confidence
    evidence := r.evidence
    causal_strength := (r.causal_effect.map (fun c => c.strength))
    temporal_order := (r.causal_effect.map (fun c => c.temporal_order)) }

/-- `networkx.DiGraph.add_edge`: replace the attributes in place when the
pair already exists, else append the edge. -/
def upsertEdge (E : List ((String × String) × EdgeAttrs))
    (p : String × String) (a : EdgeAttrs) :
    List ((String × String) × EdgeAttrs) :=
  if E.any (fun q => q.1 == p) then
    E.map (fun q => if q.1 == p then (p, a) else q)
  else
    E ++ [(p, a)]

/-- The two exception kinds `add_relation` can raise: `ValueError` for a
missing endpoint and `CausalGraphValidationError` for a would-be cycle. -/
inductive AddErr where
  | valueError (msg : String)
  | cycleError (msg : String)
deriving DecidableEq, Repr, BEq

/-- `CausalGraph._would_create_cycle`: a cycle would be created iff a path
from `target` to `source` already exists (over all stored edges). -/
def CausalGraph.would_create_cycle (g : CausalGraph) (source target : String) :
    Bool :=
  hasPath g.pairs target source

/-- `CausalGraph.add_relation`: referential-integrity check, then the cycle
check for causal relations in strict mode, then append to the relation
sequence and update the edge index. -/
def CausalGraph.add_relation (g : CausalGraph) (r : Relation)
    (validate_dag : Bool) : Except AddErr CausalGraph :=
  if ¬ dictContains g.entities r.source_id then
    Except.error (AddErr.valueError ("Source entity not found: " ++ r.source_id))
  else if ¬ dictContains g.entities r.target_id then
    Except.error (AddErr.valueError ("Target entity not found: " ++ r.target_id))
  else if g.strict_dag && validate_dag && r.is_causal
      && g.would_create_cycle r.source_id r.target_id then
    Except.error (AddErr.cycleError
      ("Adding relation " ++ r.source_id ++ " -> " ++ r.target_id ++
        " would create a cycle. Causal graphs must be DAGs."))
  else
    Except.ok { g with
      relations := g.relations ++ [r]
      edges := upsertEdge g.edges (r.source_id, r.target_id) (mkEdgeAttrs r) }

/-- State-passing form of `add_relation`: a raised exception leaves the
mutable graph exactly as it was (the source raises before any mutation). -/
def CausalGraph.add_relation_state (g : CausalGraph) (r : Relation)
    (validate_dag : Bool) : Option AddErr × CausalGraph :=
  match g.add_relation r validate_dag with
  | Except.ok g' => (none, g')
  | Except.error e => (some e, g)

/-- The causal-subgraph pair list: edges whose current attributes mark them
as causal. -/
def causalPairs (g : CausalGraph) : List (String × String) :=
  (g.edges.filter (fun e => e.2.is_causal)).map (fun e => e.1)

/-- A concrete directed path through a pair list, recorded as the list of
edges traversed. -/
inductive Chain (E : List (String × String)) :
    String → List (String × String) → String → Prop where
  | nil (a : String) : Chain E a [] a
  | cons {a b c : String} {l : List (String × String)}
      (hmem : (a, b) ∈ E) (hrest : Chain E b l c) : Chain E a ((a, b) :: l) c

/-- Reachability: some directed path exists. -/
def Reach (E : List (String × String)) (a c : String) : Prop :=
  ∃ l, Chain E a l c

/-- The graph has a directed cycle: some edge is closed by a return path. -/
def HasCycleP (E : List (String × String)) : Prop :=
  ∃ u v l, (u, v) ∈ E ∧ Chain E v l u

/-- One step of a causal-relation insertion sequence: the state-passing
`add_relation` with default `validate_dag=True`. -/
def addRelStep (g : CausalGraph) (r : Relation) : CausalGraph :=
  (g.add_relation_state r true).2

/-- Tests whether an `add_relation` outcome is the cycle error. -/
def isCycleErr (x : Except AddErr CausalGraph) : Bool :=
  match x with
  | Except.error (AddErr.cycleError _) => true
  | _ => false

/-- Tests whether an `add_relation` outcome is a success. -/
def isOkRes (x : Except AddErr CausalGraph) : Bool :=
  match x with
  | Except.ok _ => true
  | _ => false

/-- A minimal entity record used for concrete test graphs. -/
def entW (i : String) (t : EntityType) : Entity :=
  { id := i, entity_type := t, label := i, description := "",
    attributes := Attrs.empty, confidence := 1, source_text := "" }

/-- A minimal relation record used for concrete test graphs. -/
def relW (s t : String) (k : RelationType) : Relation :=
  { source_id := s, target_id := t, relation_type := k, confidence := 1,
    evidence := "", causal_effect := none, attributes := Attrs.empty }

/-- A strict graph holding the two entities `a` and `b`. -/
def gW : CausalGraph :=
  ((CausalGraph.empty true).add_entity (entW "a" EntityType.ROOT_CAUSE)).add_entity
    (entW "b" EntityType.SYMPTOM)

/-- The graph `gW` after the non-causal insertion `b ⟶ a`
(CORRELATES_WITH): accepted because the cycle guard only fires for causal
relations. -/
def gC2 : CausalGraph :=
  addRelStep gW (relW "b" "a" RelationType.CORRELATES_WITH)

/-- First-occurrence deduplication, modelling iteration over the networkx
adjacency keys. -/
def dedupFirstAux (seen : List String) : List String → List String
  | [] => []
  | x :: t =>
      if seen.contains x then dedupFirstAux seen t
      else x :: dedupFirstAux (x :: seen) t

/-- First-occurrence deduplication of a list of node ids. -/
def dedupFirst (l : List String) : List String :=
  dedupFirstAux [] l

/-- `networkx.DiGraph.successors`: the distinct edge targets out of a node,
in adjacency (insertion) order. -/
def successorsOf (g : CausalGraph) (a : String) : List String :=
  dedupFirst ((succPairs g.pairs a).map (fun e => e.2))

/-- Recursion over the successor list inside `get_causal_chain`: `ih` is
the recursive call at the next smaller recursion bound, and divergence of
any recursive call makes the whole call diverge. -/
def chainSubsAux (ih : String → Option (List (List String))) :
    List String → Option (List (String × List (List String)))
  | [] => some []
  | s :: rest =>
      match ih s with
      | none => none
      | some sub =>
          match chainSubsAux ih rest with
          | none => none
          | some r => some ((s, sub) :: r)

/-- The chain-assembly loop of `get_causal_chain`: a successor whose
recursive result is empty contributes the two-element chain, otherwise the
entity id is prepended to every sub-chain. -/
def buildChains (eid : String) :
    List (String × List (List String)) → List (List String)
  | [] => []
  | (s, sub) :: rest =>
      (if sub.isEmpty then [[eid, s]] else sub.map (fun c => eid :: c)) ++
        buildChains eid rest

/-- `CausalGraph.get_causal_chain`, embedded with an explicit recursion
bound: the source recursion has no bound of its own, so `none` at every
bound means the traversal never returns. -/
def getCausalChainFuel (g : CausalGraph) (fuel : Nat) :
    String → Option (List (List String)) :=
  @Nat.rec (fun _ => String → Option (List (List String)))
    (fun _ => none)
    (fun _ ih eid =>
      if dictContains g.entities eid = false then some []
      else
        match chainSubsAux ih (successorsOf g eid) with
        | none => none
        | some pairsR =>
            some (if (buildChains eid pairsR).isEmpty then [[eid]]
              else buildChains eid pairsR))
    fuel

/-- The graph `gW` after the two accepted non-causal insertions
`a ⟶ b` and `b ⟶ a` (CORRELATES_WITH): a constructible non-causal
2-cycle. -/
def gC5 : CausalGraph :=
  addRelStep (addRelStep gW (relW "a" "b" RelationType.CORRELATES_WITH))
    (relW "b" "a" RelationType.CORRELATES_WITH)

/-- Python `str.split()` / regex whitespace class (ASCII range). -/
def pyIsSpace (c : Char) : Bool :=
  c == ' ' || c == '\t' || c == '\n' || c == '\x0d' || c == '\x0b' || c == '\x0c'

/-- Python `str.strip()` on the leading side. -/
def dropLeading (p : Char → Bool) (cs : List Char) : List Char :=
  cs.dropWhile p

/-- Python `str.strip()`: drop leading and trailing characters matching the
predicate. -/
def stripBy (p : Char → Bool) (s : String) : String :=
  String.mk (((s.toList.dropWhile p).reverse.dropWhile p).reverse)

/-- Python `str.strip()` with no arguments. -/
def pyStrip (s : String) : String :=
  stripBy pyIsSpace s

/-- Python `str.strip(" -:;")`. -/
def stripPunct (s : String) : String :=
  stripBy (fun c => c == ' ' || c == '-' || c == ':' || c == ';') s

/-- ASCII lowercasing of one character; CJK and other non-ASCII characters
are untouched, which matches every string the core manipulates. -/
def asciiLower (c : Char) : Char :=
  if 'A' ≤ c && c ≤ 'Z' then Char.ofNat (c.toNat + 32) else c

/-- ASCII uppercasing of one character. -/
def asciiUpper (c : Char) : Char :=
  if 'a' ≤ c && c ≤ 'z' then Char.ofNat (c.toNat - 32) else c

/-- Python `str.lower()` (ASCII letters). -/
def pyLower (s : String) : String :=
  String.mk (s.toList.map asciiLower)

/-- Python `str.upper()` (ASCII letters). -/
def pyUpper (s : String) : String :=
  String.mk (s.toList.map asciiUpper)

/-- One step of the whitespace-word splitter (folded from the right). -/
def splitWsAux (c : Char) (acc : List Char × List (List Char)) :
    List Char × List (List Char) :=
  if pyIsSpace c then
    ([], if acc.1.isEmpty then acc.2 else acc.1 :: acc.2)
  else
    (c :: acc.1, acc.2)

/-- Python `str.split()` with no arguments: the maximal non-empty
whitespace-free chunks, in order. -/
def pySplit (s : String) : List String :=
  let r := s.toList.foldr splitWsAux ([], [])
  (if r.1.isEmpty then r.2 else r.1 :: r.2).map String.mk

/-- Joins character lists with single spaces. -/
def joinSpaceList : List (List Char) → List Char
  | [] => []
  | [w] => w
  | w :: rest => w ++ ' ' :: joinSpaceList rest

/-- Python `" ".join(...)`. -/
def joinSpace (l : List String) : String :=
  String.mk (joinSpaceList (l.map String.toList))

/-- Substring occurrence over character lists. -/
def containsSub (hay needle : List Char) : Bool :=
  match hay with
  | [] => needle.isEmpty
  | _ :: t => needle.isPrefixOf hay || containsSub t needle

/-- Python `needle in hay`. -/
def strContains (hay needle : String) : Bool :=
  containsSub hay.toList needle.toList

/-- Python `str.replace(old, new)` for a non-empty `old`: left-to-right,
non-overlapping. -/
def replaceListGo (old new : List Char) : Nat → List Char → List Char
  | 0, cs => cs
  | _ + 1, [] => []
  | f + 1, c :: t =>
      if old.isPrefixOf (c :: t) then
        new ++ replaceListGo old new f ((c :: t).drop old.length)
      else
        c :: replaceListGo old new f t

/-- Python `str.replace` on strings. -/
def pyReplace (s old new : String) : String :=
  String.mk (replaceListGo old.toList new.toList s.length s.toList)

/-- Python `str.split(sep)` for a non-empty separator. -/
def splitOnGo (sep : List Char) : Nat → List Char → List (List Char)
  | 0, cs => [cs]
  | _ + 1, [] => [[]]
  | f + 1, c :: t =>
      if sep.isPrefixOf (c :: t) then
        [] :: splitOnGo sep f ((c :: t).drop sep.length)
      else
        match splitOnGo sep f t with
        | [] => [[c]]
        | w :: rest => (c :: w) :: rest

/-- Python `str.split(sep)` on strings. -/
def pySplitOn (s sep : String) : List String :=
  (splitOnGo sep.toList s.length s.toList).map String.mk

/-- Python `str.startswith`. -/
def pyStartsWith (s pre : String) : Bool :=
  pre.toList.isPrefixOf s.toList

/-- The word class `[A-Za-z0-9_]` of the canonicalization regex (ASCII). -/
def isWordAny (c : Char) : Bool :=
  ('A' ≤ c && c ≤ 'Z') || ('a' ≤ c && c ≤ 'z') || c.isDigit || c == '_'

/-- The word class `[a-z0-9_]` of the normalization regex (the input is
already lowercased). -/
def isWordLower (c : Char) : Bool :=
  ('a' ≤ c && c ≤ 'z') || c.isDigit || c == '_'

/-- Match the regex `\d+(?:\.\d+)?\s*%` anchored at the start of the list:
returns the numeric text and the number of characters consumed.  The
fraction branch is preferred (greedy), mirroring the Python regex; the two
branches are mutually exclusive, so no further backtracking exists. -/
def tryPercentAt (cs : List Char) : Option (String × Nat) :=
  let ds := cs.takeWhile Char.isDigit
  let rest := cs.drop ds.length
  if ds.isEmpty then none
  else
    let viaFrac : Option (String × Nat) :=
      match rest with
      | '.' :: r₂ =>
          let fs := r₂.takeWhile Char.isDigit
          let r₃ := r₂.drop fs.length
          if fs.isEmpty then none
          else
            let sp := r₃.takeWhile pyIsSpace
            match r₃.drop sp.length with
            | '%' :: _ =>
                some (String.mk (ds ++ '.' :: fs),
                  ds.length + 1 + fs.length + sp.length + 1)
            | _ => none
      | _ => none
    match viaFrac with
    | some r => some r
    | none =>
        let sp := rest.takeWhile pyIsSpace
        match rest.drop sp.length with
        | '%' :: _ => some (String.mk ds, ds.length + sp.length + 1)
        | _ => none

/-- Scanner for `re.sub(r"(?<!w)\d+(?:\.\d+)?\s*%(?!w)", " ", ...)` with `w`
the given word class: left-to-right scan, lookbehind inspected on the
original previous character, a match replaced by a single space. -/
def stripPercentGo (wc : Char → Bool) : Nat → Option Char → List Char → List Char
  | 0, _, cs => cs
  | Nat.succ n, prev, cs =>
      match cs with
      | [] => []
      | c :: rest =>
          let blocked : Bool := match prev with
            | some p => wc p
            | none => false
          if blocked then c :: stripPercentGo wc n (some c) rest
          else
            match tryPercentAt (c :: rest) with
            | none => c :: stripPercentGo wc n (some c) rest
            | some (_, k) =>
                let rem := (c :: rest).drop k
                let lookaheadBad : Bool := match rem with
                  | r :: _ => wc r
                  | [] => false
                if lookaheadBad then c :: stripPercentGo wc n (some c) rest
                else ' ' :: stripPercentGo wc n (some '%') rem

/-- The percent-token removal regex substitution over a string. -/
def stripPercentTokens (wc : Char → Bool) (s : String) : String :=
  String.mk (stripPercentGo wc s.length none s.toList)

/-- Scanner for
`re.finditer(r"(?P<num>\d+(?:\.\d+)?)(?P<unit>\s*%)", ...)`: no lookarounds;
`unit.strip()` is always `"%"`, so each value is `num ++ "%"`. -/
def extractValuesGo : Nat → List Char → List MetricValue
  | 0, _ => []
  | Nat.succ n, cs =>
      match cs with
      | [] => []
      | c :: rest =>
          match tryPercentAt (c :: rest) with
          | some (num, k) =>
              { value := num ++ "%", num := num, unit := "%" } ::
                extractValuesGo n ((c :: rest).drop k)
          | none => extractValuesGo n rest

/-- All percent values embedded in a string, in scan order. -/
def extractPercentValues (s : String) : List MetricValue :=
  extractValuesGo s.length s.toList

/-- The final `re.sub(r"\b(at|of)\b\s*$", "", canon, IGNORECASE).strip()`
of `_canonicalize_metric_label`: the input has already been space-joined
and punct-stripped, so the match is a case-insensitive final word `at` or
`of` preceded by a non-word character or the string start. -/
def dropAtOfSuffix (s : String) : String :=
  let cs := s.toList
  let n := cs.length
  if n ≥ 2 then
    let last2 := String.mk ((cs.drop (n - 2)).map asciiLower)
    let boundary : Bool :=
      if n == 2 then true
      else match cs.drop (n - 3) with
        | b :: _ => ! isWordAny b
        | [] => true
    if (last2 == "at" || last2 == "of") && boundary then
      pyStrip (String.mk (cs.take (n - 2)))
    else s
  else s

/-- The bilingual canonicalization table of `_normalize_label`, applied in
insertion order with Python `str.replace` (all occurrences). -/
def applyReplacements (s : String) : String :=
  pyReplace (pyReplace (pyReplace s "拉檔" "frequency throttling")
    "ddr 投票機制" "ddr voting") "投票機制" "voting"

/-- `CkgAugmenter._normalize_label`: strip, lowercase, bilingual table,
percent-token removal, whitespace collapse. -/
def normalizeLabel (label : String) : String :=
  let t := pyLower (pyStrip label)
  let t := applyReplacements t
  let t := stripPercentTokens isWordLower t
  joinSpace (pySplit t)

/-- `CkgAugmenter._canonicalize_metric_label`: returns the canonical label
and the extra attribute values (`raw_label` whenever the stripped input is
non-empty, `metric_values` whenever percent values were found). -/
def canonicalizeMetricLabel (label : String) :
    String × Option String × Option (List MetricValue) :=
  let raw := pyStrip label
  if raw = "" then ("", none, none)
  else
    let values := extractPercentValues raw
    let canon₀ := stripPercentTokens isWordAny raw
    let canon₁ := stripPunct (joinSpace (pySplit canon₀))
    let canon₂ := dropAtOfSuffix canon₁
    let canon := if canon₂ = "" then raw else canon₂
    (canon, some raw, if values.isEmpty then none else some values)

/-- The augmenter configuration.  `fuzzy_match` and `similarity_threshold`
mirror the constructor arguments (defaults `True` and `0.88`).  `sim`
abstracts `difflib.SequenceMatcher(None, a, b).ratio()` — an external,
deterministic library function the source treats as a black box — and the
two digest fields abstract `hashlib.sha1(raw).hexdigest()` truncated to 8
and 10 hex characters respectively. -/
structure CkgConfig where
  fuzzy_match : Bool
  similarity_threshold : Rat
  sim : String → String → Rat
  digestEntity : String → String
  digestFeedback : String → String

/-- A diff entry for one relation: `{source, target, type}`. -/
structure RelRef where
  source : String
  target : String
  rtype : String
deriving DecidableEq, Repr, BEq

/-- Builds one relation diff entry. -/
def mkRelRef (source target rtype : String) : RelRef :=
  { source := source, target := target, rtype := rtype }

/-- `AugmentDiff` with every sequence initialized empty, as `augment`
does. -/
structure AugmentDiff where
  added_entities : List String
  updated_entities : List String
  added_relations : List RelRef
  updated_relations : List RelRef
  skipped_relations : List RelRef
  conflicts : List String
  feedback_added_entities : List String
  feedback_skipped_existing : List String
  feedback_added_relations : List RelRef
  feedback_skipped_existing_relations : List RelRef
deriving DecidableEq, BEq

/-- The empty diff a fresh `augment` call starts from. -/
def AugmentDiff.empty : AugmentDiff :=
  { added_entities := [], updated_entities := [], added_relations := [],
    updated_relations := [], skipped_relations := [], conflicts := [],
    feedback_added_entities := [], feedback_skipped_existing := [],
    feedback_added_relations := [], feedback_skipped_existing_relations := [] }

/-- `CkgAugmenter._build_provenance`. -/
def buildProvenance (report_id source_text : String) : Prov :=
  [("report_id", report_id), ("source_text", source_text)]

/-- Attributes consisting of a splatted `_build_provenance` dict, as stored
on freshly added entities and relations of the extraction phase. -/
def bpAttrs (report_id source_text : String) : Attrs :=
  { provenance := [], report_id := some report_id,
    source_text := some source_text, raw_label := none, metric_values := none }

/-- Attributes consisting of a single wrapped provenance record, as stored
on feedback-created entities and relations. -/
def provOnlyAttrs (p : Prov) : Attrs :=
  { provenance := [p], report_id := none, source_text := none,
    raw_label := none, metric_values := none }

/-- `CkgAugmenter._relation_keys`: the `(sourceId, kind, targetId)` key set
(modelled as a list used only through membership). -/
def relationKeys (rs : List Relation) : List (String × String × String) :=
  rs.map (fun r => (r.source_id, r.relation_type.value, r.target_id))

/-- `CkgAugmenter._build_entity_index`. -/
def buildEntityIndex (entities : List Entity) :
    List ((String × String) × String) :=
  entities.foldl
    (fun idx e => dictUpsert idx (e.entity_type.value, normalizeLabel e.label) e.id)
    []

/-- `CkgAugmenter._generate_entity_id`. -/
def generateEntityId (cfg : CkgConfig) (e : Entity) (report_id : String) :
    String :=
  let norm := normalizeLabel e.label
  let raw := e.entity_type.value ++ ":" ++ norm ++ ":" ++ report_id
  "aug_" ++ pyLower e.entity_type.value ++ "_" ++ cfg.digestEntity raw

/-- The similarity score of one existing entity against the candidate's
normalized label, as computed inside `_match_entity`. -/
def simScore (cfg : CkgConfig) (norm : String) (ex : Entity) : Rat :=
  cfg.sim norm (normalizeLabel ex.label)

/-- The fuzzy-match fold of `_match_entity`: entities of other kinds are
skipped, and the best match is replaced only on strict improvement
(`score > bestSoFar`), starting from `(None, 0.0)`. -/
def fuzzyBest (cfg : CkgConfig) (norm : String) (t : EntityType)
    (existing : List Entity) : Option String × Rat :=
  existing.foldl
    (fun (b : Option String × Rat) ex =>
      if ex.entity_type ≠ t then b
      else
        if simScore cfg norm ex > b.2 then (some ex.id, simScore cfg norm ex)
        else b)
    (none, 0)

/-- `CkgAugmenter._match_entity`: exact `(kind, normalizedLabel)` index hit
first; otherwise, when fuzzy matching is on, the best similarity over
existing entities of the same kind, a match iff the best score reaches the
threshold. -/
def matchEntity (cfg : CkgConfig) (e : Entity)
    (index : List ((String × String) × String)) (existing : List Entity) :
    Option String :=
  match dictGet index (e.entity_type.value, normalizeLabel e.label) with
  | some i => some i
  | none =>
      if cfg.fuzzy_match = false then none
      else
        if (fuzzyBest cfg (normalizeLabel e.label) e.entity_type
            existing).2 ≥ cfg.similarity_threshold then
          (fuzzyBest cfg (normalizeLabel e.label) e.entity_type existing).1
        else none

/-- Write the merged entity object back into the entity dict (Python
mutates the shared object in place). -/
def CausalGraph.putEntity (g : CausalGraph) (entity_id : String) (e : Entity) :
    CausalGraph :=
  { g with entities := dictUpsert g.entities entity_id e }

/-- `CkgAugmenter._merge_entity`: description backfilled only when empty
and the candidate has one, confidence raised only on strict improvement, a
provenance record always appended, and the id always reported updated. -/
def mergeEntity (g : CausalGraph) (entity_id : String) (ne : Entity)
    (report_id : String) (updated_entities : List String) :
    CausalGraph × List String :=
  match g.get_entity entity_id with
  | none => (g, updated_entities)
  | some ex =>
      let desc := if ex.description = "" ∧ ne.description ≠ "" then
          ne.description else ex.description
      let conf := if ne.confidence > ex.confidence then ne.confidence
        else ex.confidence
      let prov := ex.attributes.provenance ++
        [buildProvenance report_id ne.source_text]
      let ex' := { ex with
        description := desc
        confidence := conf
        attributes := { ex.attributes with provenance := prov } }
      (g.putEntity entity_id ex', updated_entities ++ [entity_id])

/-- Apply `f` to the first relation matching the merge key, leaving every
other relation unchanged (the Python loop returns after the first hit). -/
def updateFirstRelation (rs : List Relation)
    (source_id rtypeV target_id : String) (f : Relation → Relation) :
    List Relation :=
  match rs with
  | [] => []
  | r :: t =>
      if r.source_id == source_id && r.target_id == target_id
          && r.relation_type.value == rtypeV then
        f r :: t
      else
        r :: updateFirstRelation t source_id rtypeV target_id f

/-- Whether some relation matches the merge key. -/
def anyRelationMatches (rs : List Relation)
    (source_id rtypeV target_id : String) : Bool :=
  rs.any (fun r => r.source_id == source_id && r.target_id == target_id
    && r.relation_type.value == rtypeV)

/-- The in-place update `_merge_relation` performs on the matched relation:
confidence raised only on strict improvement, new evidence concatenated
with a separator only when non-empty and not already a substring, a
provenance record appended. -/
def mergeRelationUpdate (nr : Relation) (report_id : String)
    (r : Relation) : Relation :=
  let conf := if nr.confidence > r.confidence then nr.confidence
    else r.confidence
  let evid :=
    if nr.evidence ≠ "" ∧ strContains r.evidence nr.evidence = false then
      (if r.evidence ≠ "" then r.evidence ++ " | " ++ nr.evidence
        else nr.evidence)
    else r.evidence
  { r with
    confidence := conf
    evidence := evid
    attributes := { r.attributes with
      provenance := r.attributes.provenance ++
        [buildProvenance report_id nr.evidence] } }

/-- `CkgAugmenter._merge_relation`: update the first relation with the
given key and report it updated; no key match leaves everything
unchanged. -/
def mergeRelation (g : CausalGraph) (key : String × String × String)
    (nr : Relation) (report_id : String)
    (updated_relations : List RelRef) : CausalGraph × List RelRef :=
  if anyRelationMatches g.relations key.1 key.2.1 key.2.2 then
    ({ g with
        relations := updateFirstRelation g.relations key.1 key.2.1 key.2.2
          (mergeRelationUpdate nr report_id) },
      updated_relations ++
        [mkRelRef key.1 key.2.2 key.2.1])
  else
    (g, updated_relations)

/-- The human-readable message of a raised graph exception (`str(exc)`). -/
def addErrMsg : AddErr → String
  | AddErr.valueError m => m
  | AddErr.cycleError m => m

/-- The metric-label canonicalization applied to an extracted entity at the
top of the `augment` entity loop: Metric labels are replaced by their
canonical form and the raw label / extracted values are stored on the
candidate's attributes. -/
def canonEntity (e : Entity) : Entity :=
  if e.entity_type = EntityType.METRIC then
    match canonicalizeMetricLabel e.label with
    | (canon, some rl, mvals) =>
        { e with
          label := if canon ≠ "" then canon else e.label
          attributes := { e.attributes with
            raw_label := some rl
            metric_values := if mvals.isSome then mvals
              else e.attributes.metric_values } }
    | (_, none, _) => e
  else e

/-- Mutable state of the `augment` entity-resolution loop. -/
structure EntPhaseSt where
  graph : CausalGraph
  index : List ((String × String) × String)
  id_map : List (String × String)
  diff : AugmentDiff

/-- The entity object stored for an unmatched candidate: the
`raw_label`/`metric_values` keys are carried only for Metric candidates
with a non-empty attribute dict. -/
def newEntityOf (cfg : CkgConfig) (report_id : String) (e : Entity) :
    Entity :=
  let hasAttrs : Bool := ! (e.attributes.provenance.isEmpty
    && e.attributes.report_id.isNone && e.attributes.source_text.isNone
    && e.attributes.raw_label.isNone && e.attributes.metric_values.isNone)
  let keepExtra : Bool := e.entity_type = EntityType.METRIC && hasAttrs
  { id := generateEntityId cfg e report_id
    entity_type := e.entity_type
    label := e.label
    description := e.description
    attributes := { bpAttrs report_id e.source_text with
      raw_label := if keepExtra then e.attributes.raw_label else none
      metric_values := if keepExtra then e.attributes.metric_values
        else none }
    confidence := e.confidence
    source_text := e.source_text }

/-- One iteration of the entity-resolution loop: canonicalize, match
(against the call-initial entity snapshot and the live index), then merge
or add-and-index. -/
def processEntity (cfg : CkgConfig) (report_id : String)
    (existing : List Entity) (st : EntPhaseSt) (e0 : Entity) : EntPhaseSt :=
  let e := canonEntity e0
  match matchEntity cfg e st.index existing with
  | some matched_id =>
      { st with
        graph := (mergeEntity st.graph matched_id e report_id
          st.diff.updated_entities).1
        id_map := dictUpsert st.id_map e.id matched_id
        diff := { st.diff with updated_entities :=
          (mergeEntity st.graph matched_id e report_id
            st.diff.updated_entities).2 } }
  | none =>
      { st with
        graph := st.graph.add_entity (newEntityOf cfg report_id e)
        id_map := dictUpsert st.id_map e.id
          (newEntityOf cfg report_id e).id
        index := dictUpsert st.index
          ((newEntityOf cfg report_id e).entity_type.value,
            normalizeLabel (newEntityOf cfg report_id e).label)
          (newEntityOf cfg report_id e).id
        diff := { st.diff with
          added_entities := st.diff.added_entities
            ++ [(newEntityOf cfg report_id e).id] } }

/-- The entity-resolution phase of `augment`: the fuzzy-match snapshot and
the index are built once from the base graph, then the candidates are
folded through `processEntity`. -/
def entityPhase (cfg : CkgConfig) (g : CausalGraph) (es : List Entity)
    (report_id : String) (diff : AugmentDiff) : EntPhaseSt :=
  let existing := g.get_entities
  es.foldl (processEntity cfg report_id existing)
    { graph := g, index := buildEntityIndex existing, id_map := [],
      diff := diff }

/-- Mutable state of the `augment` relation-resolution loop. -/
structure RelPhaseSt where
  graph : CausalGraph
  keys : List (String × String × String)
  diff : AugmentDiff

/-- The stored relation `augment` builds from a resolved candidate. -/
def nrOf (report_id : String) (r : Relation)
    (source_id target_id : String) : Relation :=
  { source_id := source_id
    target_id := target_id
    relation_type := r.relation_type
    confidence := r.confidence
    evidence := r.evidence
    causal_effect := r.causal_effect
    attributes := bpAttrs report_id r.evidence }

/-- One iteration of the relation-resolution loop: resolve both endpoints
through the id map (unresolved endpoints are recorded skipped), merge on an
existing key, otherwise attempt `add_relation` and convert a raised
exception into a conflict entry. -/
def processRelation (report_id : String) (id_map : List (String × String))
    (st : RelPhaseSt) (r : Relation) : RelPhaseSt :=
  match dictGet id_map r.source_id, dictGet id_map r.target_id with
  | some source_id, some target_id =>
      if st.keys.contains (source_id, r.relation_type.value, target_id) then
        { st with
          graph := (mergeRelation st.graph
            (source_id, r.relation_type.value, target_id) r report_id
            st.diff.updated_relations).1
          diff := { st.diff with updated_relations :=
            (mergeRelation st.graph
              (source_id, r.relation_type.value, target_id) r report_id
              st.diff.updated_relations).2 } }
      else
        match st.graph.add_relation (nrOf report_id r source_id target_id)
            true with
        | Except.ok g' =>
            { st with
              graph := g'
              keys := st.keys ++
                [(source_id, r.relation_type.value, target_id)]
              diff := { st.diff with
                added_relations := st.diff.added_relations ++
                  [mkRelRef source_id target_id r.relation_type.value] } }
        | Except.error e =>
            { st with diff := { st.diff with
                conflicts := st.diff.conflicts ++ [addErrMsg e] } }
  | _, _ =>
      { st with diff := { st.diff with
          skipped_relations := st.diff.skipped_relations ++
            [mkRelRef r.source_id r.target_id r.relation_type.value] } }

/-- The relation-resolution phase of `augment`: the key set is rebuilt
fresh, then candidates are folded through `processRelation`. -/
def relationPhase (report_id : String) (id_map : List (String × String))
    (g : CausalGraph) (rs : List Relation) (diff : AugmentDiff) :
    RelPhaseSt :=
  rs.foldl (processRelation report_id id_map)
    { graph := g, keys := relationKeys g.get_relations, diff := diff }

/-- One feedback dimension: `{missing_elements: [...]}` (non-string and
absent entries are modelled away; the source drops them). -/
structure FbDim where
  missing_elements : List String

/-- One feedback case: `{dimensions: [...]}`. -/
structure FbCase where
  dimensions : List FbDim

/-- The orchestrator feedback payload: `{per_case: {...}}`. -/
structure Feedback where
  per_case : List (String × FbCase)

/-- Stable deduplication of stripped strings, dropping empties — the tail
of `extract_missing_elements`. -/
def dedupStripAux (seen : List String) : List String → List String
  | [] => []
  | m :: t =>
      let key := pyStrip m
      if key = "" ∨ seen.contains key then dedupStripAux seen t
      else key :: dedupStripAux (key :: seen) t

/-- `extract_missing_elements`: flatten the selected cases' dimensions'
missing elements, then stably deduplicate their stripped forms. -/
def extractMissingElements (fb : Feedback) (case_filter : String) :
    List String :=
  let wanted := if case_filter = "all" then fb.per_case.map (fun p => p.1)
    else [case_filter]
  let missing := wanted.foldl
    (fun acc cid =>
      match dictGet fb.per_case cid with
      | none => acc
      | some c => acc ++ c.dimensions.foldl
          (fun a d => a ++ d.missing_elements) [])
    []
  dedupStripAux [] missing

/-- `CkgAugmenter._normalize_feedback_missing_element`. -/
def normalizeFeedbackMissingElement (s : String) : String :=
  let s := pyStrip s
  if s = "" then ""
  else
    let low := pyLower s
    if strContains s "拉檔" then "拉檔"
    else if strContains low "frequency throttling" then "拉檔"
    else s

/-- Stable deduplication preserving first-seen order (no stripping) — the
dedup `augment` applies to the normalized missing elements. -/
def dedupStableAux (seen : List String) : List String → List String
  | [] => []
  | m :: t =>
      if seen.contains m then dedupStableAux seen t
      else m :: dedupStableAux (m :: seen) t

/-- `infer_feedback_entity_type`. -/
def inferFeedbackEntityType (label : String) : EntityType :=
  let norm := pyLower (pyStrip label)
  if pyStartsWith norm "sw_req" then EntityType.OBSERVATION
  else if strContains norm "vcore" || strContains norm "ddr"
      || strContains norm "%" then EntityType.METRIC
  else EntityType.OBSERVATION

/-- `generate_feedback_entity_id`. -/
def generateFeedbackEntityId (cfg : CkgConfig) (t : EntityType)
    (label : String) : String :=
  let norm := joinSpace (pySplit (pyLower (pyStrip label)))
  let raw := "fb:" ++ t.value ++ ":" ++ norm
  "fb_" ++ pyLower t.value ++ "_" ++ cfg.digestFeedback raw

/-- The normalized-label to id map `{normalize(e.label): e.id}` built by a
dict comprehension over the entities in enumeration order (later entities
overwrite earlier ones with the same normalized label). -/
def buildByNorm (entities : List Entity) : List (String × String) :=
  entities.foldl
    (fun m e => dictUpsert m (normalizeLabel e.label) e.id) []

/-- Mutable state of `_ensure_missing_entities`. -/
structure FbEntSt where
  graph : CausalGraph
  by_norm : List (String × String)
  diff : AugmentDiff

/-- The deterministic, collision-salted id of a feedback entity. -/
def fbEntityId (cfg : CkgConfig) (report_id : String) (g : CausalGraph)
    (label : String) : String :=
  let t := inferFeedbackEntityType label
  let eid0 := generateFeedbackEntityId cfg t label
  if (g.get_entity eid0).isSome then
    generateFeedbackEntityId cfg t (label ++ ":" ++ report_id)
  else eid0

/-- The feedback entity `_ensure_missing_entities` adds for a label. -/
def fbEntityOf (cfg : CkgConfig) (report_id : String) (g : CausalGraph)
    (label : String) : Entity :=
  { id := fbEntityId cfg report_id g label
    entity_type := inferFeedbackEntityType label
    label := label
    description := ""
    attributes := provOnlyAttrs
      [("source", "closed_loop_feedback"), ("report_id", report_id),
        ("label", label), ("reason", "missing_elements")]
    confidence := 1
    source_text := "" }

/-- One label of `_ensure_missing_entities`: skip when the normalized label
is empty or already present, otherwise add a feedback entity with an
inferred type and a deterministic (collision-salted) id. -/
def ensureMissingEntityStep (cfg : CkgConfig) (report_id : String)
    (st : FbEntSt) (label : String) : FbEntSt :=
  if normalizeLabel label = "" then st
  else
    match dictGet st.by_norm (normalizeLabel label) with
    | some eid =>
        { st with diff := { st.diff with
            feedback_skipped_existing :=
              st.diff.feedback_skipped_existing ++ [eid] } }
    | none =>
        { graph := st.graph.add_entity
            (fbEntityOf cfg report_id st.graph label)
          by_norm := dictUpsert st.by_norm (normalizeLabel label)
            (fbEntityOf cfg report_id st.graph label).id
          diff := { st.diff with
            feedback_added_entities :=
              st.diff.feedback_added_entities
                ++ [(fbEntityOf cfg report_id st.graph label).id] } }

/-- `CkgAugmenter._ensure_missing_entities`. -/
def ensureMissingEntities (cfg : CkgConfig) (report_id : String)
    (missing_labels : List String) (g : CausalGraph) (diff : AugmentDiff) :
    CausalGraph × AugmentDiff :=
  if missing_labels.isEmpty then (g, diff)
  else
    let st := missing_labels.foldl (ensureMissingEntityStep cfg report_id)
      { graph := g, by_norm := buildByNorm g.get_entities, diff := diff }
    (st.graph, st.diff)

/-- Mutable state of `_ensure_missing_relations`: the graph, the local
label map and entity list the closures mutate, the relation key set, and
the diff.  `created_ids` additionally records the ids of entities the
closures create (the source does not report them in the diff); it is pure
bookkeeping read only by theorems. -/
structure FbRelSt where
  graph : CausalGraph
  by_norm : List (String × String)
  entities : List Entity
  keys : List (String × String × String)
  created_ids : List String
  diff : AugmentDiff

/-- The `_find_best_id_contains` closure: exact normalized match first,
then a type-preferring substring match (first hit in entity order), then a
type-free substring match. -/
def findBestIdContains (st : FbRelSt) (token : String)
    (prefer_type : Option EntityType) : Option String :=
  let t := pyLower (pyStrip token)
  if t = "" then none
  else
    match dictGet st.by_norm (normalizeLabel token) with
    | some e => some e
    | none =>
        let candidates := st.entities.filter (fun e =>
          (match prefer_type with
            | some pt => e.entity_type == pt
            | none => true) && strContains (pyLower e.label) t)
        match candidates with
        | c :: _ => some c.id
        | [] =>
            match st.entities.find?
                (fun e => strContains (pyLower e.label) t) with
            | some e => some e.id
            | none => none

/-- The `_ensure_component` closure. -/
def ensureComponentFb (cfg : CkgConfig) (report_id : String) (st : FbRelSt)
    (label : String) : String × FbRelSt :=
  match dictGet st.by_norm (normalizeLabel label) with
  | some eid => (eid, st)
  | none =>
      let eid0 := generateFeedbackEntityId cfg EntityType.COMPONENT label
      let eid := if (st.graph.get_entity eid0).isSome then
          generateFeedbackEntityId cfg EntityType.COMPONENT
            (label ++ ":" ++ report_id)
        else eid0
      let ne : Entity :=
        { id := eid
          entity_type := EntityType.COMPONENT
          label := label
          description := ""
          attributes := provOnlyAttrs
            [("source", "closed_loop_feedback"), ("report_id", report_id),
              ("reason", "missing_relation_target")]
          confidence := 1
          source_text := "" }
      (eid, { st with
        graph := st.graph.add_entity ne
        by_norm := dictUpsert st.by_norm (normalizeLabel label) eid
        entities := st.entities ++ [ne]
        created_ids := st.created_ids ++ [eid] })

/-- The `_ensure_observation` closure. -/
def ensureObservationFb (cfg : CkgConfig) (report_id : String)
    (st : FbRelSt) (label : String) : String × FbRelSt :=
  match dictGet st.by_norm (normalizeLabel label) with
  | some eid => (eid, st)
  | none =>
      let eid0 := generateFeedbackEntityId cfg EntityType.OBSERVATION label
      let eid := if (st.graph.get_entity eid0).isSome then
          generateFeedbackEntityId cfg EntityType.OBSERVATION
            (label ++ ":" ++ report_id)
        else eid0
      let ne : Entity :=
        { id := eid
          entity_type := EntityType.OBSERVATION
          label := label
          description := ""
          attributes := provOnlyAttrs
            [("source", "closed_loop_feedback"), ("report_id", report_id),
              ("reason", "missing_relation_source")]
          confidence := 1
          source_text := "" }
      (eid, { st with
        graph := st.graph.add_entity ne
        by_norm := dictUpsert st.by_norm (normalizeLabel label) eid
        entities := st.entities ++ [ne]
        created_ids := st.created_ids ++ [eid] })

/-- The `_ensure_metric` closure: the label is canonicalized first and the
metric extension attributes are stored alongside the provenance. -/
def ensureMetricFb (cfg : CkgConfig) (report_id : String) (st : FbRelSt)
    (label : String) : String × FbRelSt :=
  match canonicalizeMetricLabel label with
  | (canon, rawl, mvals) =>
      match dictGet st.by_norm (normalizeLabel canon) with
      | some eid => (eid, st)
      | none =>
          let eid0 := generateFeedbackEntityId cfg EntityType.METRIC canon
          let eid := if (st.graph.get_entity eid0).isSome then
              generateFeedbackEntityId cfg EntityType.METRIC
                (canon ++ ":" ++ report_id)
            else eid0
          let ne : Entity :=
            { id := eid
              entity_type := EntityType.METRIC
              label := canon
              description := ""
              attributes :=
                { provenance := [[("source", "closed_loop_feedback"),
                    ("report_id", report_id), ("reason", "missing_metric")]]
                  report_id := none
                  source_text := none
                  raw_label := rawl
                  metric_values := mvals }
              confidence := 1
              source_text := "" }
          (eid, { st with
            graph := st.graph.add_entity ne
            by_norm := dictUpsert st.by_norm (normalizeLabel canon) eid
            entities := st.entities ++ [ne]
            created_ids := st.created_ids ++ [eid] })

/-- The fixed 0.3-confidence relation record built by the `_add_relation`
closure. -/
def fbRel (report_id : String) (source_id : String) (rt : RelationType)
    (target_id : String) (rule_id : String) : Relation :=
  { source_id := source_id
    target_id := target_id
    relation_type := rt
    confidence := 0.3
    evidence := "closed_loop_feedback_relation:" ++ rule_id
    causal_effect := none
    attributes := provOnlyAttrs
      [("source", "closed_loop_feedback_relation"),
        ("report_id", report_id), ("reason", "missing_elements"),
        ("rule_id", rule_id)] }

/-- The `_add_relation` closure: skip when the key already exists,
otherwise add a fixed-confidence 0.3 relation with `validate_dag=False`.
The error branch cannot fire (both resolved endpoints are entities of the
graph and the skipped validation never raises); it returns the state
unchanged. -/
def addRelationFb (report_id : String) (st : FbRelSt) (source_id : String)
    (rt : RelationType) (target_id : String) (rule_id : String) : FbRelSt :=
  let key := (source_id, rt.value, target_id)
  if st.keys.contains key then
    { st with diff := { st.diff with
        feedback_skipped_existing_relations :=
          st.diff.feedback_skipped_existing_relations ++
            [mkRelRef source_id target_id rt.value] } }
  else
    match st.graph.add_relation
        (fbRel report_id source_id rt target_id rule_id) false with
    | Except.ok g' =>
        { st with
          graph := g'
          keys := st.keys ++ [key]
          diff := { st.diff with
            feedback_added_relations :=
              st.diff.feedback_added_relations ++
                [mkRelRef source_id target_id rt.value] } }
    | Except.error _ => st

/-- One token of the chain rule: best-effort contains resolution, or a new
component. -/
def chainStepFb (cfg : CkgConfig) (report_id : String)
    (acc : List String × FbRelSt) (token : String) :
    List String × FbRelSt :=
  match findBestIdContains acc.2 token none with
  | some tid => (acc.1 ++ [tid], acc.2)
  | none =>
      let c := ensureComponentFb cfg report_id acc.2 token
      (acc.1 ++ [c.1], c.2)

/-- The token-resolution loop of the chain rule. -/
def chainResolve (cfg : CkgConfig) (report_id : String) (st : FbRelSt)
    (parts : List String) : List String × FbRelSt :=
  parts.foldl (chainStepFb cfg report_id) ([], st)

/-- One consecutive chain pair: link with LEADS_TO. -/
def chainLinkStep (report_id : String) (s : FbRelSt) (p : String × String) :
    FbRelSt :=
  addRelationFb report_id s p.1 RelationType.LEADS_TO p.2 "chain_leads_to"

/-- Loop state of the rule dispatch: the lazily created DDR/CPU component
targets are cached across iterations. -/
structure FbRelLoopSt where
  st : FbRelSt
  ddr_target : Option String
  cpu_target : Option String

/-- Rule D body once the segments are split out: resolve every segment,
then link consecutive pairs with LEADS_TO. -/
def chainBranch (cfg : CkgConfig) (report_id : String) (ls : FbRelLoopSt)
    (parts : List String) : FbRelLoopSt :=
  if parts.length ≥ 2 then
    let resolved := chainResolve cfg report_id ls.st parts
    let st1 := (resolved.1.zip resolved.1.tail).foldl
      (chainLinkStep report_id) resolved.2
    { ls with st := st1 }
  else ls

/-- One missing label through the rule table A–D of
`_ensure_missing_relations`. -/
def processMissingLabel (cfg : CkgConfig) (report_id : String)
    (cm_target powerhal_target : String) (ls : FbRelLoopSt) (m : String) :
    FbRelLoopSt :=
  if pyUpper (pyStrip m) = "SW_REQ2" then
    let r := ensureObservationFb cfg report_id ls.st "SW_REQ2"
    let st1 := addRelationFb report_id r.2 r.1 RelationType.INDICATES
      cm_target "sw_req2_indicates_cm"
    { ls with st := st1 }
  else if pyUpper (pyStrip m) = "SW_REQ3" then
    let r := ensureObservationFb cfg report_id ls.st "SW_REQ3"
    let st1 := addRelationFb report_id r.2 r.1 RelationType.INDICATES
      powerhal_target "sw_req3_indicates_powerhal"
    { ls with st := st1 }
  else if strContains m "拉檔" ||
      strContains (pyLower m) "frequency throttling" then
    let r := ensureObservationFb cfg report_id ls.st "拉檔"
    let st1 := addRelationFb report_id r.2 r.1 RelationType.INDICATES
      cm_target "throttling_indicates_cm"
    { ls with st := st1 }
  else if strContains (pyLower m) "ddr5460" ||
      strContains (pyLower m) "ddr6370" then
    let r := ensureMetricFb cfg report_id ls.st m
    match ls.ddr_target with
    | some d =>
        let st1 := addRelationFb report_id r.2 r.1 RelationType.INDICATES d
          "ddr_metric_indicates_ddr"
        { ls with st := st1 }
    | none =>
        let c := ensureComponentFb cfg report_id r.2 "DDR"
        let st1 := addRelationFb report_id c.2 r.1 RelationType.INDICATES
          c.1 "ddr_metric_indicates_ddr"
        { ls with
          st := st1
          ddr_target := some c.1 }
  else if pyLower (pyStrip m) = "cpu frequencies" then
    let r := ensureMetricFb cfg report_id ls.st "CPU frequencies"
    match ls.cpu_target with
    | some d =>
        let st1 := addRelationFb report_id r.2 r.1 RelationType.INDICATES d
          "cpu_freq_indicates_cpu"
        { ls with st := st1 }
    | none =>
        let c := ensureComponentFb cfg report_id r.2 "CPU"
        let st1 := addRelationFb report_id c.2 r.1 RelationType.INDICATES
          c.1 "cpu_freq_indicates_cpu"
        { ls with
          st := st1
          cpu_target := some c.1 }
  else if strContains m "->" || strContains m "→" then
    chainBranch cfg report_id ls
      (((pySplitOn m (if strContains m "→" then "→" else "->")).map
        pyStrip).filter (fun p => p ≠ ""))
  else ls

/-- `CkgAugmenter._ensure_missing_relations`: build the local indices,
resolve the fixed CM/PowerHal/DDR/CPU targets (creating CM and PowerHal
components if unresolvable), then dispatch every missing label through the
rule table. -/
def ensureMissingRelations (cfg : CkgConfig) (report_id : String)
    (missing_labels : List String) (g : CausalGraph) (diff : AugmentDiff) :
    FbRelSt :=
  let st0 : FbRelSt :=
    { graph := g, by_norm := buildByNorm g.get_entities,
      entities := g.get_entities, keys := relationKeys g.get_relations,
      created_ids := [], diff := diff }
  if missing_labels.isEmpty then st0
  else
    let cm := match findBestIdContains st0 "CM" (some EntityType.ROOT_CAUSE) with
      | some i => (i, st0)
      | none =>
          match findBestIdContains st0 "CM" none with
          | some i => (i, st0)
          | none => ensureComponentFb cfg report_id st0 "CM"
    let ph := match findBestIdContains cm.2 "PowerHal"
        (some EntityType.COMPONENT) with
      | some i => (i, cm.2)
      | none => ensureComponentFb cfg report_id cm.2 "PowerHal"
    let ddr0 := findBestIdContains ph.2 "DDR" (some EntityType.COMPONENT)
    let cpu0 := findBestIdContains ph.2 "CPU" (some EntityType.COMPONENT)
    let ls := missing_labels.foldl
      (processMissingLabel cfg report_id cm.1 ph.1)
      { st := ph.2, ddr_target := ddr0, cpu_target := cpu0 }
    ls.st

/-- The component lookup map of the autolink pass. -/
def buildComponentsMap (entities : List Entity) : List (String × String) :=
  entities.foldl
    (fun m e =>
      if e.entity_type = EntityType.COMPONENT then
        let norm := normalizeLabel e.label
        if norm ≠ "" then dictUpsert m norm e.id else m
      else m)
    []

/-- The `_choose_component` heuristics: fixed substring checks against the
metric's label and source text, in order. -/
def chooseComponentFor (components : List (String × String))
    (metric : Entity) : Option String :=
  let hay := pyLower (metric.label ++ " " ++ metric.source_text)
  if strContains hay "vcore" && dictContains components "vcore" then
    dictGet components "vcore"
  else if strContains hay "ddr" && dictContains components "ddr" then
    dictGet components "ddr"
  else if strContains hay "cpu" && dictContains components "cpu" then
    dictGet components "cpu"
  else if strContains hay "mmdvfs" && dictContains components "mmdvfs" then
    dictGet components "mmdvfs"
  else none

/-- Mutable state of the autolink pass. -/
structure AutoSt where
  graph : CausalGraph
  keys : List (String × String × String)
  diff : AugmentDiff

/-- The fixed INDICATES relation the autolink pass creates for a matched
metric. -/
def autolinkRel (report_id : String) (e : Entity) (cid : String) :
    Relation :=
  { source_id := e.id
    target_id := cid
    relation_type := RelationType.INDICATES
    confidence := 0.3
    evidence := "autolink_rule: metric indicates component"
    causal_effect := none
    attributes := provOnlyAttrs
      [("source", "autolink_rule"), ("report_id", report_id),
        ("reason", "connect_isolated_metric_to_component")] }

/-- One entity through the autolink pass: non-Metric entities are skipped;
a matched Metric gets a 0.3-confidence INDICATES edge to its component
unless that exact key already exists; a raised exception becomes a
conflict. -/
def autolinkStep (report_id : String)
    (components : List (String × String)) (st : AutoSt) (e : Entity) :
    AutoSt :=
  if e.entity_type ≠ EntityType.METRIC then st
  else
    match chooseComponentFor components e with
    | none => st
    | some cid =>
        let key := (e.id, RelationType.INDICATES.value, cid)
        if st.keys.contains key then st
        else
          match st.graph.add_relation (autolinkRel report_id e cid)
              false with
          | Except.ok g' =>
              { graph := g'
                keys := st.keys ++ [key]
                diff := { st.diff with
                  added_relations := st.diff.added_relations ++
                    [mkRelRef e.id cid RelationType.INDICATES.value] } }
          | Except.error err =>
              { st with diff := { st.diff with
                  conflicts := st.diff.conflicts ++ [addErrMsg err] } }

/-- `CkgAugmenter._autolink_metrics_to_components`. -/
def autolinkMetricsToComponents (report_id : String) (g : CausalGraph)
    (diff : AugmentDiff) : CausalGraph × AugmentDiff :=
  let components := buildComponentsMap g.get_entities
  if components.isEmpty then (g, diff)
  else
    let st := (g.get_entities).foldl (autolinkStep report_id components)
      { graph := g, keys := relationKeys g.get_relations, diff := diff }
    (st.graph, st.diff)

/-- `CkgAugmenter.augment`, with the external extractor outputs passed in
as explicit candidate lists (the source obtains them from the LLM-backed
extractors, which are out of the core): entity resolution, relation
resolution, the optional feedback phases, then the autolink pass. -/
def augment (cfg : CkgConfig) (extracted_entities : List Entity)
    (extracted_relations : List Relation) (base : CausalGraph)
    (report_id : String) (feedback : Option Feedback)
    (case_filter : String) : CausalGraph × AugmentDiff :=
  let est := entityPhase cfg base extracted_entities report_id
    AugmentDiff.empty
  let rst := relationPhase report_id est.id_map est.graph
    extracted_relations est.diff
  let afterFb :=
    match feedback with
    | none => (rst.graph, rst.diff)
    | some fb =>
        let missing := extractMissingElements fb case_filter
        let missing_norm := dedupStableAux []
          ((missing.map normalizeFeedbackMissingElement).filter
            (fun x => x ≠ ""))
        let ent := ensureMissingEntities cfg report_id missing_norm
          rst.graph rst.diff
        let fbst := ensureMissingRelations cfg report_id missing_norm
          ent.1 ent.2
        (fbst.graph, fbst.diff)
  autolinkMetricsToComponents report_id afterFb.1 afterFb.2

/-- The two extracted entities of the metric canonicalization claim. -/
def entC10a : Entity :=
  { id := "m1", entity_type := EntityType.METRIC,
    label := "VCORE usage 82.6%", description := "",
    attributes := Attrs.empty, confidence := 1, source_text := "" }

/-- The second extracted entity of the metric canonicalization claim. -/
def entC10b : Entity :=
  { id := "m2", entity_type := EntityType.METRIC,
    label := "VCORE usage 29.3%", description := "",
    attributes := Attrs.empty, confidence := 1, source_text := "" }

/-- A concrete graph for the merge witness: one existing entity with a
description and confidence 1. -/
def gC9 : CausalGraph :=
  (CausalGraph.empty true).add_entity
    { id := "x1", entity_type := EntityType.COMPONENT, label := "X",
      description := "described", attributes := Attrs.empty,
      confidence := 1, source_text := "" }

/-- A candidate with lower confidence and its own description: merging must
keep the existing description and confidence yet still report an update. -/
def neC9 : Entity :=
  { id := "tmp1", entity_type := EntityType.COMPONENT, label := "X",
    description := "other", attributes := Attrs.empty, confidence := 0,
    source_text := "from report" }

/-- An entity with an explicit label, for concrete test graphs. -/
def entL (i : String) (t : EntityType) (l : String) : Entity :=
  { id := i, entity_type := t, label := l, description := "",
    attributes := Attrs.empty, confidence := 1, source_text := "" }

/-- The autolink counterexample graph: a VCORE component, a metric with an
existing outgoing evidential (INDICATES) edge to a hypothesis. -/
def gC8 : CausalGraph :=
  addRelStep
    ((((CausalGraph.empty true).add_entity
        (entL "c_vcore" EntityType.COMPONENT "VCORE")).add_entity
        (entL "m1" EntityType.METRIC "vcore usage")).add_entity
        (entL "h1" EntityType.HYPOTHESIS "H"))
    (relW "m1" "h1" RelationType.INDICATES)

/-- The component map and initial state of the autolink witness. -/
def compsW : List (String × String) :=
  buildComponentsMap gC8.get_entities

/-- The initial autolink state over the counterexample graph. -/
def stW8 : AutoSt :=
  { graph := gC8, keys := relationKeys gC8.get_relations,
    diff := AugmentDiff.empty }

/-- The metric entity of the autolink witness. -/
def eW8 : Entity :=
  entL "m1" EntityType.METRIC "vcore usage"

/-- The one-entity step of the fuzzy-match fold. -/
def fuzzyStep (cfg : CkgConfig) (norm : String) (t : EntityType)
    (b : Option String × Rat) (ex : Entity) : Option String × Rat :=
  if ex.entity_type ≠ t then b
  else
    if simScore cfg norm ex > b.2 then (some ex.id, simScore cfg norm ex)
    else b

/-- A configuration for the fuzzy-match witness: fuzzy on, threshold 1, a
similarity function scoring 1 against the normalized label "close" and 0
otherwise. -/
def cfgW7 : CkgConfig :=
  { fuzzy_match := true, similarity_threshold := 1,
    sim := fun _ b => if b = "close" then 1 else 0,
    digestEntity := fun s => s, digestFeedback := fun s => s }

/-- Two same-kind entities with the same fuzzy score: the tie must keep the
first one. -/
def existW7 : List Entity :=
  [entL "e1" EntityType.COMPONENT "close",
    entL "e2" EntityType.COMPONENT "close"]

/-- The fuzzy-match candidate of the witness. -/
def candW7 : Entity :=
  entL "c" EntityType.COMPONENT "Target"

/-- A trivial configuration for the feedback-phase witness. -/
def cfgW4 : CkgConfig :=
  { fuzzy_match := false, similarity_threshold := 1,
    sim := fun _ _ => 0, digestEntity := fun s => s,
    digestFeedback := fun s => s }

/-- An empty feedback-relation state for the witness. -/
def fbStW4 : FbRelSt :=
  { graph := CausalGraph.empty true
    by_norm := []
    entities := []
    keys := []
    created_ids := []
    diff := AugmentDiff.empty }

/-- The loop state of the witness: no cached DDR/CPU targets. -/
def lsW4 : FbRelLoopSt :=
  { st := fbStW4, ddr_target := none, cpu_target := none }

/-- The total number of relation-loop outcome records in a diff. -/
def diffCount (d : AugmentDiff) : Nat :=
  d.added_relations.length + d.updated_relations.length +
    d.skipped_relations.length + d.conflicts.length

/-- Soundness of the relation-loop key set: every recorded key matches a
stored relation. -/
def KeysSound (st : RelPhaseSt) : Prop :=
  ∀ k, k ∈ st.keys →
    anyRelationMatches st.graph.relations k.1 k.2.1 k.2.2 = true

/-- A relation of the conflict-isolation witness batch. -/
def relW6 (s t : String) : Relation :=
  { source_id := s, target_id := t, relation_type := RelationType.CAUSES,
    confidence := 1, evidence := "", causal_effect := none,
    attributes := Attrs.empty }

/-- The id map of the conflict-isolation witness. -/
def idmW6 : List (String × String) := [("x", "a"), ("y", "b"), ("z", "c")]

/-- The witness base graph: three entities, no edges, strict mode. -/
def gW6 : CausalGraph :=
  (((CausalGraph.empty true).add_entity
    (entL "a" EntityType.ROOT_CAUSE "A")).add_entity
    (entL "b" EntityType.COMPONENT "B")).add_entity
    (entL "c" EntityType.SYMPTOM "C")

/-- The witness batch: one cycle-inducing causal relation between two
valid ones. -/
def rsW6 : List Relation :=
  [relW6 "x" "y", relW6 "y" "x", relW6 "x" "z"]

/-- The `(kindValue, normalizedLabel)` index key of an entity. -/
def entKey (e : Entity) : String × String :=
  (e.entity_type.value, normalizeLabel e.label)

/-- What the entity loop guarantees for a processed candidate: its exact
key is in the live index, or fuzzy matching is on and a same-kind witness
of the call-initial snapshot reaches the threshold. -/
def Matched (cfg : CkgConfig) (existing : List Entity) (st : EntPhaseSt)
    (e0 : Entity) : Prop :=
  (dictGet st.index (entKey (canonEntity e0))).isSome = true ∨
  (cfg.fuzzy_match = true ∧ ∃ ex ∈ existing,
    ex.entity_type = (canonEntity e0).entity_type ∧
    cfg.similarity_threshold ≤
      simScore cfg (normalizeLabel (canonEntity e0).label) ex)

/-- Every index entry is backed by some stored entity with that key. -/
def IdxBacked (st : EntPhaseSt) : Prop :=
  ∀ p ∈ st.index, ∃ ent ∈ st.graph.get_entities, entKey ent = p.1

/-- Every normalized-label map entry is backed by a stored entity. -/
def ByNormBacked (st : FbEntSt) : Prop :=
  ∀ p ∈ st.by_norm, ∃ ent ∈ st.graph.get_entities,
    normalizeLabel ent.label = p.1

/-- A configuration with identity digests for the idempotence witness and
counterexample. -/
def cfgC3 : CkgConfig :=
  { fuzzy_match := false, similarity_threshold := 1,
    sim := fun _ _ => 0, digestEntity := fun s => s,
    digestFeedback := fun s => s }

/-- The witness base graph: one component. -/
def gW3 : CausalGraph :=
  (CausalGraph.empty true).add_entity
    (entL "a1" EntityType.COMPONENT "Alpha")

/-- The witness extractor output: one fresh and one mergeable candidate. -/
def esW3 : List Entity :=
  [entL "x1" EntityType.COMPONENT "Alpha",
    entL "x2" EntityType.OBSERVATION "Beta"]

/-- The witness feedback labels. -/
def msW3 : List String := ["New Obs"]

/-- The counterexample base graph: one component whose label normalizes to
"voting -> d". -/
def gC3 : CausalGraph :=
  (CausalGraph.empty true).add_entity
    (entL "b1" EntityType.COMPONENT "VOTING -> D")

/-- The counterexample missing labels (already feedback-normalized, as
`augment` passes them). -/
def msC3 : List String := ["VOTING -> C", "投票機制 -> D"]

/-- The feedback phase as `augment` runs it: missing entities, then
missing relations, from a fresh diff. -/
def fbPhaseC3 (g : CausalGraph) : FbRelSt :=
  ensureMissingRelations cfgC3 "r3" msC3
    (ensureMissingEntities cfgC3 "r3" msC3 g AugmentDiff.empty).1
    (ensureMissingEntities cfgC3 "r3" msC3 g AugmentDiff.empty).2

theorem chain_mono {E E' : List (String × String)}
    (hsub : ∀ x, x ∈ E → x ∈ E') {a c : String} {l : List (String × String)}
    (h : Chain E a l c) : Chain E' a l c := by
  induction h with
  | nil a => exact Chain.nil a
  | cons hmem _ ih => exact Chain.cons (hsub _ hmem) ih

theorem reach_mono {E E' : List (String × String)}
    (hsub : ∀ x, x ∈ E → x ∈ E') {a c : String}
    (h : Reach E a c) : Reach E' a c := by
  obtain ⟨l, hl⟩ := h
  exact ⟨l, chain_mono hsub hl⟩

theorem chain_append {E : List (String × String)} {a b c : String}
    {l₁ l₂ : List (String × String)}
    (h₁ : Chain E a l₁ b) (h₂ : Chain E b l₂ c) :
    Chain E a (l₁ ++ l₂) c := by
  induction h₁ with
  | nil a => simpa using h₂
  | cons hmem _ ih => exact Chain.cons hmem (ih h₂)

theorem chain_cons_elim {E : List (String × String)} {a c u v : String}
    {l : List (String × String)} (h : Chain E a ((u, v) :: l) c) :
    a = u ∧ (u, v) ∈ E ∧ Chain E v l c := by
  cases h with
  | cons hmem hrest => exact ⟨rfl, hmem, hrest⟩

theorem chain_split {E : List (String × String)} {a c : String}
    (l₁ : List (String × String)) {l₂ : List (String × String)}
    (h : Chain E a (l₁ ++ l₂) c) :
    ∃ b, Chain E a l₁ b ∧ Chain E b l₂ c := by
  induction l₁ generalizing a with
  | nil => exact ⟨a, Chain.nil a, by simpa using h⟩
  | cons x tl ih =>
      obtain ⟨u, v⟩ := x
      obtain ⟨rfl, hmem, hrest⟩ := chain_cons_elim h
      obtain ⟨b, hb₁, hb₂⟩ := ih hrest
      exact ⟨b, Chain.cons hmem hb₁, hb₂⟩

theorem chain_mem {E : List (String × String)} {a c : String}
    {l : List (String × String)} (h : Chain E a l c) :
    ∀ x, x ∈ l → x ∈ E := by
  induction h with
  | nil => intro x hx; cases hx
  | cons hmem _ ih =>
      intro x hx
      rcases List.mem_cons.mp hx with h₁ | h₂
      · exact h₁ ▸ hmem
      · exact ih x h₂

theorem hasPathFuel_sound {E : List (String × String)} :
    ∀ (n : Nat) (a b : String), hasPathFuel E n a b = true → Reach E a b := by
  intro n
  induction n with
  | zero =>
      intro a b h
      simp only [hasPathFuel, beq_iff_eq] at h
      exact h ▸ ⟨[], Chain.nil a⟩
  | succ n ih =>
      intro a b h
      simp only [hasPathFuel, Bool.or_eq_true, beq_iff_eq,
        List.any_eq_true] at h
      rcases h with h | ⟨e, he, hf⟩
      · exact h ▸ ⟨[], Chain.nil a⟩
      · obtain ⟨hE, hfst⟩ := List.mem_filter.mp he
        obtain ⟨l, hl⟩ := ih e.2 b hf
        have : (a, e.2) ∈ E := by
          have : e = (a, e.2) := by
            obtain ⟨e₁, e₂⟩ := e
            simp only [beq_iff_eq] at hfst
            simpa using hfst
          exact this ▸ hE
        exact ⟨(a, e.2) :: l, Chain.cons this hl⟩

theorem chain_hasPathFuel {E : List (String × String)} {a c : String}
    {l : List (String × String)} (h : Chain E a l c) :
    hasPathFuel E l.length a c = true := by
  induction h with
  | nil a => simp [hasPathFuel]
  | cons hmem _ ih =>
      simp only [List.length_cons, hasPathFuel, Bool.or_eq_true,
        List.any_eq_true]
      refine Or.inr ⟨_, List.mem_filter.mpr ⟨hmem, by simp⟩, ih⟩

theorem hasPathFuel_succ {E : List (String × String)} :
    ∀ (n : Nat) (a b : String), hasPathFuel E n a b = true →
      hasPathFuel E (n + 1) a b = true := by
  intro n
  induction n with
  | zero =>
      intro a b h
      simp only [hasPathFuel, beq_iff_eq] at h
      simp [hasPathFuel, h]
  | succ n ih =>
      intro a b h
      rw [show hasPathFuel E (n + 1 + 1) a b =
        (a == b || (succPairs E a).any (fun e => hasPathFuel E (n + 1) e.2 b))
        from rfl]
      rw [show hasPathFuel E (n + 1) a b =
        (a == b || (succPairs E a).any (fun e => hasPathFuel E n e.2 b))
        from rfl] at h
      simp only [Bool.or_eq_true, List.any_eq_true] at h ⊢
      rcases h with h | ⟨e, he, hf⟩
      · exact Or.inl h
      · exact Or.inr ⟨e, he, ih e.2 b hf⟩

theorem hasPathFuel_mono {E : List (String × String)} {n m : Nat}
    (hnm : n ≤ m) : ∀ a b : String,
      hasPathFuel E n a b = true → hasPathFuel E m a b = true := by
  induction hnm with
  | refl => intro a b h; exact h
  | step _ ih => intro a b h; exact hasPathFuel_succ _ a b (ih a b h)

theorem not_nodup_decomp {α : Type} {l : List α} (h : ¬ l.Nodup) :
    ∃ (x : α) (l₁ l₂ l₃ : List α), l = l₁ ++ x :: (l₂ ++ x :: l₃) := by
  induction l with
  | nil => exact absurd List.nodup_nil h
  | cons a t ih =>
      by_cases ha : a ∈ t
      · obtain ⟨s, u, rfl⟩ := List.append_of_mem ha
        exact ⟨a, [], s, u, by simp⟩
      · have ht : ¬ t.Nodup := fun ht => h (List.nodup_cons.mpr ⟨ha, ht⟩)
        obtain ⟨x, l₁, l₂, l₃, rfl⟩ := ih ht
        exact ⟨x, a :: l₁, l₂, l₃, by simp⟩

theorem nodup_subset_length {α : Type} [DecidableEq α] {l E : List α}
    (hn : l.Nodup) (hs : ∀ x ∈ l, x ∈ E) : l.length ≤ E.length := by
  have hsub : l ⊆ E := by
    intro x hx
    exact hs x hx
  exact (hn.subperm hsub).length_le

theorem chain_shorten_aux {E : List (String × String)} :
    ∀ (n : Nat) (a c : String) (l : List (String × String)),
      l.length ≤ n → Chain E a l c →
      ∃ l', Chain E a l' c ∧ l'.length ≤ E.length := by
  intro n
  induction n with
  | zero =>
      intro a c l hl h
      have hnil : l = [] := List.eq_nil_of_length_eq_zero (Nat.le_zero.mp hl)
      subst hnil
      exact ⟨[], h, by simp⟩
  | succ n ih =>
      intro a c l hl h
      by_cases hle : l.length ≤ E.length
      · exact ⟨l, h, hle⟩
      · have hsub : ∀ x ∈ l, x ∈ E := chain_mem h
        have hnd : ¬ l.Nodup := fun hndp => hle (nodup_subset_length hndp hsub)
        obtain ⟨x, l₁, l₂, l₃, rfl⟩ := not_nodup_decomp hnd
        obtain ⟨u, v⟩ := x
        obtain ⟨b₁, h₁, h₂⟩ := chain_split l₁ h
        obtain ⟨he₁, hmem, hrest⟩ := chain_cons_elim h₂
        obtain ⟨b₂, h₃, h₄⟩ := chain_split l₂ hrest
        obtain ⟨he₂, hmem₂, hrest₂⟩ := chain_cons_elim h₄
        have hchain : Chain E a (l₁ ++ (u, v) :: l₃) c :=
          chain_append (he₁ ▸ h₁) (Chain.cons hmem hrest₂)
        have hlen : (l₁ ++ (u, v) :: l₃).length ≤ n := by
          simp only [List.length_append, List.length_cons] at hl ⊢
          omega
        exact ih a c _ hlen hchain

theorem reach_hasPath {E : List (String × String)} {a b : String}
    (h : Reach E a b) : hasPath E a b = true := by
  obtain ⟨l, hl⟩ := h
  obtain ⟨l', hl', hlen⟩ := chain_shorten_aux l.length a b l (le_refl _) hl
  exact hasPathFuel_mono hlen a b (chain_hasPathFuel hl')

theorem hasPath_iff {E : List (String × String)} {a b : String} :
    hasPath E a b = true ↔ Reach E a b :=
  ⟨hasPathFuel_sound E.length a b, reach_hasPath⟩

theorem hasCycleB_iff {E : List (String × String)} :
    hasCycleB E = true ↔ HasCycleP E := by
  simp only [hasCycleB, List.any_eq_true]
  constructor
  · rintro ⟨e, he, hp⟩
    obtain ⟨l, hl⟩ := hasPath_iff.mp hp
    exact ⟨e.1, e.2, l, by simpa using he, hl⟩
  · rintro ⟨u, v, l, hm, hc⟩
    exact ⟨(u, v), hm, hasPath_iff.mpr ⟨l, hc⟩⟩

theorem cycle_mono {E E' : List (String × String)}
    (hsub : ∀ x, x ∈ E → x ∈ E') (h : HasCycleP E) : HasCycleP E' := by
  obtain ⟨u, v, l, hm, hc⟩ := h
  exact ⟨u, v, l, hsub _ hm, chain_mono hsub hc⟩

theorem chain_extend_decomp {E E' : List (String × String)} {s t : String}
    (hsub : ∀ x, x ∈ E' → x ∈ E ∨ x = (s, t)) {a c : String}
    {l : List (String × String)} (h : Chain E' a l c) :
    Reach E a c ∨ (Reach E a s ∧ Reach E t c) := by
  induction h with
  | nil a => exact Or.inl ⟨[], Chain.nil a⟩
  | cons hmem _ ih =>
      rcases hsub _ hmem with hE | heq
      · rcases ih with h₁ | ⟨h₁, h₂⟩
        · obtain ⟨l₁, hl₁⟩ := h₁
          exact Or.inl ⟨_, Chain.cons hE hl₁⟩
        · obtain ⟨l₁, hl₁⟩ := h₁
          exact Or.inr ⟨⟨_, Chain.cons hE hl₁⟩, h₂⟩
      · injection heq with h₁ h₂
        subst h₁
        subst h₂
        rcases ih with h₁ | ⟨_, h₂⟩
        · exact Or.inr ⟨⟨[], Chain.nil _⟩, h₁⟩
        · exact Or.inr ⟨⟨[], Chain.nil _⟩, h₂⟩

/-- Adding the single edge `(s, t)` to an acyclic edge set stays acyclic when
no return path `t ⟶ s` exists. -/
theorem no_cycle_extend {E E' : List (String × String)} {s t : String}
    (hsub : ∀ x, x ∈ E' → x ∈ E ∨ x = (s, t))
    (hnc : ¬ HasCycleP E) (hns : ¬ Reach E t s) : ¬ HasCycleP E' := by
  rintro ⟨u, v, l, hm, hc⟩
  have hd := chain_extend_decomp hsub hc
  rcases hsub _ hm with hE | heq
  · rcases hd with h₁ | ⟨h₁, h₂⟩
    · obtain ⟨l₁, hl₁⟩ := h₁
      exact hnc ⟨u, v, l₁, hE, hl₁⟩
    · obtain ⟨l₁, hl₁⟩ := h₁
      obtain ⟨l₂, hl₂⟩ := h₂
      exact hns ⟨l₂ ++ (u, v) :: l₁, chain_append hl₂ (Chain.cons hE hl₁)⟩
  · injection heq with h₁ h₂
    subst h₁
    subst h₂
    rcases hd with h₁ | ⟨h₁, _⟩
    · exact hns h₁
    · exact hns h₁

/-- How `add_relation` succeeded: both endpoint checks passed, the cycle
guard was false, and the result appends the relation and upserts the edge. -/
theorem add_relation_ok_elim {g : CausalGraph} {r : Relation} {vd : Bool}
    {g' : CausalGraph} (h : g.add_relation r vd = Except.ok g') :
    g' = { g with
      relations := g.relations ++ [r]
      edges := upsertEdge g.edges (r.source_id, r.target_id) (mkEdgeAttrs r) } ∧
    (g.strict_dag && vd && r.is_causal
      && g.would_create_cycle r.source_id r.target_id) = false := by
  unfold CausalGraph.add_relation at h
  split at h
  next => exact Except.noConfusion h
  next =>
    split at h
    next => exact Except.noConfusion h
    next =>
      split at h
      next => exact Except.noConfusion h
      next hc =>
        refine ⟨?_, by simpa using hc⟩
        cases h
        rfl

/-- When both endpoints exist and the strict-mode cycle guard fires,
`add_relation` raises the cycle error. -/
theorem add_relation_cycle_intro {g : CausalGraph} {r : Relation}
    (hs : dictContains g.entities r.source_id = true)
    (ht : dictContains g.entities r.target_id = true)
    (hc : (g.strict_dag && true && r.is_causal
      && g.would_create_cycle r.source_id r.target_id) = true) :
    ∃ msg, g.add_relation r true = Except.error (AddErr.cycleError msg) := by
  unfold CausalGraph.add_relation
  rw [if_neg (by simp [hs]), if_neg (by simp [ht]), if_pos hc]
  exact ⟨_, rfl⟩

theorem mem_pairs_upsertEdge {Ed : List ((String × String) × EdgeAttrs)}
    {p : String × String} {a : EdgeAttrs} :
    ∀ x ∈ (upsertEdge Ed p a).map Prod.fst,
      x ∈ Ed.map Prod.fst ∨ x = p := by
  intro x hx
  unfold upsertEdge at hx
  split at hx
  · simp only [List.map_map, List.mem_map, Function.comp] at hx
    obtain ⟨q₀, hq₀, hfx⟩ := hx
    by_cases hqp : (q₀.1 == p) = true
    · rw [if_pos hqp] at hfx
      exact Or.inr hfx.symm
    · rw [if_neg hqp] at hfx
      exact Or.inl (List.mem_map.mpr ⟨q₀, hq₀, hfx⟩)
  · simp only [List.map_append, List.mem_append, List.map_cons, List.map_nil,
      List.mem_singleton] at hx
    rcases hx with h | h
    · exact Or.inl h
    · exact Or.inr h

theorem mem_causal_upsertEdge {Ed : List ((String × String) × EdgeAttrs)}
    {p : String × String} {a : EdgeAttrs} :
    ∀ x ∈ ((upsertEdge Ed p a).filter (fun e => e.2.is_causal)).map Prod.fst,
      x ∈ (Ed.filter (fun e => e.2.is_causal)).map Prod.fst
        ∨ (x = p ∧ a.is_causal = true) := by
  intro x hx
  unfold upsertEdge at hx
  split at hx
  · simp only [List.mem_map, List.mem_filter] at hx
    obtain ⟨q, ⟨⟨q₀, hq₀, hq₀e⟩, hqc⟩, hfx⟩ := hx
    by_cases hqp : (q₀.1 == p) = true
    · rw [if_pos hqp] at hq₀e
      subst hq₀e
      exact Or.inr ⟨hfx.symm, hqc⟩
    · rw [if_neg hqp] at hq₀e
      subst hq₀e
      exact Or.inl (List.mem_map.mpr ⟨q₀, List.mem_filter.mpr ⟨hq₀, hqc⟩, hfx⟩)
  · simp only [List.filter_append, List.map_append, List.mem_append] at hx
    rcases hx with h | h
    · exact Or.inl h
    · right
      simp only [List.filter_cons, List.filter_nil] at h
      by_cases hac : a.is_causal = true
      · rw [if_pos hac] at h
        simp only [List.map_cons, List.map_nil, List.mem_singleton] at h
        exact ⟨h, hac⟩
      · rw [if_neg hac] at h
        simp at h

theorem causalPairs_subset (g : CausalGraph) :
    ∀ x ∈ causalPairs g, x ∈ g.pairs := by
  intro x hx
  unfold causalPairs at hx
  unfold CausalGraph.pairs
  simp only [List.mem_map, List.mem_filter] at hx ⊢
  obtain ⟨e, ⟨he, _⟩, hfx⟩ := hx
  exact ⟨e, he, hfx⟩

/-- A successful strict-mode causal insertion into a valid DAG keeps the
whole edge set acyclic: the cycle guard checked exactly the return path. -/
theorem add_relation_preserves_dag {g : CausalGraph} {r : Relation}
    {g' : CausalGraph} (hstrict : g.strict_dag = true)
    (hcausal : r.is_causal = true) (hvalid : g.is_valid_dag = true)
    (hok : g.add_relation r true = Except.ok g') : g'.is_valid_dag = true := by
  obtain ⟨hg', hcond⟩ := add_relation_ok_elim hok
  have hw : g.would_create_cycle r.source_id r.target_id = false := by
    simpa [hstrict, hcausal] using hcond
  have hnc : ¬ HasCycleP g.pairs := by
    intro hc
    have := hasCycleB_iff.mpr hc
    unfold CausalGraph.is_valid_dag at hvalid
    rw [this] at hvalid
    simp at hvalid
  have hns : ¬ Reach g.pairs r.target_id r.source_id := by
    intro hr
    have hp := reach_hasPath hr
    unfold CausalGraph.would_create_cycle at hw
    rw [hp] at hw
    exact Bool.noConfusion hw
  have hsub : ∀ x ∈ g'.pairs, x ∈ g.pairs ∨ x = (r.source_id, r.target_id) := by
    intro x hx
    apply mem_pairs_upsertEdge
    rw [hg'] at hx
    exact hx
  have hnc' : ¬ HasCycleP g'.pairs := no_cycle_extend hsub hnc hns
  unfold CausalGraph.is_valid_dag
  cases hcb : hasCycleB g'.pairs with
  | false => rfl
  | true => exact absurd (hasCycleB_iff.mp hcb) hnc'

/-- Any successful strict-mode insertion (causal or not, even with the
cycle guard explicitly skipped for non-causal kinds) keeps the causal
subgraph acyclic. -/
theorem add_relation_preserves_causal_dag {g : CausalGraph} {r : Relation}
    {g' : CausalGraph} (hstrict : g.strict_dag = true)
    (hnc : ¬ HasCycleP (causalPairs g))
    (hok : g.add_relation r true = Except.ok g') :
    ¬ HasCycleP (causalPairs g') := by
  obtain ⟨hg', hcond⟩ := add_relation_ok_elim hok
  have hsub : ∀ x ∈ causalPairs g',
      x ∈ causalPairs g ∨ (x = (r.source_id, r.target_id)
        ∧ (mkEdgeAttrs r).is_causal = true) := by
    intro x hx
    apply mem_causal_upsertEdge
    rw [hg'] at hx
    exact hx
  by_cases hc : r.is_causal = true
  · have hw : g.would_create_cycle r.source_id r.target_id = false := by
      simpa [hstrict, hc] using hcond
    have hns : ¬ Reach (causalPairs g) r.target_id r.source_id := by
      intro hr
      have hr' := reach_mono (causalPairs_subset g) hr
      have hp := reach_hasPath hr'
      unfold CausalGraph.would_create_cycle at hw
      rw [hp] at hw
      exact Bool.noConfusion hw
    exact no_cycle_extend (fun x hx => by
      rcases hsub x hx with h | ⟨h, _⟩
      · exact Or.inl h
      · exact Or.inr h) hnc hns
  · have hsub' : ∀ x ∈ causalPairs g', x ∈ causalPairs g := by
      intro x hx
      rcases hsub x hx with h | ⟨_, hca⟩
      · exact h
      · exact absurd hca (by simpa [mkEdgeAttrs] using hc)
    intro hcy
    exact hnc (cycle_mono hsub' hcy)

theorem addRelStep_strict (g : CausalGraph) (r : Relation) :
    (addRelStep g r).strict_dag = g.strict_dag := by
  unfold addRelStep CausalGraph.add_relation_state
  cases heq : g.add_relation r true with
  | ok g' =>
      obtain ⟨hg', _⟩ := add_relation_ok_elim heq
      rw [hg']
  | error e => rfl

theorem addRelStep_valid (g : CausalGraph) (r : Relation)
    (hstrict : g.strict_dag = true) (hcausal : r.is_causal = true)
    (hvalid : g.is_valid_dag = true) :
    (addRelStep g r).is_valid_dag = true := by
  unfold addRelStep CausalGraph.add_relation_state
  cases heq : g.add_relation r true with
  | ok g' => exact add_relation_preserves_dag hstrict hcausal hvalid heq
  | error e => exact hvalid

theorem foldl_addRelStep_valid (rs : List Relation) :
    ∀ g : CausalGraph, g.strict_dag = true → g.is_valid_dag = true →
      rs.all (fun x => x.is_causal) = true →
      (rs.foldl addRelStep g).is_valid_dag = true := by
  induction rs with
  | nil => intro g _ hvalid _; exact hvalid
  | cons r t ih =>
      intro g hstrict hvalid hall
      simp only [List.all_cons, Bool.and_eq_true] at hall
      simp only [List.foldl_cons]
      exact ih (addRelStep g r) (by rw [addRelStep_strict]; exact hstrict)
        (addRelStep_valid g r hstrict hall.1 hvalid) hall.2

/-- C1: for every sequence of causal-relation insertions (strict mode,
default `validate_dag`), `is_valid_dag` holds after every successful
insertion; a call whose causal relation would close a cycle fails with the
cycle error and leaves the graph (entity map, relation sequence, edge
index) exactly as it was before the call. -/
theorem c1_dag_invariant (g : CausalGraph) (r : Relation)
    (hstrict : g.strict_dag = true) (hcausal : r.is_causal = true)
    (hvalid : g.is_valid_dag = true) :
    (∀ g', g.add_relation r true = Except.ok g' → g'.is_valid_dag = true) ∧
    (∀ e, g.add_relation r true = Except.error e →
      g.add_relation_state r true = (some e, g)) ∧
    (dictContains g.entities r.source_id = true →
      dictContains g.entities r.target_id = true →
      g.would_create_cycle r.source_id r.target_id = true →
      isCycleErr (g.add_relation r true) = true) ∧
    (∀ rs : List Relation, rs.all (fun x => x.is_causal) = true →
      (rs.foldl addRelStep g).is_valid_dag = true) := by
  refine ⟨?_, ?_, ?_, ?_⟩
  · intro g' hok
    exact add_relation_preserves_dag hstrict hcausal hvalid hok
  · intro e herr
    unfold CausalGraph.add_relation_state
    rw [herr]
  · intro hs ht hw
    obtain ⟨msg, hmsg⟩ := add_relation_cycle_intro hs ht
      (by simp [hstrict, hcausal, hw])
    rw [hmsg]
    rfl
  · intro rs hall
    exact foldl_addRelStep_valid rs g hstrict hvalid hall

theorem c1_dag_invariant_witness :
    ([relW "a" "b" RelationType.CAUSES,
      relW "b" "a" RelationType.CAUSES].foldl addRelStep gW).is_valid_dag
      = true :=
  (c1_dag_invariant gW (relW "a" "b" RelationType.CAUSES) (by decide)
    (by decide) (by decide)).2.2.2
    [relW "a" "b" RelationType.CAUSES, relW "b" "a" RelationType.CAUSES]
    (by decide)

/-- C2, counterexample: with only the non-causal edge `b ⟶ a` stored, the
causal subgraph has no path from `b` to `a`, yet inserting the causal
relation `a ⟶ b` is rejected with the cycle error — the cycle check walks
all edges, not just causal ones. -/
theorem c2_counterexample :
    gC2.relations.length = 1 ∧
    (relW "a" "b" RelationType.CAUSES).is_causal = true ∧
    gC2.strict_dag = true ∧
    hasPath (causalPairs gC2) "b" "a" = false ∧
    isCycleErr (gC2.add_relation (relW "a" "b" RelationType.CAUSES) true)
      = true := by
  refine ⟨by decide, by decide, by decide, by decide, by decide⟩

/-- C2, amended: in strict mode, with both endpoints present, a causal
insertion fails with the cycle error exactly when a directed path from the
relation's target to its source already exists through the whole stored
edge set — causal and non-causal edges alike. -/
theorem c2_amended_cycle_check (g : CausalGraph) (r : Relation)
    (hstrict : g.strict_dag = true) (hcausal : r.is_causal = true)
    (hs : dictContains g.entities r.source_id = true)
    (ht : dictContains g.entities r.target_id = true) :
    isCycleErr (g.add_relation r true) = true ↔
      Reach g.pairs r.target_id r.source_id := by
  unfold CausalGraph.add_relation
  rw [if_neg (by simp [hs]), if_neg (by simp [ht])]
  by_cases hw : g.would_create_cycle r.source_id r.target_id = true
  · rw [if_pos (by simp [hstrict, hcausal, hw])]
    unfold CausalGraph.would_create_cycle at hw
    exact ⟨fun _ => hasPath_iff.mp hw, fun _ => rfl⟩
  · have hw' : g.would_create_cycle r.source_id r.target_id = false := by
      simpa using hw
    rw [if_neg (by simp [hw'])]
    constructor
    · intro h
      exact Bool.noConfusion h
    · intro hr
      have := reach_hasPath hr
      unfold CausalGraph.would_create_cycle at hw'
      rw [this] at hw'
      exact Bool.noConfusion hw'

theorem c2_amended_cycle_check_witness :
    isCycleErr (gC2.add_relation (relW "a" "b" RelationType.CAUSES) true)
      = true :=
  (c2_amended_cycle_check gC2 (relW "a" "b" RelationType.CAUSES) (by decide)
    (by decide) (by decide) (by decide)).mpr
    ⟨[("b", "a")], Chain.cons (by decide) (Chain.nil "a")⟩

theorem getCausalChainFuel_zero (g : CausalGraph) (eid : String) :
    getCausalChainFuel g 0 eid = none := rfl

theorem getCausalChainFuel_succ (g : CausalGraph) (n : Nat) (eid : String) :
    getCausalChainFuel g (n + 1) eid =
      (if dictContains g.entities eid = false then some []
      else
        match chainSubsAux (getCausalChainFuel g n) (successorsOf g eid) with
        | none => none
        | some pairsR =>
            some (if (buildChains eid pairsR).isEmpty then [[eid]]
              else buildChains eid pairsR)) := rfl

/-- C5: `get_causal_chain` is not depth-bounded.  The core accepts the
non-causal 2-cycle `a ⇄ b` (both insertions succeed), and on that graph the
recursive traversal started at `a` exhausts every recursion bound — it
never terminates, contradicting the claimed bounded-depth termination. -/
theorem c5_get_causal_chain_diverges :
    isOkRes (gW.add_relation (relW "a" "b" RelationType.CORRELATES_WITH) true)
      = true ∧
    isOkRes ((addRelStep gW (relW "a" "b" RelationType.CORRELATES_WITH)).add_relation
      (relW "b" "a" RelationType.CORRELATES_WITH) true) = true ∧
    ∀ n : Nat, getCausalChainFuel gC5 n "a" = none := by
  refine ⟨by decide, by decide, ?_⟩
  have key : ∀ n : Nat, getCausalChainFuel gC5 n "a" = none ∧
      getCausalChainFuel gC5 n "b" = none := by
    intro n
    induction n with
    | zero => exact ⟨rfl, rfl⟩
    | succ n ih =>
        constructor
        · rw [getCausalChainFuel_succ,
            if_neg (by decide : ¬ dictContains gC5.entities "a" = false),
            show successorsOf gC5 "a" = ["b"] from by decide]
          simp only [chainSubsAux]
          rw [ih.2]
        · rw [getCausalChainFuel_succ,
            if_neg (by decide : ¬ dictContains gC5.entities "b" = false),
            show successorsOf gC5 "b" = ["a"] from by decide]
          simp only [chainSubsAux]
          rw [ih.1]
  intro n
  exact (key n).1

/-- Appending a fresh key makes it findable. -/
theorem dictGet_append_fresh {κ α : Type} [BEq κ] [LawfulBEq κ]
    (m : List (κ × α)) (k : κ) (v : α)
    (h : (m.any fun p => p.1 == k) = false) :
    dictGet (m ++ [(k, v)]) k = some v := by
  unfold dictGet
  induction m with
  | nil => simp [List.find?]
  | cons p t ih =>
      simp only [List.any_cons, Bool.or_eq_false_iff] at h
      rw [List.cons_append, List.find?_cons_of_neg _ (by simp [h.1])]
      exact ih h.2

/-- Replacing an existing key in place makes the new value findable. -/
theorem dictGet_replace {κ α : Type} [BEq κ] [LawfulBEq κ]
    (m : List (κ × α)) (k : κ) (v : α)
    (h : (m.any fun p => p.1 == k) = true) :
    dictGet (m.map fun p => if p.1 == k then (k, v) else p) k = some v := by
  unfold dictGet
  induction m with
  | nil => simp at h
  | cons p t ih =>
      by_cases hp : (p.1 == k) = true
      · simp only [List.map_cons, if_pos hp]
        rw [List.find?_cons_of_pos _ (by simp)]
        rfl
      · simp only [List.map_cons, if_neg hp]
        rw [List.find?_cons_of_neg _ (by simpa using hp)]
        apply ih
        simp only [List.any_cons, Bool.or_eq_true] at h
        rcases h with h | h
        · exact absurd h hp
        · exact h

/-- Looking up the key just written returns the written value. -/
theorem dictGet_dictUpsert {κ α : Type} [BEq κ] [LawfulBEq κ]
    (m : List (κ × α)) (k : κ) (v : α) :
    dictGet (dictUpsert m k v) k = some v := by
  unfold dictUpsert
  split
  next h => exact dictGet_replace m k v h
  next h => exact dictGet_append_fresh m k v (Bool.eq_false_iff.mpr h)

/-- C10: the labels "VCORE usage 82.6%" and "VCORE usage 29.3%" differ only
in their percent tokens and canonicalize to the same label key, while each
entity keeps its own raw label and extracted numeric value in its
attributes (`raw_label`, `metric_values`). -/
theorem c10_metric_canonicalization :
    canonicalizeMetricLabel "VCORE usage 82.6%" =
      ("VCORE usage", some "VCORE usage 82.6%",
        some [{ value := "82.6%", num := "82.6", unit := "%" }]) ∧
    canonicalizeMetricLabel "VCORE usage 29.3%" =
      ("VCORE usage", some "VCORE usage 29.3%",
        some [{ value := "29.3%", num := "29.3", unit := "%" }]) ∧
    normalizeLabel "VCORE usage 82.6%" = normalizeLabel "VCORE usage 29.3%" ∧
    (canonEntity entC10a).label = (canonEntity entC10b).label ∧
    (canonEntity entC10a).attributes.raw_label = some "VCORE usage 82.6%" ∧
    (canonEntity entC10b).attributes.raw_label = some "VCORE usage 29.3%" ∧
    (canonEntity entC10a).attributes.metric_values =
      some [{ value := "82.6%", num := "82.6", unit := "%" }] ∧
    (canonEntity entC10b).attributes.metric_values =
      some [{ value := "29.3%", num := "29.3", unit := "%" }] := by
  refine ⟨by decide, by decide, by decide, by decide, by decide, by decide,
    by decide, by decide⟩

/-- C9: when a candidate merges into an existing entity, the description is
backfilled only when the existing one is empty, the confidence becomes the
maximum of the two (it never decreases), a provenance record is always
appended, identity fields stay intact, and the id is always reported in
`updated_entities` — even when description and confidence are unchanged. -/
theorem c9_merge_entity (g : CausalGraph) (entity_id : String) (ne : Entity)
    (report_id : String) (upd : List String) (ex : Entity)
    (hex : g.get_entity entity_id = some ex) :
    ∃ ex',
      (mergeEntity g entity_id ne report_id upd).1.get_entity entity_id
        = some ex' ∧
      (ex.description ≠ "" → ex'.description = ex.description) ∧
      (ex.description = "" ∧ ne.description ≠ "" →
        ex'.description = ne.description) ∧
      (ne.description = "" → ex'.description = ex.description) ∧
      ex'.confidence = max ex.confidence ne.confidence ∧
      ex.confidence ≤ ex'.confidence ∧
      ex'.attributes.provenance = ex.attributes.provenance ++
        [buildProvenance report_id ne.source_text] ∧
      ex'.id = ex.id ∧ ex'.entity_type = ex.entity_type ∧
      ex'.label = ex.label ∧
      (mergeEntity g entity_id ne report_id upd).2 = upd ++ [entity_id] := by
  unfold mergeEntity
  rw [hex]
  refine ⟨{ ex with
      description := if ex.description = "" ∧ ne.description ≠ "" then
        ne.description else ex.description
      confidence := if ne.confidence > ex.confidence then ne.confidence
        else ex.confidence
      attributes := { ex.attributes with
        provenance := ex.attributes.provenance ++
          [buildProvenance report_id ne.source_text] } },
    ?_, ?_, ?_, ?_, ?_, ?_, rfl, rfl, rfl, rfl, rfl⟩
  · show CausalGraph.get_entity _ _ = _
    unfold CausalGraph.get_entity CausalGraph.putEntity
    exact dictGet_dictUpsert _ _ _
  · intro hne
    show (if _ then _ else _) = _
    rw [if_neg]
    rintro ⟨h₁, _⟩
    exact hne h₁
  · rintro ⟨h₁, h₂⟩
    show (if _ then _ else _) = _
    rw [if_pos ⟨h₁, h₂⟩]
  · intro hne
    show (if _ then _ else _) = _
    rw [if_neg]
    rintro ⟨_, h₂⟩
    exact h₂ hne
  · show (if ne.confidence > ex.confidence then ne.confidence
      else ex.confidence) = max ex.confidence ne.confidence
    rcases le_or_lt ne.confidence ex.confidence with h | h
    · rw [if_neg (not_lt.mpr h), max_eq_left h]
    · rw [if_pos h, max_eq_right h.le]
  · show ex.confidence ≤ (if ne.confidence > ex.confidence then
      ne.confidence else ex.confidence)
    rcases le_or_lt ne.confidence ex.confidence with h | h
    · rw [if_neg (not_lt.mpr h)]
    · rw [if_pos h]
      exact h.le

theorem c9_merge_entity_witness :
    ∃ ex',
      (mergeEntity gC9 "x1" neC9 "r9" []).1.get_entity "x1" = some ex' ∧
      (("described" : String) ≠ "" → ex'.description = "described") ∧
      (("described" : String) = "" ∧ ("other" : String) ≠ "" →
        ex'.description = "other") ∧
      (("other" : String) = "" → ex'.description = "described") ∧
      ex'.confidence = max 1 0 ∧
      (1 : Rat) ≤ ex'.confidence ∧
      ex'.attributes.provenance = [] ++ [buildProvenance "r9" "from report"] ∧
      ex'.id = "x1" ∧ ex'.entity_type = EntityType.COMPONENT ∧
      ex'.label = "X" ∧
      (mergeEntity gC9 "x1" neC9 "r9" []).2 = [] ++ ["x1"] :=
  c9_merge_entity gC9 "x1" neC9 "r9" []
    { id := "x1", entity_type := EntityType.COMPONENT, label := "X",
      description := "described", attributes := Attrs.empty,
      confidence := 1, source_text := "" } (by decide)

/-- When both endpoints exist and the cycle guard is false, `add_relation`
succeeds and appends. -/
theorem add_relation_ok_intro {g : CausalGraph} {r : Relation} {vd : Bool}
    (hs : dictContains g.entities r.source_id = true)
    (ht : dictContains g.entities r.target_id = true)
    (hg : (g.strict_dag && vd && r.is_causal
      && g.would_create_cycle r.source_id r.target_id) = false) :
    g.add_relation r vd = Except.ok { g with
      relations := g.relations ++ [r]
      edges := upsertEdge g.edges (r.source_id, r.target_id)
        (mkEdgeAttrs r) } := by
  unfold CausalGraph.add_relation
  rw [if_neg (by simp [hs]), if_neg (by simp [ht]), if_neg (by simp [hg])]

/-- C8, counterexample: the metric `m1` already has an outgoing evidential
edge (`m1 INDICATES h1`), yet the autolink pass still adds a new
`m1 INDICATES c_vcore` edge — the code only skips the exact
`(metric, INDICATES, component)` key, it never checks for existing
outgoing evidential edges. -/
theorem c8_counterexample :
    (relationKeys gC8.relations).contains ("m1", "INDICATES", "h1")
      = true ∧
    (autolinkMetricsToComponents "r8" gC8 AugmentDiff.empty).2.added_relations
      = [mkRelRef "m1" "c_vcore" "INDICATES"] ∧
    (autolinkMetricsToComponents "r8" gC8 AugmentDiff.empty).1.relations.length
      = gC8.relations.length + 1 := by
  refine ⟨by decide, by decide, by decide⟩

/-- C8, amended: the autolink pass adds the fixed 0.3-confidence,
non-causal INDICATES edge (cycle validation skipped) from every
heuristic-matched Metric entity to its component unless the exact
`(metric, INDICATES, component)` key already exists — irrespective of any
other outgoing evidential edges; non-Metric and unmatched entities are
left unchanged. -/
theorem c8_amended_autolink (report_id : String)
    (components : List (String × String)) (st : AutoSt) (e : Entity) :
    (e.entity_type ≠ EntityType.METRIC →
      autolinkStep report_id components st e = st) ∧
    (chooseComponentFor components e = none →
      autolinkStep report_id components st e = st) ∧
    (∀ cid, e.entity_type = EntityType.METRIC →
      chooseComponentFor components e = some cid →
      st.keys.contains (e.id, RelationType.INDICATES.value, cid) = true →
      autolinkStep report_id components st e = st) ∧
    (∀ cid, e.entity_type = EntityType.METRIC →
      chooseComponentFor components e = some cid →
      st.keys.contains (e.id, RelationType.INDICATES.value, cid) = false →
      dictContains st.graph.entities e.id = true →
      dictContains st.graph.entities cid = true →
      (autolinkStep report_id components st e).graph.relations
        = st.graph.relations ++ [autolinkRel report_id e cid] ∧
      (autolinkStep report_id components st e).diff.added_relations
        = st.diff.added_relations ++
          [mkRelRef e.id cid RelationType.INDICATES.value] ∧
      (autolinkRel report_id e cid).confidence = 0.3 ∧
      (autolinkRel report_id e cid).relation_type = RelationType.INDICATES ∧
      (autolinkRel report_id e cid).is_causal = false) := by
  refine ⟨?_, ?_, ?_, ?_⟩
  · intro h
    unfold autolinkStep
    rw [if_pos h]
  · intro h
    unfold autolinkStep
    by_cases ht : e.entity_type ≠ EntityType.METRIC
    · rw [if_pos ht]
    · rw [if_neg ht, h]
  · intro cid hm hc hk
    unfold autolinkStep
    rw [if_neg (by simp [hm]), hc]
    simp only [hk]
    rfl
  · intro cid hm hc hk hs' ht'
    unfold autolinkStep
    rw [if_neg (by simp [hm]), hc]
    simp only [hk]
    have hok := @add_relation_ok_intro st.graph
      (autolinkRel report_id e cid) false hs' ht' (by simp)
    rw [if_neg (by simp : ¬ (false = true))]
    rw [hok]
    exact ⟨rfl, rfl, rfl, rfl, rfl⟩

theorem c8_amended_autolink_witness :
    (autolinkStep "r8" compsW stW8 eW8).graph.relations
      = stW8.graph.relations ++ [autolinkRel "r8" eW8 "c_vcore"] ∧
    (autolinkStep "r8" compsW stW8 eW8).diff.added_relations
      = stW8.diff.added_relations ++
        [mkRelRef "m1" "c_vcore" RelationType.INDICATES.value] ∧
    (autolinkRel "r8" eW8 "c_vcore").confidence = 0.3 ∧
    (autolinkRel "r8" eW8 "c_vcore").relation_type
      = RelationType.INDICATES ∧
    (autolinkRel "r8" eW8 "c_vcore").is_causal = false :=
  (c8_amended_autolink "r8" compsW stW8 eW8).2.2.2 "c_vcore" (by decide)
    (by decide) (by decide) (by decide) (by decide)

theorem fuzzyBest_eq_foldl (cfg : CkgConfig) (norm : String)
    (t : EntityType) (existing : List Entity) :
    fuzzyBest cfg norm t existing
      = existing.foldl (fuzzyStep cfg norm t) (none, 0) := rfl

/-- Complete characterization of the fuzzy fold from an arbitrary
accumulator: either nothing improved on the accumulator, or the result is
the first entity attaining the maximal score. -/
theorem fuzzyFold_spec (cfg : CkgConfig) (norm : String) (t : EntityType) :
    ∀ (l : List Entity) (acc : Option String × Rat),
      (l.foldl (fuzzyStep cfg norm t) acc = acc ∧
        ∀ ex ∈ l, ex.entity_type = t → simScore cfg norm ex ≤ acc.2) ∨
      (∃ l₁ ex l₂, l = l₁ ++ ex :: l₂ ∧ ex.entity_type = t ∧
        (l.foldl (fuzzyStep cfg norm t) acc).1 = some ex.id ∧
        (l.foldl (fuzzyStep cfg norm t) acc).2 = simScore cfg norm ex ∧
        acc.2 < simScore cfg norm ex ∧
        (∀ y ∈ l₁, y.entity_type = t →
          simScore cfg norm y < simScore cfg norm ex) ∧
        (∀ y ∈ l₂, y.entity_type = t →
          simScore cfg norm y ≤ simScore cfg norm ex)) := by
  intro l
  induction l with
  | nil =>
      intro acc
      exact Or.inl ⟨rfl, by intro ex hex; cases hex⟩
  | cons x l ih =>
      intro acc
      by_cases hxt : x.entity_type = t
      · by_cases hgt : simScore cfg norm x > acc.2
        · have hstep : fuzzyStep cfg norm t acc x
              = (some x.id, simScore cfg norm x) := by
            unfold fuzzyStep
            rw [if_neg (by simp [hxt]), if_pos hgt]
          rcases ih (fuzzyStep cfg norm t acc x) with ⟨heq, hall⟩ |
              ⟨l₁, ex, l₂, hl, hext, h1, h2, hgt', hbefore, hafter⟩
          · refine Or.inr ⟨[], x, l, by simp, hxt, ?_, ?_, hgt, ?_, ?_⟩
            · rw [List.foldl_cons, heq, hstep]
            · rw [List.foldl_cons, heq, hstep]
            · intro y hy
              cases hy
            · intro y hy hyt
              have := hall y hy hyt
              rw [hstep] at this
              exact this
          · refine Or.inr ⟨x :: l₁, ex, l₂, by rw [hl, List.cons_append], hext, ?_, ?_, ?_,
              ?_, hafter⟩
            · rw [List.foldl_cons]
              exact h1
            · rw [List.foldl_cons]
              exact h2
            · calc acc.2 < simScore cfg norm x := hgt
                _ = (fuzzyStep cfg norm t acc x).2 := by rw [hstep]
                _ < simScore cfg norm ex := hgt'
            · intro y hy hyt
              rcases List.mem_cons.mp hy with rfl | hy'
              · rw [hstep] at hgt'
                exact hgt'
              · exact hbefore y hy' hyt
        · have hstep : fuzzyStep cfg norm t acc x = acc := by
            unfold fuzzyStep
            rw [if_neg (by simp [hxt]), if_neg hgt]
          rcases ih acc with ⟨heq, hall⟩ |
              ⟨l₁, ex, l₂, hl, hext, h1, h2, hgt', hbefore, hafter⟩
          · refine Or.inl ⟨?_, ?_⟩
            · rw [List.foldl_cons, hstep, heq]
            · intro ex hex hext
              rcases List.mem_cons.mp hex with rfl | hex'
              · exact not_lt.mp hgt
              · exact hall ex hex' hext
          · refine Or.inr ⟨x :: l₁, ex, l₂, by rw [hl, List.cons_append], hext, ?_, ?_, hgt',
              ?_, hafter⟩
            · rw [List.foldl_cons, hstep]
              exact h1
            · rw [List.foldl_cons, hstep]
              exact h2
            · intro y hy hyt
              rcases List.mem_cons.mp hy with rfl | hy'
              · exact lt_of_le_of_lt (not_lt.mp hgt) hgt'
              · exact hbefore y hy' hyt
      · have hstep : fuzzyStep cfg norm t acc x = acc := by
          unfold fuzzyStep
          rw [if_pos (by simp [hxt])]
        rcases ih acc with ⟨heq, hall⟩ |
            ⟨l₁, ex, l₂, hl, hext, h1, h2, hgt', hbefore, hafter⟩
        · refine Or.inl ⟨?_, ?_⟩
          · rw [List.foldl_cons, hstep, heq]
          · intro ex hex hext
            rcases List.mem_cons.mp hex with rfl | hex'
            · exact absurd hext hxt
            · exact hall ex hex' hext
        · refine Or.inr ⟨x :: l₁, ex, l₂, by rw [hl, List.cons_append], hext, ?_, ?_, hgt',
            ?_, hafter⟩
          · rw [List.foldl_cons, hstep]
            exact h1
          · rw [List.foldl_cons, hstep]
            exact h2
          · intro y hy hyt
            rcases List.mem_cons.mp hy with rfl | hy'
            · exact absurd hyt hxt
            · exact hbefore y hy' hyt

/-- Entities of other kinds never influence the fuzzy fold. -/
theorem fuzzyBest_filter_kind (cfg : CkgConfig) (norm : String)
    (t : EntityType) (existing : List Entity) :
    fuzzyBest cfg norm t existing
      = fuzzyBest cfg norm t (existing.filter (fun ex => ex.entity_type == t)) := by
  rw [fuzzyBest_eq_foldl, fuzzyBest_eq_foldl]
  generalize ((none : Option String), (0 : Rat)) = acc
  induction existing generalizing acc with
  | nil => rfl
  | cons x l ih =>
      by_cases hxt : x.entity_type = t
      · rw [List.foldl_cons,
          List.filter_cons_of_pos (by rw [hxt]; exact beq_self_eq_true t),
          List.foldl_cons]
        exact ih _
      · rw [List.foldl_cons,
          List.filter_cons_of_neg (by simp only [beq_eq_false_iff_ne,
            ne_eq, Bool.not_eq_true]; simpa using hxt)]
        have hstep : fuzzyStep cfg norm t acc x = acc := by
          unfold fuzzyStep
          rw [if_pos (by simp [hxt])]
        rw [hstep]
        exact ih acc

/-- `_match_entity` with an exact index hit returns it. -/
theorem matchEntity_exact (cfg : CkgConfig) (e : Entity)
    (index : List ((String × String) × String)) (existing : List Entity)
    (i : String)
    (hkey : dictGet index (e.entity_type.value, normalizeLabel e.label)
      = some i) :
    matchEntity cfg e index existing = some i := by
  unfold matchEntity
  rw [hkey]

/-- `_match_entity` with no exact index hit reduces to the fuzzy stage. -/
theorem matchEntity_no_key (cfg : CkgConfig) (e : Entity)
    (index : List ((String × String) × String)) (existing : List Entity)
    (hkey : dictGet index (e.entity_type.value, normalizeLabel e.label)
      = none) :
    matchEntity cfg e index existing =
      (if cfg.fuzzy_match = false then none
      else
        if (fuzzyBest cfg (normalizeLabel e.label) e.entity_type
            existing).2 ≥ cfg.similarity_threshold then
          (fuzzyBest cfg (normalizeLabel e.label) e.entity_type existing).1
        else none) := by
  unfold matchEntity
  rw [hkey]

/-- C7: with no exact index hit, fuzzy matching is skipped entirely when
disabled; when enabled, only existing entities of the candidate's kind are
compared, the candidate matches iff the best score reaches the threshold,
and the returned match is the first entity attaining the maximal score
(strict improvement only, so ties keep the earliest entity). -/
theorem c7_fuzzy_match (cfg : CkgConfig) (e : Entity)
    (index : List ((String × String) × String)) (existing : List Entity)
    (hkey : dictGet index (e.entity_type.value, normalizeLabel e.label)
      = none) :
    (cfg.fuzzy_match = false → matchEntity cfg e index existing = none) ∧
    (cfg.fuzzy_match = true →
      matchEntity cfg e index existing = matchEntity cfg e index
        (existing.filter (fun ex => ex.entity_type == e.entity_type)) ∧
      (matchEntity cfg e index existing ≠ none ↔
        cfg.similarity_threshold ≤
          (fuzzyBest cfg (normalizeLabel e.label) e.entity_type existing).2 ∧
        (fuzzyBest cfg (normalizeLabel e.label) e.entity_type existing).1
          ≠ none) ∧
      (∀ i, matchEntity cfg e index existing = some i →
        ∃ l₁ ex l₂, existing = l₁ ++ ex :: l₂ ∧ ex.id = i ∧
          ex.entity_type = e.entity_type ∧
          cfg.similarity_threshold ≤
            simScore cfg (normalizeLabel e.label) ex ∧
          (∀ y ∈ l₁, y.entity_type = e.entity_type →
            simScore cfg (normalizeLabel e.label) y <
              simScore cfg (normalizeLabel e.label) ex) ∧
          (∀ y ∈ existing, y.entity_type = e.entity_type →
            simScore cfg (normalizeLabel e.label) y ≤
              simScore cfg (normalizeLabel e.label) ex))) := by
  constructor
  · intro hoff
    rw [matchEntity_no_key cfg e index existing hkey, if_pos hoff]
  · intro hon
    have hshape : matchEntity cfg e index existing =
        (if (fuzzyBest cfg (normalizeLabel e.label) e.entity_type
            existing).2 ≥ cfg.similarity_threshold then
          (fuzzyBest cfg (normalizeLabel e.label) e.entity_type existing).1
        else none) := by
      rw [matchEntity_no_key cfg e index existing hkey,
        if_neg (by simp [hon])]
    refine ⟨?_, ?_, ?_⟩
    · have hshape' : matchEntity cfg e index
          (existing.filter (fun ex => ex.entity_type == e.entity_type)) =
          (if (fuzzyBest cfg (normalizeLabel e.label) e.entity_type
              (existing.filter (fun ex => ex.entity_type == e.entity_type))).2
              ≥ cfg.similarity_threshold then
            (fuzzyBest cfg (normalizeLabel e.label) e.entity_type
              (existing.filter (fun ex => ex.entity_type == e.entity_type))).1
          else none) := by
        rw [matchEntity_no_key cfg e index _ hkey, if_neg (by simp [hon])]
      rw [hshape, hshape',
        ← fuzzyBest_filter_kind cfg (normalizeLabel e.label) e.entity_type
          existing]
    · rw [hshape]
      by_cases hth : (fuzzyBest cfg (normalizeLabel e.label) e.entity_type
          existing).2 ≥ cfg.similarity_threshold
      · rw [if_pos hth]
        constructor
        · intro hne
          exact ⟨hth, hne⟩
        · intro h
          exact h.2
      · rw [if_neg hth]
        constructor
        · intro h
          exact absurd rfl h
        · intro h
          exact absurd h.1 hth
    · intro i hi
      rw [hshape] at hi
      by_cases hth : (fuzzyBest cfg (normalizeLabel e.label) e.entity_type
          existing).2 ≥ cfg.similarity_threshold
      · rw [if_pos hth] at hi
        rcases fuzzyFold_spec cfg (normalizeLabel e.label) e.entity_type
            existing (none, 0) with ⟨heq, _⟩ |
            ⟨l₁, ex, l₂, hl, hext, h1, h2, _, hbefore, hafter⟩
        · rw [fuzzyBest_eq_foldl] at hi
          rw [heq] at hi
          exact Option.noConfusion hi
        · rw [fuzzyBest_eq_foldl] at hi hth
          rw [h1] at hi
          have hexi : ex.id = i := Option.some.inj hi
          rw [h2] at hth
          refine ⟨l₁, ex, l₂, hl, hexi, hext, hth, hbefore, ?_⟩
          intro y hy hyt
          rw [hl] at hy
          rcases List.mem_append.mp hy with hy₁ | hy₂
          · exact (hbefore y hy₁ hyt).le
          · rcases List.mem_cons.mp hy₂ with rfl | hy₃
            · exact le_refl _
            · exact hafter y hy₃ hyt
      · rw [if_neg hth] at hi
        exact Option.noConfusion hi

theorem c7_fuzzy_match_witness :
    ∃ l₁ ex l₂, existW7 = l₁ ++ ex :: l₂ ∧ ex.id = "e1" ∧
      ex.entity_type = candW7.entity_type ∧
      cfgW7.similarity_threshold ≤
        simScore cfgW7 (normalizeLabel candW7.label) ex ∧
      (∀ y ∈ l₁, y.entity_type = candW7.entity_type →
        simScore cfgW7 (normalizeLabel candW7.label) y <
          simScore cfgW7 (normalizeLabel candW7.label) ex) ∧
      (∀ y ∈ existW7, y.entity_type = candW7.entity_type →
        simScore cfgW7 (normalizeLabel candW7.label) y ≤
          simScore cfgW7 (normalizeLabel candW7.label) ex) :=
  ((c7_fuzzy_match cfgW7 candW7 [] existW7 (by decide)).2 (by decide)).2.2
    "e1" (by decide)

/-- A relation whose kind is INDICATES or LEADS_TO is not causal. -/
theorem nonCausal_of_evidential {r : Relation}
    (h : r.relation_type = RelationType.INDICATES ∨
      r.relation_type = RelationType.LEADS_TO) : r.is_causal = false := by
  unfold Relation.is_causal RelationType.isCausalType
  rcases h with h | h <;> rw [h] <;> rfl

/-- `_add_relation` appends at most the fixed 0.3-confidence relation of
the requested kind and endpoints. -/
theorem addRelationFb_relations_good (rid : String) (st : FbRelSt)
    (s : String) (rt : RelationType) (t rule : String) :
    ∃ suf, (addRelationFb rid st s rt t rule).graph.relations
      = st.graph.relations ++ suf ∧
      ∀ r ∈ suf, r.relation_type = rt ∧ r.confidence = 0.3 ∧
        r.source_id = s ∧ r.target_id = t := by
  unfold addRelationFb
  by_cases hk : st.keys.contains (s, rt.value, t) = true
  · rw [if_pos hk]
    exact ⟨[], by simp, by intro r hr; cases hr⟩
  · rw [if_neg hk]
    cases heq : st.graph.add_relation (fbRel rid s rt t rule) false with
    | ok g' =>
        obtain ⟨hg', _⟩ := add_relation_ok_elim heq
        refine ⟨[fbRel rid s rt t rule], ?_, ?_⟩
        · show g'.relations = _
          rw [hg']
        · intro r hr
          rw [List.mem_singleton] at hr
          subst hr
          exact ⟨rfl, rfl, rfl, rfl⟩
    | error e =>
        exact ⟨[], by simp, by intro r hr; cases hr⟩

theorem ensureComponentFb_relations (cfg : CkgConfig) (rid : String)
    (st : FbRelSt) (l : String) :
    (ensureComponentFb cfg rid st l).2.graph.relations
      = st.graph.relations := by
  unfold ensureComponentFb
  split <;> rfl

theorem ensureObservationFb_relations (cfg : CkgConfig) (rid : String)
    (st : FbRelSt) (l : String) :
    (ensureObservationFb cfg rid st l).2.graph.relations
      = st.graph.relations := by
  unfold ensureObservationFb
  split <;> rfl

theorem ensureMetricFb_relations (cfg : CkgConfig) (rid : String)
    (st : FbRelSt) (l : String) :
    (ensureMetricFb cfg rid st l).2.graph.relations
      = st.graph.relations := by
  unfold ensureMetricFb
  split
  split <;> rfl

/-- Shape of rules A and B: ensure an observation, then add one INDICATES
relation. -/
theorem ensureObs_then_add_good (cfg : CkgConfig) (rid : String)
    (st : FbRelSt) (label target rule : String) :
    ∃ suf, (addRelationFb rid (ensureObservationFb cfg rid st label).2
        (ensureObservationFb cfg rid st label).1 RelationType.INDICATES
        target rule).graph.relations = st.graph.relations ++ suf ∧
      ∀ r ∈ suf, (r.relation_type = RelationType.INDICATES ∨
        r.relation_type = RelationType.LEADS_TO) ∧ r.confidence = 0.3 := by
  obtain ⟨suf, h1, h2⟩ := addRelationFb_relations_good rid
    (ensureObservationFb cfg rid st label).2
    (ensureObservationFb cfg rid st label).1 RelationType.INDICATES
    target rule
  refine ⟨suf, ?_, ?_⟩
  · rw [h1, ensureObservationFb_relations]
  · intro r hr
    exact ⟨Or.inl (h2 r hr).1, (h2 r hr).2.1⟩

/-- Shape of rule C with a cached target: ensure a metric, then add one
INDICATES relation. -/
theorem ensureMet_then_add_good (cfg : CkgConfig) (rid : String)
    (st : FbRelSt) (label target rule : String) :
    ∃ suf, (addRelationFb rid (ensureMetricFb cfg rid st label).2
        (ensureMetricFb cfg rid st label).1 RelationType.INDICATES
        target rule).graph.relations = st.graph.relations ++ suf ∧
      ∀ r ∈ suf, (r.relation_type = RelationType.INDICATES ∨
        r.relation_type = RelationType.LEADS_TO) ∧ r.confidence = 0.3 := by
  obtain ⟨suf, h1, h2⟩ := addRelationFb_relations_good rid
    (ensureMetricFb cfg rid st label).2
    (ensureMetricFb cfg rid st label).1 RelationType.INDICATES target rule
  refine ⟨suf, ?_, ?_⟩
  · rw [h1, ensureMetricFb_relations]
  · intro r hr
    exact ⟨Or.inl (h2 r hr).1, (h2 r hr).2.1⟩

/-- Shape of rule C with a freshly created component target. -/
theorem ensureMetComp_then_add_good (cfg : CkgConfig) (rid : String)
    (st : FbRelSt) (label comp rule : String) :
    ∃ suf, (addRelationFb rid
        (ensureComponentFb cfg rid (ensureMetricFb cfg rid st label).2
          comp).2
        (ensureMetricFb cfg rid st label).1 RelationType.INDICATES
        (ensureComponentFb cfg rid (ensureMetricFb cfg rid st label).2
          comp).1 rule).graph.relations = st.graph.relations ++ suf ∧
      ∀ r ∈ suf, (r.relation_type = RelationType.INDICATES ∨
        r.relation_type = RelationType.LEADS_TO) ∧ r.confidence = 0.3 := by
  obtain ⟨suf, h1, h2⟩ := addRelationFb_relations_good rid
    (ensureComponentFb cfg rid (ensureMetricFb cfg rid st label).2 comp).2
    (ensureMetricFb cfg rid st label).1 RelationType.INDICATES
    (ensureComponentFb cfg rid (ensureMetricFb cfg rid st label).2 comp).1
    rule
  refine ⟨suf, ?_, ?_⟩
  · rw [h1, ensureComponentFb_relations, ensureMetricFb_relations]
  · intro r hr
    exact ⟨Or.inl (h2 r hr).1, (h2 r hr).2.1⟩

/-- Linking consecutive chain pairs adds only LEADS_TO relations with
confidence 0.3 between consecutive resolved ids. -/
theorem chainLink_fold_good (rid : String) :
    ∀ (pairs : List (String × String)) (st : FbRelSt),
      ∃ suf, ((pairs.foldl (chainLinkStep rid) st).graph.relations
        = st.graph.relations ++ suf) ∧
        ∀ r ∈ suf, r.relation_type = RelationType.LEADS_TO ∧
          r.confidence = 0.3 ∧ (r.source_id, r.target_id) ∈ pairs := by
  intro pairs
  induction pairs with
  | nil =>
      intro st
      exact ⟨[], by simp, by intro r hr; cases hr⟩
  | cons p t ih =>
      intro st
      obtain ⟨suf₁, h1, h2⟩ := addRelationFb_relations_good rid st p.1
        RelationType.LEADS_TO p.2 "chain_leads_to"
      obtain ⟨suf₂, h3, h4⟩ := ih (chainLinkStep rid st p)
      refine ⟨suf₁ ++ suf₂, ?_, ?_⟩
      · rw [List.foldl_cons, h3]
        show (chainLinkStep rid st p).graph.relations ++ suf₂ = _
        unfold chainLinkStep
        rw [h1, List.append_assoc]
      · intro r hr
        rcases List.mem_append.mp hr with hr₁ | hr₂
        · obtain ⟨ht, hc, hs, htg⟩ := h2 r hr₁
          refine ⟨ht, hc, ?_⟩
          have : (r.source_id, r.target_id) = p := by
            rw [hs, htg]
          rw [this]
          exact List.mem_cons_self p t
        · obtain ⟨ht, hc, hm⟩ := h4 r hr₂
          exact ⟨ht, hc, List.mem_cons_of_mem p hm⟩

/-- The chain token-resolution loop never touches the relation list. -/
theorem chainResolve_relations (cfg : CkgConfig) (rid : String) :
    ∀ (parts : List String) (acc : List String × FbRelSt),
      ((parts.foldl (chainStepFb cfg rid) acc).2).graph.relations
        = acc.2.graph.relations := by
  intro parts
  induction parts with
  | nil => intro acc; rfl
  | cons p t ih =>
      intro acc
      rw [List.foldl_cons]
      rw [ih (chainStepFb cfg rid acc p)]
      unfold chainStepFb
      split
      · rfl
      · show (ensureComponentFb cfg rid acc.2 p).2.graph.relations = _
        rw [ensureComponentFb_relations]

/-- The chain branch (given at least two segments) appends only LEADS_TO
relations with confidence 0.3 between consecutive resolved segment ids. -/
theorem chainBranch_good (cfg : CkgConfig) (rid : String)
    (ls : FbRelLoopSt) (parts : List String) (h : 2 ≤ parts.length) :
    ∃ suf, (chainBranch cfg rid ls parts).st.graph.relations
      = ls.st.graph.relations ++ suf ∧
      ∀ r ∈ suf, r.relation_type = RelationType.LEADS_TO ∧
        r.confidence = 0.3 ∧ (r.source_id, r.target_id) ∈
          ((chainResolve cfg rid ls.st parts).1.zip
            (chainResolve cfg rid ls.st parts).1.tail) := by
  unfold chainBranch
  rw [if_pos h]
  obtain ⟨suf, h1, h2⟩ := chainLink_fold_good rid
    ((chainResolve cfg rid ls.st parts).1.zip
      (chainResolve cfg rid ls.st parts).1.tail)
    (chainResolve cfg rid ls.st parts).2
  refine ⟨suf, ?_, h2⟩
  show (((chainResolve cfg rid ls.st parts).1.zip
      (chainResolve cfg rid ls.st parts).1.tail).foldl (chainLinkStep rid)
      (chainResolve cfg rid ls.st parts).2).graph.relations
    = ls.st.graph.relations ++ suf
  rw [h1]
  unfold chainResolve
  rw [chainResolve_relations]

/-- Every relation any rule of the dispatch appends is INDICATES or
LEADS_TO with confidence 0.3. -/
theorem processMissingLabel_good (cfg : CkgConfig) (rid : String)
    (cm ph : String) (ls : FbRelLoopSt) (m : String) :
    ∃ suf, (processMissingLabel cfg rid cm ph ls m).st.graph.relations
      = ls.st.graph.relations ++ suf ∧
      ∀ r ∈ suf, (r.relation_type = RelationType.INDICATES ∨
        r.relation_type = RelationType.LEADS_TO) ∧ r.confidence = 0.3 := by
  unfold processMissingLabel
  by_cases h1 : pyUpper (pyStrip m) = "SW_REQ2"
  · rw [if_pos h1]
    exact ensureObs_then_add_good cfg rid ls.st "SW_REQ2" cm
      "sw_req2_indicates_cm"
  rw [if_neg h1]
  by_cases h2 : pyUpper (pyStrip m) = "SW_REQ3"
  · rw [if_pos h2]
    exact ensureObs_then_add_good cfg rid ls.st "SW_REQ3" ph
      "sw_req3_indicates_powerhal"
  rw [if_neg h2]
  by_cases h3 : (strContains m "拉檔" ||
      strContains (pyLower m) "frequency throttling") = true
  · rw [if_pos h3]
    exact ensureObs_then_add_good cfg rid ls.st "拉檔" cm
      "throttling_indicates_cm"
  rw [if_neg h3]
  by_cases h4 : (strContains (pyLower m) "ddr5460" ||
      strContains (pyLower m) "ddr6370") = true
  · rw [if_pos h4]
    cases hd : ls.ddr_target with
    | some d =>
        exact ensureMet_then_add_good cfg rid ls.st m d
          "ddr_metric_indicates_ddr"
    | none =>
        exact ensureMetComp_then_add_good cfg rid ls.st m "DDR"
          "ddr_metric_indicates_ddr"
  rw [if_neg h4]
  by_cases h5 : pyLower (pyStrip m) = "cpu frequencies"
  · rw [if_pos h5]
    cases hc : ls.cpu_target with
    | some d =>
        exact ensureMet_then_add_good cfg rid ls.st "CPU frequencies" d
          "cpu_freq_indicates_cpu"
    | none =>
        exact ensureMetComp_then_add_good cfg rid ls.st "CPU frequencies"
          "CPU" "cpu_freq_indicates_cpu"
  rw [if_neg h5]
  by_cases h6 : (strContains m "->" || strContains m "→") = true
  · rw [if_pos h6]
    by_cases h7 : 2 ≤ (((pySplitOn m (if strContains m "→" then "→"
        else "->")).map pyStrip).filter (fun p => p ≠ "")).length
    · obtain ⟨suf, hh1, hh2⟩ := chainBranch_good cfg rid ls _ h7
      exact ⟨suf, hh1, fun r hr =>
        ⟨Or.inr (hh2 r hr).1, (hh2 r hr).2.1⟩⟩
    · unfold chainBranch
      rw [if_neg h7]
      exact ⟨[], by simp, by intro r hr; cases hr⟩
  · rw [if_neg h6]
    exact ⟨[], by simp, by intro r hr; cases hr⟩

/-- The dispatch loop over all missing labels appends only such
relations. -/
theorem loopFold_good (cfg : CkgConfig) (rid : String) (cm ph : String) :
    ∀ (ms : List String) (ls : FbRelLoopSt),
      ∃ suf, ((ms.foldl (processMissingLabel cfg rid cm ph)
          ls).st.graph.relations = ls.st.graph.relations ++ suf) ∧
        ∀ r ∈ suf, (r.relation_type = RelationType.INDICATES ∨
          r.relation_type = RelationType.LEADS_TO) ∧ r.confidence = 0.3 := by
  intro ms
  induction ms with
  | nil =>
      intro ls
      exact ⟨[], by simp, by intro r hr; cases hr⟩
  | cons mm t ih =>
      intro ls
      obtain ⟨suf₁, h1, h2⟩ := processMissingLabel_good cfg rid cm ph ls mm
      obtain ⟨suf₂, h3, h4⟩ := ih (processMissingLabel cfg rid cm ph ls mm)
      refine ⟨suf₁ ++ suf₂, ?_, ?_⟩
      · rw [List.foldl_cons, h3, h1, List.append_assoc]
      · intro r hr
        rcases List.mem_append.mp hr with hr₁ | hr₂
        · exact h2 r hr₁
        · exact h4 r hr₂

/-- One feedback-entity step uses `add_entity` only, which never touches
the relation list. -/
theorem ensureMissingEntityStep_relations (cfg : CkgConfig) (rid : String)
    (st : FbEntSt) (label : String) :
    (ensureMissingEntityStep cfg rid st label).graph.relations
      = st.graph.relations := by
  unfold ensureMissingEntityStep
  split
  · rfl
  · split
    · rfl
    · rfl

/-- The feedback-entity fold never touches the relation list. -/
theorem fbEntFold_relations (cfg : CkgConfig) (rid : String) :
    ∀ (ms : List String) (st : FbEntSt),
      (ms.foldl (ensureMissingEntityStep cfg rid) st).graph.relations
        = st.graph.relations := by
  intro ms
  induction ms with
  | nil => intro st; rfl
  | cons mm t ih =>
      intro st
      rw [List.foldl_cons, ih, ensureMissingEntityStep_relations]

/-- The feedback entity phase never touches the relation list. -/
theorem ensureMissingEntities_relations (cfg : CkgConfig) (rid : String)
    (missing : List String) (g : CausalGraph) (diff : AugmentDiff) :
    (ensureMissingEntities cfg rid missing g diff).1.relations
      = g.relations := by
  unfold ensureMissingEntities
  split
  · rfl
  · exact fbEntFold_relations cfg rid missing _

/-- The relation-target resolution before the dispatch loop never touches
the relation list. -/
theorem cmResolve_relations (cfg : CkgConfig) (rid : String)
    (st0 : FbRelSt) :
    (match findBestIdContains st0 "CM" (some EntityType.ROOT_CAUSE) with
      | some i => (i, st0)
      | none =>
          match findBestIdContains st0 "CM" none with
          | some i => (i, st0)
          | none => ensureComponentFb cfg rid st0 "CM").2.graph.relations
      = st0.graph.relations := by
  split
  · rfl
  · split
    · rfl
    · rw [ensureComponentFb_relations]

/-- C4: every relation added by the feedback-driven augmentation phase is
INDICATES or LEADS_TO (never CAUSES, PREVENTS or ENABLES), non-causal,
with the fixed confidence 0.3; the feedback entity phase adds no relations
at all; and an arrow-delimited chain label adds only LEADS_TO relations
linking consecutive resolved segment ids. -/
theorem c4_feedback_relations_non_causal (cfg : CkgConfig) (rid : String)
    (missing : List String) (g : CausalGraph) (diff : AugmentDiff) :
    ((ensureMissingEntities cfg rid missing g diff).1.relations
      = g.relations) ∧
    (∃ suf, (ensureMissingRelations cfg rid missing g diff).graph.relations
      = g.relations ++ suf ∧
      ∀ r ∈ suf, (r.relation_type = RelationType.INDICATES ∨
        r.relation_type = RelationType.LEADS_TO) ∧ r.confidence = 0.3 ∧
        r.is_causal = false) ∧
    (∀ (cm ph : String) (ls : FbRelLoopSt) (m : String),
      pyUpper (pyStrip m) ≠ "SW_REQ2" →
      pyUpper (pyStrip m) ≠ "SW_REQ3" →
      (strContains m "拉檔" || strContains (pyLower m)
        "frequency throttling") = false →
      (strContains (pyLower m) "ddr5460" || strContains (pyLower m)
        "ddr6370") = false →
      pyLower (pyStrip m) ≠ "cpu frequencies" →
      (strContains m "->" || strContains m "→") = true →
      2 ≤ (((pySplitOn m (if strContains m "→" then "→" else "->")).map
        pyStrip).filter (fun p => p ≠ "")).length →
      ∃ suf, (processMissingLabel cfg rid cm ph ls m).st.graph.relations
        = ls.st.graph.relations ++ suf ∧
        ∀ r ∈ suf, r.relation_type = RelationType.LEADS_TO ∧
          r.confidence = 0.3 ∧
          (r.source_id, r.target_id) ∈
            ((chainResolve cfg rid ls.st (((pySplitOn m (if strContains m
              "→" then "→" else "->")).map pyStrip).filter
              (fun p => p ≠ ""))).1.zip
            (chainResolve cfg rid ls.st (((pySplitOn m (if strContains m
              "→" then "→" else "->")).map pyStrip).filter
              (fun p => p ≠ ""))).1.tail)) := by
  refine ⟨ensureMissingEntities_relations cfg rid missing g diff, ?_, ?_⟩
  · unfold ensureMissingRelations
    split
    · exact ⟨[], by simp, by intro r hr; cases hr⟩
    · obtain ⟨suf, h1, h2⟩ := loopFold_good cfg rid _ _ missing _
      refine ⟨suf, ?_, ?_⟩
      · rw [h1]
        congr 1
        show (match findBestIdContains _ "PowerHal" _ with
          | some i => (i, _)
          | none => ensureComponentFb cfg rid _ "PowerHal").2.graph.relations
          = g.relations
        split
        · exact cmResolve_relations cfg rid _
        · rw [ensureComponentFb_relations]
          exact cmResolve_relations cfg rid _
      · intro r hr
        obtain ⟨ht, hc⟩ := h2 r hr
        exact ⟨ht, hc, nonCausal_of_evidential ht⟩
  · intro cm ph ls m h1 h2 h3 h4 h5 h6 h7
    unfold processMissingLabel
    rw [if_neg h1, if_neg h2, if_neg (by simp [h3]), if_neg (by simp [h4]),
      if_neg h5, if_pos h6]
    exact chainBranch_good cfg rid ls _ h7

/-- Witness for C4: the chain clause applied to the concrete missing label
"A -> B" on an empty graph, every guard discharged by evaluation. -/
theorem c4_feedback_relations_non_causal_witness :
    ∃ suf,
      (processMissingLabel cfgW4 "r1" "cm" "ph" lsW4
        "A -> B").st.graph.relations
        = lsW4.st.graph.relations ++ suf ∧
      ∀ r ∈ suf, r.relation_type = RelationType.LEADS_TO ∧
        r.confidence = 0.3 ∧
        (r.source_id, r.target_id) ∈
          ((chainResolve cfgW4 "r1" lsW4.st (((pySplitOn "A -> B"
            (if strContains "A -> B" "→" then "→" else "->")).map
            pyStrip).filter (fun p => p ≠ ""))).1.zip
          (chainResolve cfgW4 "r1" lsW4.st (((pySplitOn "A -> B"
            (if strContains "A -> B" "→" then "→" else "->")).map
            pyStrip).filter (fun p => p ≠ ""))).1.tail) :=
  (c4_feedback_relations_non_causal cfgW4 "r1" [] (CausalGraph.empty true)
    AugmentDiff.empty).2.2 "cm" "ph" lsW4 "A -> B" (by decide) (by decide)
    (by decide) (by decide) (by decide) (by decide) (by decide)

/-- The keys `relationPhase` rebuilds from the stored relations are
sound. -/
theorem keysSound_init (g : CausalGraph) (diff : AugmentDiff) :
    KeysSound
      { graph := g
        keys := relationKeys g.get_relations
        diff := diff } := by
  intro k hk
  unfold relationKeys CausalGraph.get_relations at hk
  simp only [List.mem_map] at hk
  obtain ⟨r, hr, hkr⟩ := hk
  unfold anyRelationMatches
  rw [List.any_eq_true]
  refine ⟨r, hr, ?_⟩
  subst hkr
  simp

/-- An in-place update that keeps source, target and kind keeps every
key-match verdict. -/
theorem anyRelationMatches_updateFirst (s v t a b c : String)
    (f : Relation → Relation)
    (hf : ∀ r, (f r).source_id = r.source_id ∧
      (f r).target_id = r.target_id ∧
      (f r).relation_type = r.relation_type) :
    ∀ rs : List Relation,
      anyRelationMatches (updateFirstRelation rs s v t f) a b c
        = anyRelationMatches rs a b c := by
  intro rs
  induction rs with
  | nil => rfl
  | cons r tl ih =>
      unfold updateFirstRelation
      split
      · unfold anyRelationMatches
        simp only [List.any_cons]
        rw [(hf r).1, (hf r).2.1, (hf r).2.2]
      · unfold anyRelationMatches at ih ⊢
        simp only [List.any_cons]
        rw [ih]

/-- `_merge_relation` on a matched key: the edge index and strict flag are
untouched, exactly one updated record is appended, and every key-match
verdict on the relation list is preserved. -/
theorem mergeRelation_matched (g : CausalGraph) (s v t : String)
    (nr : Relation) (rid : String) (ur : List RelRef)
    (hm : anyRelationMatches g.relations s v t = true) :
    (mergeRelation g (s, v, t) nr rid ur).1.edges = g.edges ∧
    (mergeRelation g (s, v, t) nr rid ur).1.strict_dag = g.strict_dag ∧
    (mergeRelation g (s, v, t) nr rid ur).2 = ur ++ [mkRelRef s t v] ∧
    ∀ a b c, anyRelationMatches
        (mergeRelation g (s, v, t) nr rid ur).1.relations a b c
      = anyRelationMatches g.relations a b c := by
  unfold mergeRelation
  rw [if_pos hm]
  refine ⟨rfl, rfl, rfl, ?_⟩
  intro a b c
  exact anyRelationMatches_updateFirst s v t a b c
    (mergeRelationUpdate nr rid) (fun r => ⟨rfl, rfl, rfl⟩) g.relations

/-- Appending a relation preserves every positive key-match verdict. -/
theorem anyRelationMatches_append (rs : List Relation) (x : Relation)
    (a b c : String) (h : anyRelationMatches rs a b c = true) :
    anyRelationMatches (rs ++ [x]) a b c = true := by
  unfold anyRelationMatches at h ⊢
  rw [List.any_append, h]
  rfl

/-- One relation-loop iteration records exactly one outcome, keeps the key
set sound and the strict flag, and preserves causal-subgraph
acyclicity. -/
theorem processRelation_step (rid : String) (idm : List (String × String))
    (st : RelPhaseSt) (r : Relation) (hks : KeysSound st) :
    KeysSound (processRelation rid idm st r) ∧
    diffCount (processRelation rid idm st r).diff = diffCount st.diff + 1 ∧
    (processRelation rid idm st r).graph.strict_dag
      = st.graph.strict_dag ∧
    (st.graph.strict_dag = true → ¬ HasCycleP (causalPairs st.graph) →
      ¬ HasCycleP (causalPairs (processRelation rid idm st r).graph)) := by
  cases hseq : dictGet idm r.source_id with
  | none =>
      refine ⟨?_, ?_, ?_, ?_⟩ <;>
        simp only [processRelation, hseq, diffCount, List.length_append,
          List.length_singleton] <;>
        first
          | (exact hks)
          | omega
          | rfl
          | (intro _ h2; exact h2)
  | some s =>
      cases hteq : dictGet idm r.target_id with
      | none =>
          refine ⟨?_, ?_, ?_, ?_⟩ <;>
            simp only [processRelation, hseq, hteq, diffCount,
              List.length_append, List.length_singleton] <;>
            first
              | (exact hks)
              | omega
              | rfl
              | (intro _ h2; exact h2)
      | some t =>
          by_cases hk :
              st.keys.contains (s, r.relation_type.value, t) = true
          · have hmem : (s, r.relation_type.value, t) ∈ st.keys := by
              simpa using hk
            have hm := hks _ hmem
            obtain ⟨he, hst, hur, hany⟩ := mergeRelation_matched st.graph
              s r.relation_type.value t r rid st.diff.updated_relations hm
            refine ⟨?_, ?_, ?_, ?_⟩
            · intro k hkm
              simp only [processRelation, hseq, hteq, if_pos hk]
              simp only [processRelation, hseq, hteq, if_pos hk] at hkm
              rw [hany]
              exact hks k hkm
            · simp only [processRelation, hseq, hteq, if_pos hk, diffCount,
                hur, List.length_append, List.length_singleton]
              omega
            · simp only [processRelation, hseq, hteq, if_pos hk]
              exact hst
            · intro _ h2
              simp only [processRelation, hseq, hteq, if_pos hk]
              unfold causalPairs
              rw [he]
              exact h2
          · cases haeq : st.graph.add_relation (nrOf rid r s t) true with
            | ok g' =>
                obtain ⟨hg', _⟩ := add_relation_ok_elim haeq
                refine ⟨?_, ?_, ?_, ?_⟩
                · intro k hkm
                  simp only [processRelation, hseq, hteq, if_neg hk, haeq]
                  simp only [processRelation, hseq, hteq, if_neg hk,
                    haeq] at hkm
                  rw [hg']
                  rcases List.mem_append.mp hkm with hold | hnew
                  · exact anyRelationMatches_append _ _ _ _ _
                      (hks k hold)
                  · rw [List.mem_singleton] at hnew
                    subst hnew
                    unfold anyRelationMatches
                    rw [List.any_append, Bool.or_eq_true]
                    refine Or.inr ?_
                    simp [nrOf]
                · simp only [processRelation, hseq, hteq, if_neg hk, haeq,
                    diffCount, List.length_append, List.length_singleton]
                  omega
                · simp only [processRelation, hseq, hteq, if_neg hk, haeq]
                  rw [hg']
                · intro h1 h2
                  simp only [processRelation, hseq, hteq, if_neg hk, haeq]
                  exact add_relation_preserves_causal_dag h1 h2 haeq
            | error e =>
                refine ⟨?_, ?_, ?_, ?_⟩ <;>
                  simp only [processRelation, hseq, hteq, if_neg hk, haeq,
                    diffCount, List.length_append,
                    List.length_singleton] <;>
                  first
                    | (exact hks)
                    | omega
                    | rfl
                    | (intro _ h2; exact h2)

/-- The relation-loop fold: key soundness, exact outcome accounting, the
strict flag and causal-subgraph acyclicity all carry through. -/
theorem relFold_inv (rid : String) (idm : List (String × String)) :
    ∀ (rs : List Relation) (st : RelPhaseSt), KeysSound st →
      KeysSound (rs.foldl (processRelation rid idm) st) ∧
      diffCount (rs.foldl (processRelation rid idm) st).diff
        = diffCount st.diff + rs.length ∧
      (rs.foldl (processRelation rid idm) st).graph.strict_dag
        = st.graph.strict_dag ∧
      (st.graph.strict_dag = true → ¬ HasCycleP (causalPairs st.graph) →
        ¬ HasCycleP (causalPairs
          (rs.foldl (processRelation rid idm) st).graph)) := by
  intro rs
  induction rs with
  | nil =>
      intro st h
      exact ⟨h, by simp, rfl, fun _ h2 => h2⟩
  | cons r tl ih =>
      intro st h
      obtain ⟨h1, h2, h3, h4⟩ := processRelation_step rid idm st r h
      obtain ⟨i1, i2, i3, i4⟩ := ih (processRelation rid idm st r) h1
      refine ⟨?_, ?_, ?_, ?_⟩
      · rw [List.foldl_cons]
        exact i1
      · rw [List.foldl_cons, i2, h2, List.length_cons]
        omega
      · rw [List.foldl_cons, i3, h3]
      · intro hs hc
        rw [List.foldl_cons]
        exact i4 (h3.trans hs) (h4 hs hc)

/-- C6: the relation batch of `augment` is folded one candidate at a time;
starting from a strict graph with an acyclic causal subgraph, the loop
always returns a graph plus diff with the causal subgraph still acyclic,
every candidate accounted for by exactly one diff record (added, updated,
skipped or conflict), a conflicting candidate leaving the graph untouched
and appending exactly one conflict message, and a resolvable, fresh,
insertable candidate added to the graph with its diff record. -/
theorem c6_conflict_isolation (rid : String) (idm : List (String × String))
    (g : CausalGraph) (rs : List Relation) (diff : AugmentDiff)
    (hstrict : g.strict_dag = true)
    (hnc : ¬ HasCycleP (causalPairs g)) :
    (¬ HasCycleP (causalPairs (relationPhase rid idm g rs diff).graph)) ∧
    ((relationPhase rid idm g rs diff).graph.strict_dag = true) ∧
    (diffCount (relationPhase rid idm g rs diff).diff
      = diffCount diff + rs.length) ∧
    (∀ (st : RelPhaseSt) (r : Relation),
      (processRelation rid idm st r).diff.conflicts ≠ st.diff.conflicts →
      (processRelation rid idm st r).graph = st.graph ∧
      ∃ msg, (processRelation rid idm st r).diff.conflicts
        = st.diff.conflicts ++ [msg]) ∧
    (∀ (st : RelPhaseSt) (r : Relation) (s t : String) (g' : CausalGraph),
      dictGet idm r.source_id = some s →
      dictGet idm r.target_id = some t →
      st.keys.contains (s, r.relation_type.value, t) = false →
      st.graph.add_relation (nrOf rid r s t) true = Except.ok g' →
      (processRelation rid idm st r).graph = g' ∧
      (processRelation rid idm st r).diff.added_relations
        = st.diff.added_relations
          ++ [mkRelRef s t r.relation_type.value]) := by
  unfold relationPhase
  obtain ⟨-, h2, h3, h4⟩ := relFold_inv rid idm rs
    { graph := g
      keys := relationKeys g.get_relations
      diff := diff } (keysSound_init g diff)
  refine ⟨h4 hstrict hnc, h3.trans hstrict, h2, ?_, ?_⟩
  · intro st r hne
    cases hseq : dictGet idm r.source_id with
    | none =>
        exfalso
        apply hne
        simp only [processRelation, hseq]
    | some s =>
        cases hteq : dictGet idm r.target_id with
        | none =>
            exfalso
            apply hne
            simp only [processRelation, hseq, hteq]
        | some t =>
            by_cases hk :
                st.keys.contains (s, r.relation_type.value, t) = true
            · exfalso
              apply hne
              simp only [processRelation, hseq, hteq, if_pos hk]
            · cases haeq : st.graph.add_relation (nrOf rid r s t) true with
              | ok g' =>
                  exfalso
                  apply hne
                  simp only [processRelation, hseq, hteq, if_neg hk, haeq]
              | error e =>
                  refine ⟨?_, addErrMsg e, ?_⟩ <;>
                    simp only [processRelation, hseq, hteq, if_neg hk, haeq]
  · intro st r s t g' hs ht hk hok
    refine ⟨?_, ?_⟩ <;>
      simp only [processRelation, hs, ht, hok, if_neg
        (show ¬ st.keys.contains (s, r.relation_type.value, t) = true by
          rw [hk]
          decide)]

/-- Witness for C6: on the concrete batch the two valid relations are
added, exactly one conflict is recorded, each of the three candidates got
exactly one diff record, and the causal subgraph stays acyclic. -/
theorem c6_conflict_isolation_witness :
    (relationPhase "r" idmW6 gW6 rsW6
      AugmentDiff.empty).diff.added_relations.length = 2 ∧
    (relationPhase "r" idmW6 gW6 rsW6
      AugmentDiff.empty).diff.conflicts.length = 1 ∧
    diffCount (relationPhase "r" idmW6 gW6 rsW6 AugmentDiff.empty).diff
      = diffCount AugmentDiff.empty + rsW6.length ∧
    ¬ HasCycleP (causalPairs
      (relationPhase "r" idmW6 gW6 rsW6 AugmentDiff.empty).graph) :=
  ⟨by decide, by decide,
    (c6_conflict_isolation "r" idmW6 gW6 rsW6 AugmentDiff.empty (by decide)
      (fun hc => absurd (hasCycleB_iff.mpr hc) (by decide))).2.2.1,
    (c6_conflict_isolation "r" idmW6 gW6 rsW6 AugmentDiff.empty (by decide)
      (fun hc => absurd (hasCycleB_iff.mpr hc) (by decide))).1⟩

/-- A found value belongs to the association list at its key. -/
theorem dictGet_some_mem {κ α : Type} [BEq κ] [LawfulBEq κ]
    {m : List (κ × α)} {k : κ} {v : α} (h : dictGet m k = some v) :
    (k, v) ∈ m := by
  unfold dictGet at h
  cases hf : m.find? (fun p => p.1 == k) with
  | none => rw [hf] at h; exact Option.noConfusion h
  | some p =>
      rw [hf] at h
      have hmem := List.mem_of_find?_eq_some hf
      have hb := List.find?_some hf
      have hpk : p.1 = k := eq_of_beq hb
      have hv : p.2 = v := Option.some.inj h
      have hpe : p = (k, v) := by
        cases p
        simp_all
      rw [← hpe]
      exact hmem

/-- A present key stays findable. -/
theorem dictGet_isSome_contains {κ α : Type} [BEq κ] [LawfulBEq κ]
    {m : List (κ × α)} {k : κ} (h : (dictGet m k).isSome = true) :
    (m.any fun p => p.1 == k) = true := by
  unfold dictGet at h
  cases hf : m.find? (fun p => p.1 == k) with
  | none => rw [hf] at h; exact Bool.noConfusion h
  | some p =>
      rw [List.any_eq_true]
      have hb := List.find?_some hf
      exact ⟨p, List.mem_of_find?_eq_some hf, hb⟩

/-- Lookups at a different key see through the in-place replacement. -/
theorem find_replace_ne {κ α : Type} [BEq κ] [LawfulBEq κ]
    (k k' : κ) (v : α) (hne : k' ≠ k) :
    ∀ m : List (κ × α),
      (m.map fun p => if p.1 == k then (k, v) else p).find?
          (fun p => p.1 == k')
        = m.find? (fun p => p.1 == k') := by
  intro m
  induction m with
  | nil => rfl
  | cons p t ih =>
      by_cases hp : (p.1 == k) = true
      · have hpk : p.1 = k := eq_of_beq hp
        simp only [List.map_cons, if_pos hp]
        rw [List.find?_cons_of_neg _
            (by simp; intro he; exact hne he.symm),
          List.find?_cons_of_neg _
            (by simp [hpk]; intro he; exact hne he.symm)]
        exact ih
      · simp only [List.map_cons, if_neg hp]
        by_cases hp' : (p.1 == k') = true
        · rw [List.find?_cons_of_pos _ (by exact hp'),
            List.find?_cons_of_pos _ (by exact hp')]
        · rw [List.find?_cons_of_neg _ (by simpa using hp'),
            List.find?_cons_of_neg _ (by simpa using hp')]
          exact ih

/-- Lookups at a different key see through an upsert. -/
theorem dictGet_upsert_ne {κ α : Type} [BEq κ] [LawfulBEq κ]
    (m : List (κ × α)) (k k' : κ) (v : α) (hne : k' ≠ k) :
    dictGet (dictUpsert m k v) k' = dictGet m k' := by
  unfold dictUpsert
  split
  · unfold dictGet
    rw [find_replace_ne k k' v hne m]
  · unfold dictGet
    rw [List.find?_append]
    cases hf : m.find? (fun p => p.1 == k') with
    | some p => rfl
    | none =>
        simp only [Option.none_or]
        rw [List.find?_cons_of_neg _
            (by simp; intro he; exact hne he.symm),
          List.find?_nil]

/-- An upsert never deletes a key. -/
theorem dictGet_isSome_upsert {κ α : Type} [BEq κ] [LawfulBEq κ]
    (m : List (κ × α)) (k k' : κ) (v : α)
    (h : (dictGet m k').isSome = true) :
    (dictGet (dictUpsert m k v) k').isSome = true := by
  by_cases hk : k' = k
  · subst hk
    rw [dictGet_dictUpsert]
    rfl
  · rw [dictGet_upsert_ne m k k' v hk]
    exact h

/-- Every entry of an upsert comes from the original list or carries the
upserted key. -/
theorem mem_dictUpsert {κ α : Type} [BEq κ] [LawfulBEq κ]
    {m : List (κ × α)} {k : κ} {v : α} {p : κ × α}
    (h : p ∈ dictUpsert m k v) : p ∈ m ∨ p.1 = k := by
  unfold dictUpsert at h
  split at h
  · obtain ⟨q, hq, hqe⟩ := List.mem_map.mp h
    by_cases hqk : (q.1 == k) = true
    · rw [if_pos hqk] at hqe
      right
      rw [← hqe]
    · rw [if_neg hqk] at hqe
      left
      rw [← hqe]
      exact hq
  · rcases List.mem_append.mp h with hm | hs
    · exact Or.inl hm
    · right
      rw [List.mem_singleton] at hs
      rw [hs]

/-- An entry at a different key survives an upsert. -/
theorem mem_dictUpsert_of_ne {κ α : Type} [BEq κ] [LawfulBEq κ]
    {m : List (κ × α)} {k : κ} {v : α} {q : κ × α}
    (hq : q ∈ m) (hne : q.1 ≠ k) : q ∈ dictUpsert m k v := by
  unfold dictUpsert
  split
  · rw [List.mem_map]
    exact ⟨q, hq, by rw [if_neg (by simpa using hne)]⟩
  · exact List.mem_append.mpr (Or.inl hq)

/-- The upserted entry is present. -/
theorem kv_mem_dictUpsert {κ α : Type} [BEq κ] [LawfulBEq κ]
    (m : List (κ × α)) (k : κ) (v : α) : (k, v) ∈ dictUpsert m k v :=
  dictGet_some_mem (dictGet_dictUpsert m k v)

/-- Replacing at a present key keeps the key column. -/
theorem dictUpsert_fst_contains {κ α : Type} [BEq κ] [LawfulBEq κ]
    (m : List (κ × α)) (k : κ) (v : α)
    (h : (m.any fun p => p.1 == k) = true) :
    (dictUpsert m k v).map Prod.fst = m.map Prod.fst := by
  unfold dictUpsert
  rw [if_pos h, List.map_map]
  apply List.map_congr_left
  intro p hp
  by_cases hpk : (p.1 == k) = true
  · simp only [Function.comp_apply, if_pos hpk]
    exact (eq_of_beq hpk).symm
  · simp only [Function.comp_apply, if_neg hpk]

/-- Upserting a fresh key appends it. -/
theorem dictUpsert_fresh {κ α : Type} [BEq κ] [LawfulBEq κ]
    (m : List (κ × α)) (k : κ) (v : α)
    (h : (m.any fun p => p.1 == k) = false) :
    dictUpsert m k v = m ++ [(k, v)] := by
  unfold dictUpsert
  rw [if_neg (by simp [h])]

/-- The length of an upsert: unchanged on a present key, one longer on a
fresh one. -/
theorem dictUpsert_length {κ α : Type} [BEq κ] [LawfulBEq κ]
    (m : List (κ × α)) (k : κ) (v : α) :
    (dictUpsert m k v).length
      = if (m.any fun p => p.1 == k) = true then m.length
        else m.length + 1 := by
  unfold dictUpsert
  split
  next h => rw [List.length_map]
  next h =>
    rw [List.length_append, List.length_singleton]

/-- The enum's string values are pairwise distinct. -/
theorem entityTypeValue_inj {a b : EntityType} (h : a.value = b.value) :
    a = b := by
  cases a <;> cases b <;> first | rfl | exact absurd h (by decide)

/-- A fold of key upserts keeps a key findable exactly when the
accumulator had it or some folded element carries it. -/
theorem foldUpsert_isSome {κ α β : Type} [BEq κ] [LawfulBEq κ]
    (kf : β → κ) (vf : β → α) :
    ∀ (l : List β) (acc : List (κ × α)) (k : κ),
      (dictGet (l.foldl (fun m e => dictUpsert m (kf e) (vf e)) acc)
        k).isSome = true
      ↔ (dictGet acc k).isSome = true ∨ ∃ e ∈ l, kf e = k := by
  intro l
  induction l with
  | nil =>
      intro acc k
      simp
  | cons x t ih =>
      intro acc k
      rw [List.foldl_cons, ih]
      constructor
      · rintro (hacc | he)
        · by_cases hk : k = kf x
          · exact Or.inr ⟨x, List.mem_cons_self x t, hk.symm⟩
          · rw [dictGet_upsert_ne acc (kf x) k (vf x) hk] at hacc
            exact Or.inl hacc
        · obtain ⟨e, hem, hek⟩ := he
          exact Or.inr ⟨e, List.mem_cons_of_mem x hem, hek⟩
      · rintro (hacc | ⟨e, hem, hek⟩)
        · exact Or.inl (dictGet_isSome_upsert acc (kf x) k (vf x) hacc)
        · rcases List.mem_cons.mp hem with rfl | het
          · left
            rw [← hek, dictGet_dictUpsert]
            rfl
          · exact Or.inr ⟨e, het, hek⟩

/-- Every entry of an upsert fold comes from the accumulator or one of the
folded elements. -/
theorem foldUpsert_mem {κ α β : Type} [BEq κ] [LawfulBEq κ]
    (kf : β → κ) (vf : β → α) :
    ∀ (l : List β) (acc : List (κ × α)) (p : κ × α),
      p ∈ l.foldl (fun m e => dictUpsert m (kf e) (vf e)) acc →
      p ∈ acc ∨ ∃ e ∈ l, kf e = p.1 := by
  intro l
  induction l with
  | nil =>
      intro acc p h
      exact Or.inl h
  | cons x t ih =>
      intro acc p h
      rw [List.foldl_cons] at h
      rcases ih _ p h with hup | ⟨e, hem, hek⟩
      · rcases mem_dictUpsert hup with hm | hk
        · exact Or.inl hm
        · exact Or.inr ⟨x, List.mem_cons_self x t, hk.symm⟩
      · exact Or.inr ⟨e, List.mem_cons_of_mem x hem, hek⟩

/-- The fuzzy fold's best score bounds the score of every same-kind
entity. -/
theorem fuzzyFold_ge_member (cfg : CkgConfig) (norm : String)
    (t : EntityType) (l : List Entity) (acc : Option String × Rat)
    (ex : Entity) (hmem : ex ∈ l) (hex : ex.entity_type = t) :
    simScore cfg norm ex ≤ (l.foldl (fuzzyStep cfg norm t) acc).2 := by
  rcases fuzzyFold_spec cfg norm t l acc with ⟨heq, hall⟩ |
      ⟨l₁, w, l₂, hl, hwt, h1, h2, hgt, hbefore, hafter⟩
  · rw [heq]
    exact hall ex hmem hex
  · rw [h2]
    subst hl
    rcases List.mem_append.mp hmem with h₁ | h₂
    · exact le_of_lt (hbefore ex h₁ hex)
    · rcases List.mem_cons.mp h₂ with rfl | h₃
      · exact le_refl _
      · exact hafter ex h₃ hex

/-- A successful match came from the exact index or from a same-kind fuzzy
witness whose score reaches the threshold. -/
theorem matchEntity_some_cases (cfg : CkgConfig) (e : Entity)
    (index : List ((String × String) × String)) (existing : List Entity)
    (i : String) (hm : matchEntity cfg e index existing = some i) :
    (dictGet index (entKey e)).isSome = true ∨
    (cfg.fuzzy_match = true ∧ ∃ ex ∈ existing,
      ex.entity_type = e.entity_type ∧
      cfg.similarity_threshold ≤
        simScore cfg (normalizeLabel e.label) ex) := by
  unfold matchEntity at hm
  cases hkey : dictGet index (e.entity_type.value, normalizeLabel e.label)
    with
  | some j =>
      left
      show (dictGet index
        (e.entity_type.value, normalizeLabel e.label)).isSome = true
      rw [hkey]
      rfl
  | none =>
      rw [hkey] at hm
      right
      by_cases hf : cfg.fuzzy_match = false
      · rw [if_pos hf] at hm
        exact Option.noConfusion hm
      · rw [if_neg hf] at hm
        refine ⟨by simpa using hf, ?_⟩
        by_cases hth : (fuzzyBest cfg (normalizeLabel e.label)
            e.entity_type existing).2 ≥ cfg.similarity_threshold
        · rw [if_pos hth] at hm
          rcases fuzzyFold_spec cfg (normalizeLabel e.label) e.entity_type
              existing ((none : Option String), (0 : Rat)) with
            ⟨heq, hall⟩ | ⟨l₁, w, l₂, hl, hwt, h1, h2, hgt, hbf, haf⟩
          · rw [fuzzyBest_eq_foldl, heq] at hm
            exact Option.noConfusion hm
          · refine ⟨w, by
              rw [hl]
              exact List.mem_append.mpr
                (Or.inr (List.mem_cons_self w l₂)), hwt, ?_⟩
            have hbw : (fuzzyBest cfg (normalizeLabel e.label)
                e.entity_type existing).2
                = simScore cfg (normalizeLabel e.label) w := by
              rw [fuzzyBest_eq_foldl]
              exact h2
            rw [hbw] at hth
            exact hth
        · rw [if_neg hth] at hm
          exact Option.noConfusion hm

/-- A present exact key, or fuzzy matching with a positive threshold and a
same-kind witness at or above it, makes `_match_entity` match. -/
theorem matchEntity_isSome (cfg : CkgConfig) (e : Entity)
    (index : List ((String × String) × String)) (existing : List Entity)
    (hθ : 0 < cfg.similarity_threshold)
    (h : (dictGet index (entKey e)).isSome = true ∨
      (cfg.fuzzy_match = true ∧ ∃ ex ∈ existing,
        ex.entity_type = e.entity_type ∧
        cfg.similarity_threshold ≤
          simScore cfg (normalizeLabel e.label) ex)) :
    (matchEntity cfg e index existing).isSome = true := by
  rcases h with hkey | ⟨hf, ex, hmem, hext, hscore⟩
  · cases hk : dictGet index (e.entity_type.value, normalizeLabel e.label)
      with
    | none =>
        unfold entKey at hkey
        rw [hk] at hkey
        exact Bool.noConfusion hkey
    | some i =>
        rw [matchEntity_exact cfg e index existing i hk]
        rfl
  · cases hk : dictGet index (e.entity_type.value, normalizeLabel e.label)
      with
    | some i =>
        rw [matchEntity_exact cfg e index existing i hk]
        rfl
    | none =>
        rw [matchEntity_no_key cfg e index existing hk]
        rw [if_neg (by rw [hf]; decide)]
        have hb : cfg.similarity_threshold ≤ (fuzzyBest cfg
            (normalizeLabel e.label) e.entity_type existing).2 := by
          calc cfg.similarity_threshold
              ≤ simScore cfg (normalizeLabel e.label) ex := hscore
            _ ≤ _ := by
                rw [fuzzyBest_eq_foldl]
                exact fuzzyFold_ge_member cfg _ _ existing _ ex hmem hext
        rw [if_pos hb]
        rcases fuzzyFold_spec cfg (normalizeLabel e.label) e.entity_type
            existing ((none : Option String), (0 : Rat)) with
          ⟨heq, hall⟩ | ⟨l₁, w, l₂, hl, hwt, h1, h2, hgt, hbf, haf⟩
        · exfalso
          have hz : (fuzzyBest cfg (normalizeLabel e.label) e.entity_type
              existing).2 = 0 := by
            rw [fuzzyBest_eq_foldl, heq]
          rw [hz] at hb
          exact absurd (lt_of_lt_of_le hθ hb) (lt_irrefl 0)
        · rw [fuzzyBest_eq_foldl, h1]
          rfl

/-- In a list with pairwise-distinct keys, membership determines the
lookup. -/
theorem dictGet_of_mem_nodup {κ α : Type} [BEq κ] [LawfulBEq κ]
    {m : List (κ × α)} (hnodup : (m.map Prod.fst).Nodup)
    {k : κ} {v : α} (hm : (k, v) ∈ m) : dictGet m k = some v := by
  induction m with
  | nil => cases hm
  | cons p t ih =>
      rw [List.map_cons, List.nodup_cons] at hnodup
      rcases List.mem_cons.mp hm with rfl | hmt
      · unfold dictGet
        rw [List.find?_cons_of_pos _ (by simp)]
        rfl
      · have hpk : p.1 ≠ k := by
          intro he
          apply hnodup.1
          rw [he]
          exact List.mem_map.mpr ⟨(k, v), hmt, rfl⟩
        unfold dictGet
        rw [List.find?_cons_of_neg _ (by simpa using hpk)]
        exact ih hnodup.2 hmt

/-- A merge never changes the key column of the entity dict. -/
theorem mergeEntity_fst (g : CausalGraph) (i : String) (ne : Entity)
    (rid : String) (ur : List String) :
    (mergeEntity g i ne rid ur).1.entities.map Prod.fst
      = g.entities.map Prod.fst := by
  unfold mergeEntity
  cases hg : g.get_entity i with
  | none => rfl
  | some ex =>
      show ((g.putEntity i _).entities.map Prod.fst) = _
      unfold CausalGraph.putEntity
      apply dictUpsert_fst_contains
      apply dictGet_isSome_contains
      show (dictGet g.entities i).isSome = true
      unfold CausalGraph.get_entity at hg
      rw [hg]
      rfl

/-- A merge never changes the number of entities. -/
theorem mergeEntity_entities_length (g : CausalGraph) (i : String)
    (ne : Entity) (rid : String) (ur : List String) :
    (mergeEntity g i ne rid ur).1.entities.length
      = g.entities.length := by
  have h := mergeEntity_fst g i ne rid ur
  have h1 := congrArg List.length h
  rwa [List.length_map, List.length_map] at h1

/-- Writing back an entity with the same key keeps every entity key
present (pointwise), given pairwise-distinct ids. -/
theorem putEntity_carries (g : CausalGraph) (i : String) (ex ex' : Entity)
    (hget : g.get_entity i = some ex) (hkey : entKey ex' = entKey ex)
    (hnodup : (g.entities.map Prod.fst).Nodup) :
    ∀ ent ∈ g.get_entities,
      ∃ ent' ∈ (g.putEntity i ex').get_entities,
        entKey ent' = entKey ent := by
  intro ent hent
  unfold CausalGraph.get_entities at hent ⊢
  unfold CausalGraph.putEntity
  obtain ⟨q, hq, hq2⟩ := List.mem_map.mp hent
  by_cases hqi : q.1 = i
  · have hqpair : (q.1, q.2) ∈ g.entities := hq
    have hget2 : dictGet g.entities q.1 = some q.2 :=
      dictGet_of_mem_nodup hnodup hqpair
    rw [hqi] at hget2
    have hex : q.2 = ex := by
      unfold CausalGraph.get_entity at hget
      exact Option.some.inj (hget2.symm.trans hget)
    refine ⟨ex', ?_, ?_⟩
    · exact List.mem_map.mpr ⟨(i, ex'), kv_mem_dictUpsert _ i ex', rfl⟩
    · rw [hkey, ← hq2, hex]
  · exact ⟨ent, List.mem_map.mpr ⟨q, mem_dictUpsert_of_ne hq hqi, hq2⟩,
      rfl⟩

/-- A merge keeps every entity key present (pointwise), given
pairwise-distinct ids. -/
theorem mergeEntity_carries (g : CausalGraph) (i : String) (ne : Entity)
    (rid : String) (ur : List String)
    (hnodup : (g.entities.map Prod.fst).Nodup) :
    ∀ ent ∈ g.get_entities,
      ∃ ent' ∈ (mergeEntity g i ne rid ur).1.get_entities,
        entKey ent' = entKey ent := by
  unfold mergeEntity
  cases hg : g.get_entity i with
  | none => exact fun ent hent => ⟨ent, hent, rfl⟩
  | some ex => exact putEntity_carries g i ex _ hg rfl hnodup

/-- A fresh id stays outside the key column. -/
theorem not_mem_fst_of_not_contains {κ α : Type} [BEq κ] [LawfulBEq κ]
    {m : List (κ × α)} {k : κ}
    (h : (m.any fun p => p.1 == k) = false) : k ∉ m.map Prod.fst := by
  intro hmem
  obtain ⟨q, hq, hqk⟩ := List.mem_map.mp hmem
  have : (m.any fun p => p.1 == k) = true :=
    List.any_eq_true.mpr ⟨q, hq, by rw [hqk]; simp⟩
  rw [h] at this
  exact Bool.noConfusion this

/-- One entity-loop step, under the no-overwrite accounting: ids stay
pairwise distinct, index keys persist, entity keys are carried, index
backing is preserved, and the processed candidate ends matched. -/
theorem processEntity_step (cfg : CkgConfig) (rid : String)
    (existing : List Entity) (st : EntPhaseSt) (e0 : Entity)
    (hnodup : (st.graph.entities.map Prod.fst).Nodup)
    (hlen : (processEntity cfg rid existing st e0).graph.entities.length
        + st.diff.added_entities.length
      = st.graph.entities.length + (processEntity cfg rid existing st
          e0).diff.added_entities.length) :
    (((processEntity cfg rid existing st e0).graph.entities.map
      Prod.fst).Nodup) ∧
    (∀ k, (dictGet st.index k).isSome = true →
      (dictGet (processEntity cfg rid existing st e0).index k).isSome
        = true) ∧
    (∀ ent ∈ st.graph.get_entities,
      ∃ ent' ∈ (processEntity cfg rid existing st e0).graph.get_entities,
        entKey ent' = entKey ent) ∧
    (IdxBacked st → IdxBacked (processEntity cfg rid existing st e0)) ∧
    Matched cfg existing (processEntity cfg rid existing st e0) e0 := by
  cases hm : matchEntity cfg (canonEntity e0) st.index existing with
  | some j =>
      have hg' : (processEntity cfg rid existing st e0).graph
          = (mergeEntity st.graph j (canonEntity e0) rid
            st.diff.updated_entities).1 := by
        simp only [processEntity, hm]
      have hidx : (processEntity cfg rid existing st e0).index
          = st.index := by
        simp only [processEntity, hm]
      have hcar : ∀ ent ∈ st.graph.get_entities,
          ∃ ent' ∈ (processEntity cfg rid existing st
            e0).graph.get_entities, entKey ent' = entKey ent := by
        rw [hg']
        exact mergeEntity_carries st.graph j (canonEntity e0) rid
          st.diff.updated_entities hnodup
      refine ⟨?_, ?_, hcar, ?_, ?_⟩
      · rw [hg', mergeEntity_fst]
        exact hnodup
      · intro k hk
        rw [hidx]
        exact hk
      · intro hb p hp
        rw [hidx] at hp
        obtain ⟨ent, hent, hkey⟩ := hb p hp
        obtain ⟨ent', hent', hkey'⟩ := hcar ent hent
        exact ⟨ent', hent', hkey'.trans hkey⟩
      · rcases matchEntity_some_cases cfg (canonEntity e0) st.index
            existing j hm with hkey | hfz
        · left
          rw [hidx]
          exact hkey
        · exact Or.inr hfz
  | none =>
      have hg' : (processEntity cfg rid existing st e0).graph.entities
          = dictUpsert st.graph.entities
            (newEntityOf cfg rid (canonEntity e0)).id
            (newEntityOf cfg rid (canonEntity e0)) := by
        simp only [processEntity, hm]
        rfl
      have hidx : (processEntity cfg rid existing st e0).index
          = dictUpsert st.index (entKey (canonEntity e0))
            (newEntityOf cfg rid (canonEntity e0)).id := by
        simp only [processEntity, hm]
        rfl
      have hadd : (processEntity cfg rid existing st
          e0).diff.added_entities.length
          = st.diff.added_entities.length + 1 := by
        simp only [processEntity, hm]
        rw [List.length_append, List.length_singleton]
      have hcont : (st.graph.entities.any fun p =>
          p.1 == (newEntityOf cfg rid (canonEntity e0)).id) = false := by
        by_cases hc : (st.graph.entities.any fun p =>
            p.1 == (newEntityOf cfg rid (canonEntity e0)).id) = true
        · exfalso
          rw [hg', hadd, dictUpsert_length, if_pos hc] at hlen
          omega
        · exact Bool.eq_false_iff.mpr hc
      have happ : (processEntity cfg rid existing st e0).graph.entities
          = st.graph.entities
            ++ [((newEntityOf cfg rid (canonEntity e0)).id,
              newEntityOf cfg rid (canonEntity e0))] := by
        rw [hg', dictUpsert_fresh _ _ _ hcont]
      refine ⟨?_, ?_, ?_, ?_, ?_⟩
      · rw [happ, List.map_append]
        rw [List.nodup_append]
        refine ⟨hnodup, List.nodup_singleton _, ?_⟩
        intro a ha hb
        simp only [List.map_cons, List.map_nil, List.mem_singleton] at hb
        subst hb
        exact not_mem_fst_of_not_contains hcont ha
      · intro k hk
        rw [hidx]
        exact dictGet_isSome_upsert st.index _ k _ hk
      · intro ent hent
        refine ⟨ent, ?_, rfl⟩
        unfold CausalGraph.get_entities at hent ⊢
        rw [happ, List.map_append]
        exact List.mem_append.mpr (Or.inl hent)
      · intro hb p hp
        rw [hidx] at hp
        rcases mem_dictUpsert hp with hold | hnew
        · obtain ⟨ent, hent, hkey⟩ := hb p hold
          refine ⟨ent, ?_, hkey⟩
          unfold CausalGraph.get_entities at hent ⊢
          rw [happ, List.map_append]
          exact List.mem_append.mpr (Or.inl hent)
        · refine ⟨newEntityOf cfg rid (canonEntity e0), ?_, ?_⟩
          · unfold CausalGraph.get_entities
            rw [happ, List.map_append]
            refine List.mem_append.mpr (Or.inr ?_)
            simp
          · rw [hnew]
            rfl
      · left
        rw [hidx, dictGet_dictUpsert]
        rfl

/-- One entity-loop step grows the entity dict by at most the number of
recorded additions. -/
theorem processEntity_len_le (cfg : CkgConfig) (rid : String)
    (existing : List Entity) (st : EntPhaseSt) (e0 : Entity) :
    (processEntity cfg rid existing st e0).graph.entities.length
      + st.diff.added_entities.length
    ≤ st.graph.entities.length
      + (processEntity cfg rid existing st
          e0).diff.added_entities.length := by
  cases hm : matchEntity cfg (canonEntity e0) st.index existing with
  | some j =>
      have hg : (processEntity cfg rid existing st
          e0).graph.entities.length = st.graph.entities.length := by
        simp only [processEntity, hm]
        exact mergeEntity_entities_length st.graph j (canonEntity e0) rid
          st.diff.updated_entities
      have hd : (processEntity cfg rid existing st e0).diff.added_entities
          = st.diff.added_entities := by
        simp only [processEntity, hm]
      rw [hg, hd]
  | none =>
      have hg : (processEntity cfg rid existing st e0).graph.entities
          = dictUpsert st.graph.entities
            (newEntityOf cfg rid (canonEntity e0)).id
            (newEntityOf cfg rid (canonEntity e0)) := by
        simp only [processEntity, hm]
        rfl
      have hadd : (processEntity cfg rid existing st
          e0).diff.added_entities.length
          = st.diff.added_entities.length + 1 := by
        simp only [processEntity, hm]
        rw [List.length_append, List.length_singleton]
      rw [hg, hadd, dictUpsert_length]
      split
      · omega
      · omega

/-- The entity loop grows the entity dict by at most the number of
recorded additions. -/
theorem entityFold_len_le (cfg : CkgConfig) (rid : String)
    (existing : List Entity) :
    ∀ (es : List Entity) (st : EntPhaseSt),
      (es.foldl (processEntity cfg rid existing) st).graph.entities.length
        + st.diff.added_entities.length
      ≤ st.graph.entities.length
        + (es.foldl (processEntity cfg rid existing)
            st).diff.added_entities.length := by
  intro es
  induction es with
  | nil =>
      intro st
      exact le_refl _
  | cons x t ih =>
      intro st
      have h1 := processEntity_len_le cfg rid existing st x
      have h2 := ih (processEntity cfg rid existing st x)
      rw [List.foldl_cons]
      omega

/-- The entity loop under the exact no-overwrite accounting: ids stay
pairwise distinct, index keys persist, entity keys are carried, index
backing is preserved, and every processed candidate ends matched. -/
theorem entityFold_inv (cfg : CkgConfig) (rid : String)
    (existing : List Entity) :
    ∀ (es : List Entity) (st : EntPhaseSt),
      (st.graph.entities.map Prod.fst).Nodup →
      ((es.foldl (processEntity cfg rid existing)
          st).graph.entities.length + st.diff.added_entities.length
        = st.graph.entities.length
          + (es.foldl (processEntity cfg rid existing)
              st).diff.added_entities.length) →
      (((es.foldl (processEntity cfg rid existing)
        st).graph.entities.map Prod.fst).Nodup) ∧
      (∀ k, (dictGet st.index k).isSome = true →
        (dictGet (es.foldl (processEntity cfg rid existing) st).index
          k).isSome = true) ∧
      (∀ ent ∈ st.graph.get_entities,
        ∃ ent' ∈ (es.foldl (processEntity cfg rid existing)
            st).graph.get_entities, entKey ent' = entKey ent) ∧
      (IdxBacked st → IdxBacked (es.foldl (processEntity cfg rid existing)
        st)) ∧
      (∀ e0 ∈ es, Matched cfg existing
        (es.foldl (processEntity cfg rid existing) st) e0) := by
  intro es
  induction es with
  | nil =>
      intro st hnodup _
      exact ⟨hnodup, fun k hk => hk, fun ent hent => ⟨ent, hent, rfl⟩,
        fun hb => hb, fun e0 he => absurd he (List.not_mem_nil e0)⟩
  | cons x t ih =>
      intro st hnodup heq
      have hstep_le := processEntity_len_le cfg rid existing st x
      have htail_le := entityFold_len_le cfg rid existing t
        (processEntity cfg rid existing st x)
      rw [List.foldl_cons] at heq
      obtain ⟨s1, s2, s3, s4, s5⟩ := processEntity_step cfg rid existing
        st x hnodup (by omega)
      obtain ⟨f1, f2, f3, f4, f5⟩ := ih (processEntity cfg rid existing
        st x) s1 (by omega)
      rw [List.foldl_cons]
      refine ⟨f1, ?_, ?_, ?_, ?_⟩
      · intro k hk
        exact f2 k (s2 k hk)
      · intro ent hent
        obtain ⟨e1, he1, hk1⟩ := s3 ent hent
        obtain ⟨e2, he2, hk2⟩ := f3 e1 he1
        exact ⟨e2, he2, hk2.trans hk1⟩
      · intro hb
        exact f4 (s4 hb)
      · intro e0 he
        rcases List.mem_cons.mp he with rfl | het
        · rcases s5 with hkey | hfz
          · exact Or.inl (f2 _ hkey)
          · exact Or.inr hfz
        · exact f5 e0 het

/-- When every candidate is matched against the current state, the entity
loop records no addition. -/
theorem entityFold_no_adds (cfg : CkgConfig) (rid : String)
    (existing2 : List Entity) (hθ : 0 < cfg.similarity_threshold) :
    ∀ (es : List Entity) (st : EntPhaseSt),
      (∀ e0 ∈ es, Matched cfg existing2 st e0) →
      (es.foldl (processEntity cfg rid existing2) st).diff.added_entities
        = st.diff.added_entities := by
  intro es
  induction es with
  | nil =>
      intro st _
      rfl
  | cons x t ih =>
      intro st hall
      have hsome : (matchEntity cfg (canonEntity x) st.index
          existing2).isSome = true :=
        matchEntity_isSome cfg (canonEntity x) st.index existing2 hθ
          (hall x (List.mem_cons_self x t))
      cases hm : matchEntity cfg (canonEntity x) st.index existing2 with
      | none =>
          rw [hm] at hsome
          exact Bool.noConfusion hsome
      | some j =>
          have hidx : (processEntity cfg rid existing2 st x).index
              = st.index := by
            simp only [processEntity, hm]
          have hd : (processEntity cfg rid existing2 st
              x).diff.added_entities = st.diff.added_entities := by
            simp only [processEntity, hm]
          rw [List.foldl_cons,
            ih (processEntity cfg rid existing2 st x) ?_, hd]
          intro e0 he
          rcases hall e0 (List.mem_cons_of_mem x he) with hkey | hfz
          · exact Or.inl (by rw [hidx]; exact hkey)
          · exact Or.inr hfz

set_option maxHeartbeats 2000000 in
/-- A second entity phase over the same candidates records no addition:
every candidate resolves to a merge. -/
theorem entityPhase_second_run (cfg : CkgConfig) (rid : String)
    (g : CausalGraph) (es : List Entity)
    (hθ : 0 < cfg.similarity_threshold)
    (hnodup : (g.entities.map Prod.fst).Nodup)
    (hlen : (entityPhase cfg g es rid
        AugmentDiff.empty).graph.entities.length
      = g.entities.length + (entityPhase cfg g es rid
          AugmentDiff.empty).diff.added_entities.length) :
    (entityPhase cfg (entityPhase cfg g es rid AugmentDiff.empty).graph
      es rid AugmentDiff.empty).diff.added_entities = [] := by
  have hfold1 : entityPhase cfg g es rid AugmentDiff.empty
      = es.foldl (processEntity cfg rid g.get_entities)
        { graph := g
          index := buildEntityIndex g.get_entities
          id_map := []
          diff := AugmentDiff.empty } := rfl
  have hz : ({ graph := g
               index := buildEntityIndex g.get_entities
               id_map := []
               diff := AugmentDiff.empty
               : EntPhaseSt }).diff.added_entities.length = 0 := rfl
  have hg0 : ({ graph := g
                index := buildEntityIndex g.get_entities
                id_map := []
                diff := AugmentDiff.empty
                : EntPhaseSt }).graph.entities.length
      = g.entities.length := rfl
  rw [hfold1] at hlen
  obtain ⟨f1, f2, f3, f4, f5⟩ := entityFold_inv cfg rid g.get_entities es
    { graph := g
      index := buildEntityIndex g.get_entities
      id_map := []
      diff := AugmentDiff.empty } hnodup (by omega)
  have hbacked : IdxBacked
      { graph := g
        index := buildEntityIndex g.get_entities
        id_map := []
        diff := AugmentDiff.empty } := by
    intro p hp
    have hp' : p ∈ (g.get_entities).foldl (fun m e => dictUpsert m
        ((fun ent : Entity =>
          (ent.entity_type.value, normalizeLabel ent.label)) e)
        ((fun ent : Entity => ent.id) e)) [] := hp
    rcases foldUpsert_mem
        (fun ent : Entity =>
          (ent.entity_type.value, normalizeLabel ent.label))
        (fun ent : Entity => ent.id) g.get_entities [] p hp' with
      hnil | ⟨e, hem, hek⟩
    · cases hnil
    · exact ⟨e, hem, hek⟩
  have hm2 : ∀ e0 ∈ es, Matched cfg
      (es.foldl (processEntity cfg rid g.get_entities)
        { graph := g
          index := buildEntityIndex g.get_entities
          id_map := []
          diff := AugmentDiff.empty }).graph.get_entities
      { graph := (es.foldl (processEntity cfg rid g.get_entities)
          { graph := g
            index := buildEntityIndex g.get_entities
            id_map := []
            diff := AugmentDiff.empty }).graph
        index := buildEntityIndex
          (es.foldl (processEntity cfg rid g.get_entities)
            { graph := g
              index := buildEntityIndex g.get_entities
              id_map := []
              diff := AugmentDiff.empty }).graph.get_entities
        id_map := []
        diff := AugmentDiff.empty } e0 := by
    intro e0 he
    rcases f5 e0 he with hkey | ⟨hf, ex, hmem, hext, hscore⟩
    · left
      cases hv : dictGet (es.foldl (processEntity cfg rid g.get_entities)
          { graph := g
            index := buildEntityIndex g.get_entities
            id_map := []
            diff := AugmentDiff.empty }).index
          (entKey (canonEntity e0)) with
      | none =>
          rw [hv] at hkey
          exact Bool.noConfusion hkey
      | some v =>
          obtain ⟨ent, hent, hentkey⟩ := f4 hbacked _ (dictGet_some_mem hv)
          exact (foldUpsert_isSome
            (fun q : Entity =>
              (q.entity_type.value, normalizeLabel q.label))
            (fun q : Entity => q.id)
            (es.foldl (processEntity cfg rid g.get_entities)
              { graph := g
                index := buildEntityIndex g.get_entities
                id_map := []
                diff := AugmentDiff.empty }).graph.get_entities []
            (entKey (canonEntity e0))).mpr
            (Or.inr ⟨ent, hent, hentkey⟩)
    · obtain ⟨ex₂, hmem₂, hk₂⟩ := f3 ex hmem
      have ht2 : ex₂.entity_type = ex.entity_type :=
        entityTypeValue_inj (congrArg Prod.fst hk₂)
      have hl2 : normalizeLabel ex₂.label = normalizeLabel ex.label :=
        congrArg Prod.snd hk₂
      right
      refine ⟨hf, ex₂, hmem₂, ht2.trans hext, ?_⟩
      show cfg.similarity_threshold ≤ cfg.sim
        (normalizeLabel (canonEntity e0).label) (normalizeLabel ex₂.label)
      rw [hl2]
      exact hscore
  have hfinal := entityFold_no_adds cfg rid
    (es.foldl (processEntity cfg rid g.get_entities)
      { graph := g
        index := buildEntityIndex g.get_entities
        id_map := []
        diff := AugmentDiff.empty }).graph.get_entities hθ es
    { graph := (es.foldl (processEntity cfg rid g.get_entities)
        { graph := g
          index := buildEntityIndex g.get_entities
          id_map := []
          diff := AugmentDiff.empty }).graph
      index := buildEntityIndex
        (es.foldl (processEntity cfg rid g.get_entities)
          { graph := g
            index := buildEntityIndex g.get_entities
            id_map := []
            diff := AugmentDiff.empty }).graph.get_entities
      id_map := []
      diff := AugmentDiff.empty } hm2
  exact hfinal

/-- One feedback-entity step grows the entity dict by at most the number
of recorded feedback additions. -/
theorem fbEntStep_len_le (cfg : CkgConfig) (rid : String) (st : FbEntSt)
    (m : String) :
    (ensureMissingEntityStep cfg rid st m).graph.entities.length
      + st.diff.feedback_added_entities.length
    ≤ st.graph.entities.length
      + (ensureMissingEntityStep cfg rid st
          m).diff.feedback_added_entities.length := by
  unfold ensureMissingEntityStep
  by_cases hn : normalizeLabel m = ""
  · rw [if_pos hn]
  · rw [if_neg hn]
    cases hd : dictGet st.by_norm (normalizeLabel m) with
    | some eid => exact le_refl _
    | none =>
        show (dictUpsert st.graph.entities _ _).length + _ ≤ _
        rw [dictUpsert_length, List.length_append, List.length_singleton]
        split
        · omega
        · omega

/-- One feedback-entity step, under the no-overwrite accounting: stored
entities persist, the normalized-label map stays backed, and the processed
label ends either empty or covered by a stored entity. -/
theorem fbEntStep_inv (cfg : CkgConfig) (rid : String) (st : FbEntSt)
    (m : String)
    (hlen : (ensureMissingEntityStep cfg rid st m).graph.entities.length
        + st.diff.feedback_added_entities.length
      = st.graph.entities.length + (ensureMissingEntityStep cfg rid st
          m).diff.feedback_added_entities.length) :
    (∀ ent ∈ st.graph.get_entities,
      ent ∈ (ensureMissingEntityStep cfg rid st m).graph.get_entities) ∧
    (∀ k, (dictGet st.by_norm k).isSome = true →
      (dictGet (ensureMissingEntityStep cfg rid st m).by_norm k).isSome
        = true) ∧
    (ByNormBacked st →
      ByNormBacked (ensureMissingEntityStep cfg rid st m)) ∧
    (ByNormBacked st → normalizeLabel m = "" ∨
      ∃ ent ∈ (ensureMissingEntityStep cfg rid st m).graph.get_entities,
        normalizeLabel ent.label = normalizeLabel m) := by
  by_cases hn : normalizeLabel m = ""
  · have hst : ensureMissingEntityStep cfg rid st m = st := by
      unfold ensureMissingEntityStep
      rw [if_pos hn]
    rw [hst]
    exact ⟨fun ent h => h, fun k h => h, fun hb => hb, fun _ => Or.inl hn⟩
  · cases hd : dictGet st.by_norm (normalizeLabel m) with
    | some eid =>
        have hg : (ensureMissingEntityStep cfg rid st m).graph
            = st.graph := by
          unfold ensureMissingEntityStep
          rw [if_neg hn, hd]
        have hbn : (ensureMissingEntityStep cfg rid st m).by_norm
            = st.by_norm := by
          unfold ensureMissingEntityStep
          rw [if_neg hn, hd]
        refine ⟨?_, ?_, ?_, ?_⟩
        · intro ent h
          rw [hg]
          exact h
        · intro k h
          rw [hbn]
          exact h
        · intro hb p hp
          rw [hbn] at hp
          obtain ⟨ent, hent, hkey⟩ := hb p hp
          exact ⟨ent, by rw [hg]; exact hent, hkey⟩
        · intro hb
          right
          obtain ⟨ent, hent, hkey⟩ := hb _ (dictGet_some_mem hd)
          exact ⟨ent, by rw [hg]; exact hent, hkey⟩
    | none =>
        have hg : (ensureMissingEntityStep cfg rid st m).graph.entities
            = dictUpsert st.graph.entities
              (fbEntityOf cfg rid st.graph m).id
              (fbEntityOf cfg rid st.graph m) := by
          unfold ensureMissingEntityStep
          rw [if_neg hn, hd]
          rfl
        have hbn : (ensureMissingEntityStep cfg rid st m).by_norm
            = dictUpsert st.by_norm (normalizeLabel m)
              (fbEntityOf cfg rid st.graph m).id := by
          unfold ensureMissingEntityStep
          rw [if_neg hn, hd]
        have hadd : (ensureMissingEntityStep cfg rid st
            m).diff.feedback_added_entities.length
            = st.diff.feedback_added_entities.length + 1 := by
          unfold ensureMissingEntityStep
          rw [if_neg hn, hd]
          show (st.diff.feedback_added_entities
            ++ [(fbEntityOf cfg rid st.graph m).id]).length = _
          rw [List.length_append, List.length_singleton]
        have hcont : (st.graph.entities.any fun p =>
            p.1 == (fbEntityOf cfg rid st.graph m).id) = false := by
          by_cases hc : (st.graph.entities.any fun p =>
              p.1 == (fbEntityOf cfg rid st.graph m).id) = true
          · exfalso
            rw [hg, hadd, dictUpsert_length, if_pos hc] at hlen
            omega
          · exact Bool.eq_false_iff.mpr hc
        have happ : (ensureMissingEntityStep cfg rid st m).graph.entities
            = st.graph.entities
              ++ [((fbEntityOf cfg rid st.graph m).id,
                fbEntityOf cfg rid st.graph m)] := by
          rw [hg, dictUpsert_fresh _ _ _ hcont]
        have hmem : fbEntityOf cfg rid st.graph m
            ∈ (ensureMissingEntityStep cfg rid st m).graph.get_entities := by
          unfold CausalGraph.get_entities
          rw [happ, List.map_append]
          refine List.mem_append.mpr (Or.inr ?_)
          simp
        refine ⟨?_, ?_, ?_, ?_⟩
        · intro ent h
          unfold CausalGraph.get_entities at h ⊢
          rw [happ, List.map_append]
          exact List.mem_append.mpr (Or.inl h)
        · intro k h
          rw [hbn]
          exact dictGet_isSome_upsert st.by_norm _ k _ h
        · intro hb p hp
          rw [hbn] at hp
          rcases mem_dictUpsert hp with hold | hnew
          · obtain ⟨ent, hent, hkey⟩ := hb p hold
            refine ⟨ent, ?_, hkey⟩
            unfold CausalGraph.get_entities at hent ⊢
            rw [happ, List.map_append]
            exact List.mem_append.mpr (Or.inl hent)
          · refine ⟨fbEntityOf cfg rid st.graph m, hmem, ?_⟩
            rw [hnew]
            rfl
        · intro _
          right
          exact ⟨fbEntityOf cfg rid st.graph m, hmem, rfl⟩

/-- The feedback-entity loop grows the entity dict by at most the number
of recorded feedback additions. -/
theorem fbEntFold_len_le (cfg : CkgConfig) (rid : String) :
    ∀ (ms : List String) (st : FbEntSt),
      (ms.foldl (ensureMissingEntityStep cfg rid)
          st).graph.entities.length
        + st.diff.feedback_added_entities.length
      ≤ st.graph.entities.length
        + (ms.foldl (ensureMissingEntityStep cfg rid)
            st).diff.feedback_added_entities.length := by
  intro ms
  induction ms with
  | nil =>
      intro st
      exact le_refl _
  | cons x t ih =>
      intro st
      have h1 := fbEntStep_len_le cfg rid st x
      have h2 := ih (ensureMissingEntityStep cfg rid st x)
      rw [List.foldl_cons]
      omega

/-- The feedback-entity loop under the exact no-overwrite accounting:
stored entities persist, the normalized-label map stays backed, and every
processed label ends either empty or covered by a stored entity. -/
theorem fbEntFold_inv (cfg : CkgConfig) (rid : String) :
    ∀ (ms : List String) (st : FbEntSt),
      ((ms.foldl (ensureMissingEntityStep cfg rid)
          st).graph.entities.length
          + st.diff.feedback_added_entities.length
        = st.graph.entities.length
          + (ms.foldl (ensureMissingEntityStep cfg rid)
              st).diff.feedback_added_entities.length) →
      (∀ ent ∈ st.graph.get_entities,
        ent ∈ (ms.foldl (ensureMissingEntityStep cfg rid)
          st).graph.get_entities) ∧
      (ByNormBacked st →
        ByNormBacked (ms.foldl (ensureMissingEntityStep cfg rid) st)) ∧
      (ByNormBacked st → ∀ m ∈ ms, normalizeLabel m = "" ∨
        ∃ ent ∈ (ms.foldl (ensureMissingEntityStep cfg rid)
            st).graph.get_entities,
          normalizeLabel ent.label = normalizeLabel m) := by
  intro ms
  induction ms with
  | nil =>
      intro st _
      exact ⟨fun ent h => h, fun hb => hb,
        fun _ m hm => absurd hm (List.not_mem_nil m)⟩
  | cons x t ih =>
      intro st heq
      have hstep_le := fbEntStep_len_le cfg rid st x
      have htail_le := fbEntFold_len_le cfg rid t
        (ensureMissingEntityStep cfg rid st x)
      rw [List.foldl_cons] at heq
      obtain ⟨s1, s2, s3, s4⟩ := fbEntStep_inv cfg rid st x (by omega)
      obtain ⟨f1, f2, f3⟩ := ih (ensureMissingEntityStep cfg rid st x)
        (by omega)
      rw [List.foldl_cons]
      refine ⟨?_, ?_, ?_⟩
      · intro ent h
        exact f1 ent (s1 ent h)
      · intro hb
        exact f2 (s3 hb)
      · intro hb m hm
        rcases List.mem_cons.mp hm with rfl | hmt
        · rcases s4 hb with hempty | ⟨ent, hent, hkey⟩
          · exact Or.inl hempty
          · exact Or.inr ⟨ent, f1 ent hent, hkey⟩
        · exact f3 (s3 hb) m hmt

/-- When every label is empty or already present in the normalized-label
map, the feedback-entity loop records no addition. -/
theorem fbEntFold_no_adds (cfg : CkgConfig) (rid : String) :
    ∀ (ms : List String) (st : FbEntSt),
      (∀ m ∈ ms, normalizeLabel m = "" ∨
        (dictGet st.by_norm (normalizeLabel m)).isSome = true) →
      (ms.foldl (ensureMissingEntityStep cfg rid)
        st).diff.feedback_added_entities
        = st.diff.feedback_added_entities := by
  intro ms
  induction ms with
  | nil =>
      intro st _
      rfl
  | cons x t ih =>
      intro st hall
      have hstep : (ensureMissingEntityStep cfg rid st
          x).diff.feedback_added_entities
          = st.diff.feedback_added_entities ∧
          ∀ k, (dictGet st.by_norm k).isSome = true →
            (dictGet (ensureMissingEntityStep cfg rid st x).by_norm
              k).isSome = true := by
        by_cases hempty : normalizeLabel x = ""
        · have hst : ensureMissingEntityStep cfg rid st x = st := by
            unfold ensureMissingEntityStep
            rw [if_pos hempty]
          rw [hst]
          exact ⟨rfl, fun k h => h⟩
        · rcases hall x (List.mem_cons_self x t) with he | hsome
          · exact absurd he hempty
          · cases hd : dictGet st.by_norm (normalizeLabel x) with
            | none =>
                rw [hd] at hsome
                exact Bool.noConfusion hsome
            | some eid =>
                have hbn : (ensureMissingEntityStep cfg rid st x).by_norm
                    = st.by_norm := by
                  unfold ensureMissingEntityStep
                  rw [if_neg hempty, hd]
                refine ⟨?_, ?_⟩
                · unfold ensureMissingEntityStep
                  rw [if_neg hempty, hd]
                · intro k h
                  rw [hbn]
                  exact h
      rw [List.foldl_cons, ih (ensureMissingEntityStep cfg rid st x) ?_,
        hstep.1]
      intro m hm
      rcases hall m (List.mem_cons_of_mem x hm) with hempty | hsome
      · exact Or.inl hempty
      · exact Or.inr (hstep.2 _ hsome)

/-- `_ensure_missing_entities` on an empty label list is the identity. -/
theorem ensureMissingEntities_isEmpty (cfg : CkgConfig) (rid : String)
    (ms : List String) (g : CausalGraph) (d : AugmentDiff)
    (h : ms.isEmpty = true) :
    ensureMissingEntities cfg rid ms g d = (g, d) := by
  unfold ensureMissingEntities
  rw [if_pos h]

/-- `_ensure_missing_entities` on a non-empty label list is the label
fold. -/
theorem ensureMissingEntities_eq (cfg : CkgConfig) (rid : String)
    (ms : List String) (g : CausalGraph) (d : AugmentDiff)
    (h : ¬ ms.isEmpty = true) :
    ensureMissingEntities cfg rid ms g d
      = ((ms.foldl (ensureMissingEntityStep cfg rid)
          { graph := g
            by_norm := buildByNorm g.get_entities
            diff := d }).graph,
        (ms.foldl (ensureMissingEntityStep cfg rid)
          { graph := g
            by_norm := buildByNorm g.get_entities
            diff := d }).diff) := by
  unfold ensureMissingEntities
  rw [if_neg h]

/-- A second feedback-entity pass over the same labels adds no
feedback entity. -/
theorem ensureMissingEntities_second_run (cfg : CkgConfig) (rid : String)
    (g : CausalGraph) (ms : List String)
    (hlen : (ensureMissingEntities cfg rid ms g
        AugmentDiff.empty).1.entities.length
      = g.entities.length + (ensureMissingEntities cfg rid ms g
          AugmentDiff.empty).2.feedback_added_entities.length) :
    (ensureMissingEntities cfg rid ms
      (ensureMissingEntities cfg rid ms g AugmentDiff.empty).1
      AugmentDiff.empty).2.feedback_added_entities = [] := by
  by_cases hempty : ms.isEmpty = true
  · rw [ensureMissingEntities_isEmpty cfg rid ms _ AugmentDiff.empty
      hempty]
    rfl
  · have h0 := ensureMissingEntities_eq cfg rid ms g AugmentDiff.empty
      hempty
    rw [h0] at hlen
    obtain ⟨f1, f2, f3⟩ := fbEntFold_inv cfg rid ms
      { graph := g
        by_norm := buildByNorm g.get_entities
        diff := AugmentDiff.empty } (by exact hlen)
    have hbacked : ByNormBacked
        { graph := g
          by_norm := buildByNorm g.get_entities
          diff := AugmentDiff.empty } := by
      intro p hp
      rcases foldUpsert_mem (fun e : Entity => normalizeLabel e.label)
          (fun e : Entity => e.id) g.get_entities [] p hp with
        hnil | ⟨e, hem, hek⟩
      · cases hnil
      · exact ⟨e, hem, hek⟩
    have hall2 : ∀ m ∈ ms, normalizeLabel m = "" ∨
        (dictGet (buildByNorm (ms.foldl (ensureMissingEntityStep cfg rid)
          { graph := g
            by_norm := buildByNorm g.get_entities
            diff := AugmentDiff.empty }).graph.get_entities)
          (normalizeLabel m)).isSome = true := by
      intro m hm
      rcases f3 hbacked m hm with hemp | ⟨ent, hent, hkey⟩
      · exact Or.inl hemp
      · right
        exact (foldUpsert_isSome
          (fun e : Entity => normalizeLabel e.label)
          (fun e : Entity => e.id)
          (ms.foldl (ensureMissingEntityStep cfg rid)
            { graph := g
              by_norm := buildByNorm g.get_entities
              diff := AugmentDiff.empty }).graph.get_entities []
          (normalizeLabel m)).mpr (Or.inr ⟨ent, hent, hkey⟩)
    rw [ensureMissingEntities_eq cfg rid ms
      (ensureMissingEntities cfg rid ms g AugmentDiff.empty).1
      AugmentDiff.empty hempty]
    exact fbEntFold_no_adds cfg rid ms
      { graph := (ensureMissingEntities cfg rid ms g AugmentDiff.empty).1
        by_norm := buildByNorm (ensureMissingEntities cfg rid ms g
          AugmentDiff.empty).1.get_entities
        diff := AugmentDiff.empty } (by
          rw [h0]
          exact hall2)

/-- C3 (amended): the idempotent parts of re-augmentation.  Under the
no-overwrite accounting of the first pass (the entity dict grew by exactly
the number of recorded additions — no generated id collided with an
existing one), distinct base ids and a positive fuzzy threshold, a second
entity phase over the same candidates records zero added entities (every
candidate resolves to a merge), and a second feedback-entity pass over the
same labels records zero added feedback entities.  (Feedback-relation
idempotence fails; see the counterexample.) -/
theorem c3_second_pass_idempotence (cfg : CkgConfig) (rid : String) :
    (∀ (g : CausalGraph) (es : List Entity),
      0 < cfg.similarity_threshold →
      (g.entities.map Prod.fst).Nodup →
      (entityPhase cfg g es rid AugmentDiff.empty).graph.entities.length
        = g.entities.length + (entityPhase cfg g es rid
            AugmentDiff.empty).diff.added_entities.length →
      (entityPhase cfg (entityPhase cfg g es rid AugmentDiff.empty).graph
        es rid AugmentDiff.empty).diff.added_entities = []) ∧
    (∀ (g : CausalGraph) (ms : List String),
      (ensureMissingEntities cfg rid ms g
          AugmentDiff.empty).1.entities.length
        = g.entities.length + (ensureMissingEntities cfg rid ms g
            AugmentDiff.empty).2.feedback_added_entities.length →
      (ensureMissingEntities cfg rid ms
        (ensureMissingEntities cfg rid ms g AugmentDiff.empty).1
        AugmentDiff.empty).2.feedback_added_entities = []) :=
  ⟨fun g es hθ hnodup hlen =>
    entityPhase_second_run cfg rid g es hθ hnodup hlen,
   fun g ms hlen =>
    ensureMissingEntities_second_run cfg rid g ms hlen⟩

/-- Witness for C3: on concrete data the second entity phase and the
second feedback-entity pass both record zero additions. -/
theorem c3_second_pass_idempotence_witness :
    (entityPhase cfgC3 (entityPhase cfgC3 gW3 esW3 "r"
        AugmentDiff.empty).graph esW3 "r"
        AugmentDiff.empty).diff.added_entities = [] ∧
    (ensureMissingEntities cfgC3 "r" msW3
      (ensureMissingEntities cfgC3 "r" msW3 gW3 AugmentDiff.empty).1
      AugmentDiff.empty).2.feedback_added_entities = [] :=
  ⟨(c3_second_pass_idempotence cfgC3 "r").1 gW3 esW3 (by decide)
    (by decide) (by decide),
   (c3_second_pass_idempotence cfgC3 "r").2 gW3 msW3 (by decide)⟩

/-- Counterexample for C3: running the feedback phase a second time with
identical feedback adds a new feedback relation.  The first pass resolves
the chain token 投票機制 to nothing and creates a component for it; the
second pass resolves VOTING through that component's normalized key
("voting") and links a pair the first pass never linked. -/
theorem c3_counterexample :
    (fbPhaseC3 (fbPhaseC3 gC3).graph).diff.feedback_added_relations.length
      = 1 := by decide

end DebugAgent
